import Mathlib

/-! Snap package resource: reconciliation engine.

A shallow embedding of `internal/client/package_snap.go` (the snap package
client: `Get`, `Apply`) and of `internal/provider/resource_packages_snap.go`
(diff, create, update, delete, read) together with the properties of the
specification that are settled on it.

Conventions of the embedding
* Go `string` is `String`; Go `error` is `GoError`; `(T, error)` is `Except GoError T`.
* A Go `map[string]V` is a `GoMap V`: an association list whose keys are kept
  unique by `GoMap.set`. The order in which `range` visits a map is unspecified
  in Go; every `range` over a map goes through a `RangeOrder`, an arbitrary
  permutation of the entries.
* The remote machine is a `System`: a function giving the outcome of a command
  from the commands executed before it. Every function that executes commands
  threads the list of executed commands (the command log).
-/

namespace SnapProvider

/-! ## Go runtime: errors, maps, strings -/

/-- Go `error` values: `errors.New` / `fmt.Errorf` leaves and `errors.Join` nodes.
Identity of package-level error variables is approximated by structure. -/
inductive GoError where
  | new (msg : String)
  | join (a b : GoError)
  deriving DecidableEq, Repr

deriving instance DecidableEq for Except

/-- Go `map[string]V`. -/
abbrev GoMap (V : Type) := List (String × V)

namespace GoMap

/-- Lookup `v, ok := m[k]`. -/
def get {V : Type} (m : GoMap V) (k : String) : Option V :=
  match m with
  | [] => none
  | (k0, v) :: rest => if k0 = k then some v else get rest k

/-- Test `_, ok := m[k]`. -/
def contains {V : Type} (m : GoMap V) (k : String) : Bool :=
  (m.get k).isSome

/-- Assignment `m[k] = v`: replaces the value of an existing key, adds a new key otherwise. -/
def set {V : Type} (m : GoMap V) (k : String) (v : V) : GoMap V :=
  match m with
  | [] => [(k, v)]
  | (k0, v0) :: rest => if k0 = k then (k0, v) :: rest else (k0, v0) :: set rest k v

/-- Builtin `delete(m, k)`. -/
def delete {V : Type} (m : GoMap V) (k : String) : GoMap V :=
  m.filter (fun e => decide (e.1 ≠ k))

/-- The keys of the map. -/
def keys {V : Type} (m : GoMap V) : List String :=
  m.map Prod.fst

end GoMap

/-- The order in which a `range` loop visits the entries of a map: any permutation. -/
structure RangeOrder where
  order : {α : Type} → List α → List α
  perm : ∀ {α : Type} (l : List α), (order l).Perm l

/-- Visit the entries as stored. -/
def RangeOrder.stored : RangeOrder := ⟨fun l => l, fun l => List.Perm.refl l⟩

/-- Visit the entries in reverse. -/
def RangeOrder.reversed : RangeOrder := ⟨fun l => l.reverse, fun l => List.reverse_perm l⟩

/-- Go `strings.HasPrefix`. -/
def stringsHasPrefix (s pre : String) : Bool :=
  pre.data.isPrefixOf s.data

/-- Go `strings.Join`. -/
def stringsJoin (elems : List String) (sep : String) : String :=
  match elems with
  | [] => ""
  | [e] => e
  | e :: rest => e ++ sep ++ stringsJoin rest sep

/-! ## Client data model (`internal/client`) -/

/-- Modelled from the spec: `PackageManagerId`, the tag of the adapter variant; in
the source a string type of which `SnapPackageManager` is a constant. -/
abbrev PackageManager := String

/-- The constant `SnapPackageManager`. -/
def SnapPackageManager : PackageManager := "snap"

/-- Modelled from the spec: `PackageState`, the enumeration `{Installed, NotInstalled}`
whose type declaration is not part of the sources at hand. -/
inductive PackageState where
  | PackageInstalled
  | PackageNotInstalled
  deriving DecidableEq, Repr

/-- Modelled from the spec: `PackageVersion`, installed and available version,
the empty string meaning unknown. -/
structure PackageVersion where
  Installed : String := ""
  Available : String := ""
  deriving DecidableEq, Repr

/-- Modelled from the spec: `Package`, with manager, name, version and state. -/
structure Package where
  Manager : PackageManager
  Name : String
  Version : PackageVersion := {}
  State : PackageState
  deriving DecidableEq, Repr

/-- Modelled from the spec: `PackageCollection`, an ordered sequence of packages. -/
abbrev Packages := List Package

/-- Modelled from the spec: stable sort by name (ties broken by original order),
the effect of `sort.SliceStable(pkgs, pkgs.ByName())`. -/
def sortByName (pkgs : Packages) : Packages :=
  pkgs.insertionSort (fun a b => a.Name.data ≤ b.Name.data)

/-- Modelled from the spec: projection to the list of names, `Packages.Names`. -/
def Packages.Names (pkgs : Packages) : List String :=
  pkgs.map Package.Name

/-- Modelled from the spec: projection to a name-keyed map, later duplicates
overwriting earlier ones, `Packages.ToMap`. -/
def Packages.ToMap (pkgs : Packages) : GoMap Package :=
  pkgs.foldl (fun m p => m.set p.Name p) []

/-! ## Remote execution -/

/-- Modelled from the spec: `Command`, an opaque shell snippet string, executed verbatim. -/
abbrev Command := String

/-- The constructor `NewCommand`. -/
def NewCommand (snippet : String) : Command := snippet

/-- Modelled from the spec: `CommandResult`, stdout, stderr (as decoded text) and exit code. -/
structure CommandResult where
  Stdout : String
  Stderr : String
  ExitCode : Int
  deriving DecidableEq, Repr

/-- The remote machine behind the executor: the outcome of a command, given the
commands executed before it. An `error` is a transport error; a non-zero exit
code is a successful execution. -/
abbrev System := List Command → Command → Except GoError CommandResult

/-- Modelled from the spec: `execute(ctx, command) → (CommandResult, error)`, the
function `ExecuteCommand`. The command is appended to the command log. -/
def ExecuteCommand (s : System) (log : List Command) (cmd : Command) :
    Except GoError CommandResult × List Command :=
  (s log cmd, log ++ [cmd])

/-! ## Errors of the snap client (`package_snap.go`, lines 15-23) -/

def ErrSnapPackage : GoError := GoError.new "snap package resource"

def ErrSnapPackageManagerNotAvailable : GoError :=
  GoError.join ErrSnapPackage (GoError.new "snap not available")

def ErrSnapPackageManager : GoError :=
  GoError.join ErrSnapPackage (GoError.new "snap error")

def ErrSnapPackageUnexpected : GoError :=
  GoError.join ErrSnapPackage (GoError.new "unexpected error")

/-! ## Go library: `bufio.Scanner` with `ScanLines`, `strings.Fields` -/

/-- The limit `bufio.MaxScanTokenSize`: a line that does not fit a buffer of this
many bytes stops the scanner with `bufio.ErrTooLong`. -/
def MaxScanTokenSize : Nat := 64 * 1024

/-- The error `bufio.ErrTooLong`. -/
def ErrTooLong : GoError := GoError.new "bufio.Scanner: token too long"

/-- The input cut at every occurrence of the character `sep`; the last piece is
what follows the last occurrence (empty when the input ends with `sep` or is empty). -/
def splitChar (sep : Char) : List Char → List (List Char)
  | [] => [[]]
  | c :: cs =>
    match splitChar sep cs with
    | [] => [[c]]
    | seg :: segs => if c = sep then [] :: seg :: segs else (c :: seg) :: segs

/-- The input cut at every newline character. -/
def splitNewline (input : List Char) : List (List Char) :=
  splitChar (Char.ofNat 10) input

/-- Go `strings.Split(s, "|")`. -/
def stringsSplitBar (s : String) : List String :=
  (splitChar (Char.ofNat 124) s.data).map String.mk

/-- The helper `dropCR` of `bufio.ScanLines`: one trailing carriage return is dropped. -/
def dropCR (line : List Char) : List Char :=
  if line.getLast? = some (Char.ofNat 13) then line.dropLast else line

/-- Size of a piece in bytes (UTF-8). -/
def byteSize (line : List Char) : Nat :=
  (String.mk line).utf8ByteSize

/-- The tokens `Scanner.Scan` delivers with the split function `bufio.ScanLines`,
and the value of `Scanner.Err()` once `Scan` has returned false. A piece that
fills the whole buffer without its newline stops the scan with `ErrTooLong`;
an empty piece after the last newline is no token. -/
def scanLines : List (List Char) → List String × Option GoError
  | [] => ([], none)
  | [last] =>
    if last = [] then ([], none)
    else if MaxScanTokenSize ≤ byteSize last then ([], some ErrTooLong)
    else ([String.mk (dropCR last)], none)
  | seg :: rest =>
    if MaxScanTokenSize ≤ byteSize seg then ([], some ErrTooLong)
    else ((String.mk (dropCR seg)) :: (scanLines rest).1, (scanLines rest).2)

/-- Go `unicode.IsSpace`. -/
def unicodeIsSpace (c : Char) : Bool :=
  decide (c.toNat ∈ [0x09, 0x0A, 0x0B, 0x0C, 0x0D, 0x20, 0x85, 0xA0, 0x1680,
    0x2000, 0x2001, 0x2002, 0x2003, 0x2004, 0x2005, 0x2006, 0x2007, 0x2008, 0x2009, 0x200A,
    0x2028, 0x2029, 0x202F, 0x205F, 0x3000])

/-- The loop of `strings.Fields`; `cur` is the field under construction, reversed. -/
def fieldsLoop (cur : List Char) : List Char → List String
  | [] => if cur = [] then [] else [String.mk cur.reverse]
  | c :: cs =>
    if unicodeIsSpace c then
      (if cur = [] then fieldsLoop [] cs else String.mk cur.reverse :: fieldsLoop [] cs)
    else fieldsLoop (c :: cur) cs

/-- Go `strings.Fields`: the maximal runs of non-space characters. -/
def stringsFields (s : String) : List String :=
  fieldsLoop [] s.data

/-! ## The snap client (`package_snap.go`) -/

/-- The snippet of `Get` (line 37). -/
def snapListCommand : Command :=
  NewCommand "_do() \x7b which snap >/dev/null 2>&1; which_snap_rc=$?; if [ $which_snap_rc -eq 0 ]; then snap list; else echo \"which_snap_rc=$\x7bwhich_snap_rc\x7d\"; fi \x7d; _do;"

/-- The part the two snippets of `Apply` (lines 110 and 113) have in common: the
probe for the snap binary, up to the subcommand. -/
def snapProbe : String :=
  "_do() \x7b which snap >/dev/null 2>&1; which_snap_rc=$?; if [ $which_snap_rc -ne 0 ]; then echo \"which_snap_rc=$\x7bwhich_snap_rc\x7d\"; exit 1; fi; snap "

/-- The snippet of `Apply` for a package to install (line 110), `%s` being the name. -/
def snapInstallCommand (name : String) : Command :=
  NewCommand (snapProbe ++ "install \x27" ++ name ++ "\x27; \x7d; _do;")

/-- The snippet of `Apply` for a package to remove (line 113), `%s` being the name. -/
def snapRemoveCommand (name : String) : Command :=
  NewCommand (snapProbe ++ "remove \x27" ++ name ++ "\x27; \x7d; _do;")

/-- One turn of the parsing loop of `Get` (lines 63-88): the package of a line,
or nothing for an empty line and for a line with fewer than two fields. -/
def parseSnapListLine (line : String) : Option Package :=
  if line = "" then none
  else
    match stringsFields line with
    | snapPackageName :: snapPackageVersion :: _ =>
      some { Manager := SnapPackageManager, Name := snapPackageName,
             Version := { Installed := snapPackageVersion },
             State := PackageState.PackageInstalled }
    | _ => none

/-- The parsing part of `Get` (lines 51-97). -/
def parseSnapList (stdout : String) : Except GoError Packages :=
  match scanLines (splitNewline stdout.data) with
  | ([], _) => Except.error ErrSnapPackageUnexpected
  | (_ :: lines, scanErr) =>
    let pkgs : Packages := lines.filterMap parseSnapListLine
    match scanErr with
    | some err => Except.error (GoError.join ErrSnapPackage err)
    | none => Except.ok (sortByName pkgs)

/-- The method `snapPackageClient.Get`. -/
def Get (s : System) (log : List Command) : Except GoError Packages × List Command :=
  match ExecuteCommand s log snapListCommand with
  | (Except.error err, log1) => (Except.error (GoError.join ErrSnapPackage err), log1)
  | (Except.ok res, log1) =>
    if stringsHasPrefix res.Stdout "which_snap_rc=" && res.Stdout != "which_snap_rc=0" then
      (Except.error ErrSnapPackageManagerNotAvailable, log1)
    else if res.ExitCode ≠ 0 then
      (Except.error ErrSnapPackageUnexpected, log1)
    else
      (parseSnapList res.Stdout, log1)

/-- The command `Apply` builds for one package (lines 107-114); a state that is
neither of the two leaves the zero value of `Command`. -/
def applyCommand (pkg : Package) : Command :=
  if pkg.State = PackageState.PackageInstalled then snapInstallCommand pkg.Name
  else if pkg.State = PackageState.PackageNotInstalled then snapRemoveCommand pkg.Name
  else ""

/-- The loop of `Apply` (lines 106-128). -/
def applyLoop (s : System) (log : List Command) : Packages → Except GoError Unit × List Command
  | [] => (Except.ok (), log)
  | pkg :: rest =>
    match ExecuteCommand s log (applyCommand pkg) with
    | (Except.error err, log1) => (Except.error (GoError.join ErrSnapPackageManager err), log1)
    | (Except.ok res, log1) =>
      if stringsHasPrefix res.Stdout "which_snap_rc=" then
        (Except.error ErrSnapPackageManagerNotAvailable, log1)
      else if res.ExitCode ≠ 0 then
        (Except.error (GoError.join ErrSnapPackageManager (GoError.new res.Stderr)), log1)
      else applyLoop s log1 rest

/-- The method `snapPackageClient.Apply`. -/
def Apply (s : System) (log : List Command) (pkgs : Packages) :
    Except GoError Unit × List Command :=
  if pkgs.length = 0 then (Except.ok (), log)
  else applyLoop s log pkgs

/-! ## The resource (`resource_packages_snap.go`) -/

/-- A block of the `package` set as `Set.List()` delivers it, reduced to its only
user-provided attribute `name`; the computed `versions` are never read by the
functions embedded here. -/
abbrev PackageBlock := String

/-- The struct `resourcePackagesSnapInternalData`; `none` is the nil map. -/
structure resourcePackagesSnapInternalData where
  PreInstalled : Option (GoMap Bool)
  deriving DecidableEq, Repr

/-- An item of the set `flattenPackagesSnapPackage` builds (lines 174-190): the
attribute `name` and the computed attribute `versions`, a list of one map. -/
structure PackageItem where
  name : String
  versions : List (GoMap String)
  deriving DecidableEq, Repr

/-- SDK `schema.Set` with the hash of line 170,
`schema.HashResource(resourcePackagesSnapPackageSchema())`: the hash code of an
item is computed from the attributes of the schema that are required or
optional, here `name` alone, the computed `versions` being left out, and two
names are taken to have two hash codes. The set is the list of its items, one
for a name, in the order they were added; it has no order of its own. -/
abbrev PackageSet := List PackageItem

/-- SDK `schema.NewSet` with no items. -/
def newPackageSet : PackageSet := []

/-- SDK `Set.Add`: the item is stored under its hash code unless the set has an
item under that code. -/
def setAdd (set : PackageSet) (item : PackageItem) : PackageSet :=
  if set.any (fun x => x.name == item.name) then set else set ++ [item]

/-- SDK `Set.List`: the items in the order of their hash codes, which the names
do not tell: any order, taken from `ρ`. -/
def setList (ρ : RangeOrder) (set : PackageSet) : List PackageItem :=
  ρ.order set

/-- What the functions of the resource read and write of `schema.ResourceData`.
The attribute `package` is a set of blocks hashed by name; `prevPackage` is its
old value as `GetChange` and `Set.List()` deliver it, `package` its new value
and, once `d.Set` has written the attribute, the written value, which the state
keeps and which is the old value of the next operation; both hold the blocks
reduced to the name. `versions` holds the computed attribute `versions` of the
blocks that `d.Set` has written, by the name of the block. `id` is the resource
ID and `internal` the decoded field `pre_installed` of the persisted internal
state (`none` when the field is absent). -/
structure ResourceData where
  prevPackage : List PackageBlock
  package : List PackageBlock
  id : String
  internal : Option (GoMap Bool)
  versions : GoMap (List (GoMap String))
  deriving DecidableEq, Repr

/-- Modelled from the spec: the persisted internal state has one field
`pre_installed`; `getInternalData` decodes it. -/
def getInternalData (d : ResourceData) : resourcePackagesSnapInternalData :=
  { PreInstalled := d.internal }

/-- Modelled from the spec: `setInternalData` persists the field `pre_installed`,
omitted entirely when empty. -/
def setInternalData (d : ResourceData) (internalData : resourcePackagesSnapInternalData) :
    ResourceData :=
  match internalData.PreInstalled with
  | none => { d with internal := none }
  | some m => { d with internal := if m.isEmpty then none else some m }

/-- Modelled from the spec: zero value of `PackageState`, the state of a
`Package` literal that sets none; every use below overwrites it. -/
def PackageState.zeroValue : PackageState := PackageState.PackageInstalled

/-- The function `resourcePackagesSnapIdFromPackages`. -/
def resourcePackagesSnapIdFromPackages (pkgs : Packages) : String :=
  stringsJoin pkgs.Names "|"

/-- The function `packageNamesFromResourcePackagesSnapId`. -/
def packageNamesFromResourcePackagesSnapId (id : String) : List String :=
  stringsSplitBar id

/-- The error of line 129, `errors.New("empty package name not allowed")`. -/
def errEmptyName : GoError := GoError.new "empty package name not allowed"

/-- The error of line 133, `fmt.Errorf("duplicate package name %s", pkgName)`. -/
def errDuplicateName (pkgName : String) : GoError :=
  GoError.new ("duplicate package name " ++ pkgName)

/-- The loop of `expandPackagesSnapPackageSet` (lines 121-137). -/
def expandSetLoop (pkgsDataMap : GoMap PackageBlock) :
    List PackageBlock → Except GoError (GoMap PackageBlock)
  | [] => Except.ok pkgsDataMap
  | pkgName :: rest =>
    if pkgName = "" then
      Except.error errEmptyName
    else if pkgsDataMap.contains pkgName then
      Except.error (errDuplicateName pkgName)
    else expandSetLoop (pkgsDataMap.set pkgName pkgName) rest

/-- The function `expandPackagesSnapPackageSet`; the value read through the
schema is always a set of blocks, so the two type assertions succeed. -/
def expandPackagesSnapPackageSet (v : List PackageBlock) : Except GoError (GoMap PackageBlock) :=
  expandSetLoop [] v

/-- The package literal of `expandPackagesSnapPackage` (lines 153-156). -/
def newPackage (pkgName : String) : Package :=
  { Manager := SnapPackageManager, Name := pkgName, State := PackageState.zeroValue }

/-- The function `expandPackagesSnapPackage`. -/
def expandPackagesSnapPackage (ρ : RangeOrder) (v : List PackageBlock) :
    Except GoError (GoMap Package) :=
  match expandPackagesSnapPackageSet v with
  | Except.error err => Except.error err
  | Except.ok pkgsDataMap =>
    Except.ok ((ρ.order pkgsDataMap).foldl
      (fun pkgsMap e => pkgsMap.set e.1 (newPackage e.1)) [])

/-- The function `resourcePackagesSnapGetResourceData`: the apply plan. -/
def resourcePackagesSnapGetResourceData (ρ : RangeOrder) (d : ResourceData) :
    Except GoError Packages :=
  match expandPackagesSnapPackage ρ d.package with
  | Except.error err => Except.error err
  | Except.ok packageMap =>
    match expandPackagesSnapPackage ρ d.prevPackage with
    | Except.error err => Except.error err
    | Except.ok prevPackageMap =>
      let installed : Packages := (ρ.order packageMap).map
        (fun e => { e.2 with State := PackageState.PackageInstalled })
      let uninstalled : Packages := (ρ.order prevPackageMap).filterMap
        (fun e => if packageMap.contains e.1 then none
                  else some { e.2 with State := PackageState.PackageNotInstalled })
      Except.ok (sortByName (installed ++ uninstalled))

/-- One turn of the loop of `resourcePackagesSnapApply` over the plan (lines 294-305). -/
def recordStep (preApplyPackagesMap : GoMap Package) (preInstalled : GoMap Bool)
    (pkg : Package) : GoMap Bool :=
  if pkg.State = PackageState.PackageInstalled then
    if preInstalled.contains pkg.Name then preInstalled
    else
      preInstalled.set pkg.Name
        (match preApplyPackagesMap.get pkg.Name with
         | some preApplyPkg => decide (preApplyPkg.State = PackageState.PackageInstalled)
         | none => false)
  else if pkg.State = PackageState.PackageNotInstalled then
    preInstalled.delete pkg.Name
  else preInstalled

/-- The function `resourcePackagesSnapApply`: result, resource data and command log.
The client is built from the provider configuration and the internal data is
decoded and encoded without error; on every error the resource data is returned
as it was. -/
def resourcePackagesSnapApply (ρ : RangeOrder) (s : System) (log : List Command)
    (d : ResourceData) : Except GoError Packages × ResourceData × List Command :=
  match Get s log with
  | (Except.error err, log1) => (Except.error err, d, log1)
  | (Except.ok preApplyPackages, log1) =>
    let preApplyPackagesMap := preApplyPackages.ToMap
    match resourcePackagesSnapGetResourceData ρ d with
    | Except.error diagErr => (Except.error diagErr, d, log1)
    | Except.ok r =>
      match Apply s log1 r with
      | (Except.error err, log2) => (Except.error err, d, log2)
      | (Except.ok _, log2) =>
        let internalData := getInternalData d
        let preInstalled : GoMap Bool :=
          match internalData.PreInstalled with
          | none => []
          | some m => m
        let preInstalled1 := r.foldl (recordStep preApplyPackagesMap) preInstalled
        (Except.ok r, setInternalData d { internalData with PreInstalled := some preInstalled1 },
          log2)

/-- Modelled from the spec: filter by name-set, `Filter(PackageNameFilter(names...))`. -/
def filterByNames (pkgs : Packages) (names : List String) : Packages :=
  pkgs.filter (fun p => decide (p.Name ∈ names))

/-- Modelled from the spec: filter by state, `Filter(PackageStateFiler(state))`. -/
def filterByState (pkgs : Packages) (state : PackageState) : Packages :=
  pkgs.filter (fun p => decide (p.State = state))

/-- The map `pkgVersions` of `flattenPackagesSnapPackage` (lines 180-188). -/
def flattenVersions (v : PackageVersion) : GoMap String :=
  let pkgVersions : GoMap String := []
  let pkgVersions :=
    if v.Installed ≠ "" then pkgVersions.set "installed" v.Installed else pkgVersions
  if v.Available ≠ "" then pkgVersions.set "available" v.Available else pkgVersions

/-- The function `flattenPackagesSnapPackage`; for the nil collection the source
returns the nil set, which `d.Set` writes as the set without items. -/
def flattenPackagesSnapPackage (v : Packages) : PackageSet :=
  v.foldl (fun packageSet clientPkg =>
    setAdd packageSet
      { name := clientPkg.Name, versions := [flattenVersions clientPkg.Version] })
    newPackageSet

/-- The function `resourcePackagesSnapSetResourceData`: the set built from the
packages becomes the value of the attribute `package`, kept here as the list
that `Set.List()` delivers of it; `d.Set` does not fail on it, and its error is
dropped in any case. -/
def resourcePackagesSnapSetResourceData (ρ : RangeOrder) (r : Packages) (d : ResourceData) :
    ResourceData :=
  let items := setList ρ (flattenPackagesSnapPackage r)
  { d with package := items.map PackageItem.name,
           versions := items.map (fun x => (x.name, x.versions)) }

/-- The function `resourcePackagesSnapRead`: error, resource data and command log. -/
def resourcePackagesSnapRead (ρ : RangeOrder) (s : System) (log : List Command)
    (d : ResourceData) : Option GoError × ResourceData × List Command :=
  let packageNames := packageNamesFromResourcePackagesSnapId d.id
  match Get s log with
  | (Except.error err, log1) => (some err, d, log1)
  | (Except.ok r, log1) =>
    let r1 := filterByNames r packageNames
    let r2 := filterByState r1 PackageState.PackageInstalled
    (none, resourcePackagesSnapSetResourceData ρ r2 d, log1)

/-- The function `resourcePackagesSnapCreate`. -/
def resourcePackagesSnapCreate (ρ : RangeOrder) (s : System) (log : List Command)
    (d : ResourceData) : Option GoError × ResourceData × List Command :=
  match resourcePackagesSnapApply ρ s log d with
  | (Except.error diagErr, d1, log1) => (some diagErr, d1, log1)
  | (Except.ok r, d1, log1) =>
    let id := resourcePackagesSnapIdFromPackages r
    resourcePackagesSnapRead ρ s log1 { d1 with id := id }

/-- The function `resourcePackagesSnapUpdate`. -/
def resourcePackagesSnapUpdate (ρ : RangeOrder) (s : System) (log : List Command)
    (d : ResourceData) : Option GoError × ResourceData × List Command :=
  match resourcePackagesSnapApply ρ s log d with
  | (Except.error diagErr, d1, log1) => (some diagErr, d1, log1)
  | (Except.ok r, d1, log1) =>
    let id := resourcePackagesSnapIdFromPackages r
    resourcePackagesSnapRead ρ s log1 { d1 with id := id }

/-- One turn of the loop of `resourcePackagesSnapDelete` (lines 387-398): the
state of the package is overwritten from the record. -/
def restoreState (internalData : resourcePackagesSnapInternalData) (pkg : Package) : Package :=
  match internalData.PreInstalled with
  | some preInstalled =>
    match preInstalled.get pkg.Name with
    | some true => { pkg with State := PackageState.PackageInstalled }
    | _ => { pkg with State := PackageState.PackageNotInstalled }
  | none => { pkg with State := PackageState.PackageNotInstalled }

/-- The collection `resourcePackagesSnapDelete` hands to `Apply` (lines 375-398). -/
def resourcePackagesSnapDeletePlan (ρ : RangeOrder) (d : ResourceData) :
    Except GoError Packages :=
  match resourcePackagesSnapGetResourceData ρ d with
  | Except.error diagErr => Except.error diagErr
  | Except.ok r => Except.ok (r.map (restoreState (getInternalData d)))

/-- The function `resourcePackagesSnapDelete`: error and command log. -/
def resourcePackagesSnapDelete (ρ : RangeOrder) (s : System) (log : List Command)
    (d : ResourceData) : Option GoError × List Command :=
  match resourcePackagesSnapDeletePlan ρ d with
  | Except.error diagErr => (some diagErr, log)
  | Except.ok r =>
    match Apply s log r with
    | (Except.error err, log1) => (some err, log1)
    | (Except.ok _, log1) => (none, log1)

/-! ## Notions used to state the properties -/

/-- The plan entry of a package that is to be installed. -/
def wantInstalled (name : String) : Package :=
  { Manager := SnapPackageManager, Name := name, State := PackageState.PackageInstalled }

/-- The plan entry of a package that is to be removed. -/
def wantRemoved (name : String) : Package :=
  { Manager := SnapPackageManager, Name := name, State := PackageState.PackageNotInstalled }

/-- The entries the plan is made of: the current names to install, then the
names that only the previous declaration has, to remove. -/
def planEntries (prev cur : List PackageBlock) : Packages :=
  cur.map wantInstalled ++ (prev.filter (fun n => decide (n ∉ cur))).map wantRemoved

/-- The entry of the PreInstalledRecord persisted in `d` for a package name, if any. -/
def recorded (d : ResourceData) (name : String) : Option Bool :=
  match d.internal with
  | none => none
  | some m => m.get name

/-- The record as the loop of `resourcePackagesSnapApply` starts from it (lines 289-292). -/
def recordBefore (d : ResourceData) : GoMap Bool :=
  match (getInternalData d).PreInstalled with
  | none => []
  | some m => m

/-- The entry of the record for the name of a plan entry `p` after the turn of the
loop of `resourcePackagesSnapApply` for `p`, from the entry `old` before it. -/
def recordValue (preApplyPackagesMap : GoMap Package) (old : Option Bool) (p : Package) :
    Option Bool :=
  if p.State = PackageState.PackageInstalled then
    match old with
    | some b => some b
    | none =>
      some (match preApplyPackagesMap.get p.Name with
            | some preApplyPkg => decide (preApplyPkg.State = PackageState.PackageInstalled)
            | none => false)
  else if p.State = PackageState.PackageNotInstalled then none
  else old

/-- Whether the inventory has a package of that name in state Installed. -/
def listedInstalled (inventory : Packages) (name : String) : Bool :=
  decide (∃ q ∈ inventory, q.Name = name ∧ q.State = PackageState.PackageInstalled)

/-- The error of an `(_, error)` result, `none` for nil. -/
def errorOf {α : Type} (r : Except GoError α) : Option GoError :=
  match r with
  | Except.error err => some err
  | Except.ok _ => none

/-- An error of the expansion of the declaration `D`: the duplicate-name error
of a name that `D` has twice, or the empty-name error when `D` has an empty name. -/
def isDeclarationError (D : List PackageBlock) (e : GoError) : Prop :=
  (e = errEmptyName ∧ "" ∈ D) ∨ ∃ n, e = errDuplicateName n ∧ 1 < D.count n

/-- The code a sentinel line carries: the decimal number that follows
`which_snap_rc=` at the very start of stdout, if stdout starts so. -/
def sentinelCode (stdout : String) : Option Nat :=
  if stringsHasPrefix stdout "which_snap_rc=" then
    let digits := (stdout.data.drop "which_snap_rc=".length).takeWhile Char.isDigit
    if digits = [] then none
    else some (digits.foldl (fun n c => 10 * n + (c.toNat - 48)) 0)
  else none

/-- The sentinel check of `Get` (line 43). -/
def getSentinelCheck (stdout : String) : Bool :=
  stringsHasPrefix stdout "which_snap_rc=" && stdout != "which_snap_rc=0"

/-- Whether the outcome of a command makes `Apply` stop: a transport error, the
sentinel on stdout, or a non-zero exit code. -/
def commandFails (s : System) (log : List Command) (cmd : Command) : Bool :=
  match s log cmd with
  | Except.error _ => true
  | Except.ok res => stringsHasPrefix res.Stdout "which_snap_rc=" || decide (res.ExitCode ≠ 0)

/-- Whether the command of the package at position `i` of the collection fails
when it is executed after the commands of all the packages before it. -/
def failsAt (s : System) (log : List Command) (pkgs : Packages) (i : Nat) : Bool :=
  match pkgs.get? i with
  | none => false
  | some p => commandFails s (log ++ (pkgs.take i).map applyCommand) (applyCommand p)

/-- The start of the two snippets of `Apply`: the probe for the snap binary, up to
the point where the snap subcommand begins. -/
def probeGuard : String :=
  "_do() \x7b which snap >/dev/null 2>&1; which_snap_rc=$?; if [ $which_snap_rc -ne 0 ]; then echo \"which_snap_rc=$\x7bwhich_snap_rc\x7d\"; exit 1; fi; "

/-- The lines of a text, from its pieces between newline characters: what follows
the last newline is a line only when it is not empty. -/
def linesOfPieces : List (List Char) → List (List Char)
  | [] => []
  | [last] => if last = [] then [] else [last]
  | seg :: rest => seg :: linesOfPieces rest

/-- The lines of the listing: the text cut at the newline characters, one trailing
carriage return dropped from each line. -/
def listingLines (stdout : String) : List String :=
  (linesOfPieces (splitNewline stdout.data)).map (fun l => String.mk (dropCR l))

/-- The row a line of the listing stands for, in the words of the specification:
the line is cut into whitespace-separated tokens, the first token is the name,
the second the installed version, further tokens are ignored, the state is
Installed and no available version is given; a line with fewer than two tokens
(an empty line has none) stands for no row. -/
def rowOfLine (line : String) : Option Package :=
  match stringsFields line with
  | name :: version :: _ =>
    some { Manager := SnapPackageManager, Name := name,
           Version := { Installed := version, Available := "" },
           State := PackageState.PackageInstalled }
  | _ => none

/-- The rows of the listing in their order of appearance: one for each line after
the first that has at least two tokens. -/
def listingRows (stdout : String) : Packages :=
  (listingLines stdout).tail.filterMap rowOfLine

/-- Whether the first line of the text is too long for the scanner: its first
piece has `MaxScanTokenSize` bytes or more. -/
def firstLineTooLong (stdout : String) : Prop :=
  MaxScanTokenSize ≤ byteSize ((splitNewline stdout.data).headD [])

/-! ## Example machines and resource data -/

/-- A remote machine on which every command succeeds silently. -/
def systemQuiet : System :=
  fun _ _ => Except.ok { Stdout := "", Stderr := "", ExitCode := 0 }

/-- A remote machine whose snap lists `core` and on which every other command
succeeds silently. -/
def systemCoreListed : System :=
  fun _ cmd =>
    if cmd = snapListCommand then
      Except.ok { Stdout := "Name Version Rev\ncore 16-2.61 17200\n", Stderr := "", ExitCode := 0 }
    else Except.ok { Stdout := "", Stderr := "", ExitCode := 0 }

/-- A remote machine whose snap lists no package, installs anything and fails to
remove `hello`. -/
def systemRemoveFails : System :=
  fun _ cmd =>
    if cmd = snapListCommand then
      Except.ok { Stdout := "Name Version Rev\n", Stderr := "", ExitCode := 0 }
    else if cmd = snapRemoveCommand "hello" then
      Except.ok { Stdout := "", Stderr := "error: cannot remove hello", ExitCode := 1 }
    else Except.ok { Stdout := "", Stderr := "", ExitCode := 0 }

/-- A remote machine whose snap lists `core` and fails every other command. -/
def systemInstallFails : System :=
  fun _ cmd =>
    if cmd = snapListCommand then
      Except.ok { Stdout := "Name Version Rev\ncore 16-2.61 17200\n", Stderr := "", ExitCode := 0 }
    else Except.ok { Stdout := "", Stderr := "error: cannot install", ExitCode := 1 }

/-- A remote machine without snap: every snippet prints the sentinel line. -/
def systemNoSnap : System :=
  fun _ cmd =>
    if cmd = snapListCommand then
      Except.ok { Stdout := "which_snap_rc=1\n", Stderr := "", ExitCode := 0 }
    else Except.ok { Stdout := "which_snap_rc=1\n", Stderr := "", ExitCode := 1 }

/-- A remote machine whose snap lists `core` twice, around `bare`. -/
def systemCoreTwice : System :=
  fun _ _ => Except.ok
    { Stdout := "Name Version Rev\ncore 2 x\nbare 1 y\n\ncore 1 z\nodd\n", Stderr := "",
      ExitCode := 0 }

/-- A remote machine that answers every command with the given stdout and exit code. -/
def systemAnswering (stdout : String) (exitCode : Int) : System :=
  fun _ _ => Except.ok { Stdout := stdout, Stderr := "", ExitCode := exitCode }

/-- The sentinel result of a machine without snap, with an exit code of choice. -/
def sentinelResult (exitCode : Int) : CommandResult :=
  { Stdout := "which_snap_rc=1\n", Stderr := "", ExitCode := exitCode }

/-- A line of `MaxScanTokenSize` letters. -/
def longLine : List Char := List.replicate MaxScanTokenSize (Char.ofNat 97)

/-- A listing whose only line is a header of `MaxScanTokenSize` letters. -/
def longHeaderListing : String := String.mk longLine

/-- A listing with a short header and one row whose name has `MaxScanTokenSize`
letters, followed by the version `1`. -/
def longRowListing : String :=
  String.mk ("Name Version Rev".data ++ Char.ofNat 10 ::
    ((longLine ++ " 1".data) ++ [Char.ofNat 10]))

/-- The resource data of a create of `{hello, core}`. -/
def dataCreateHelloCore : ResourceData :=
  { prevPackage := [], package := ["hello", "core"], id := "", internal := none, versions := [] }

/-- The resource data of a create of `{core}`. -/
def dataCreateCore : ResourceData :=
  { prevPackage := [], package := ["core"], id := "", internal := none, versions := [] }

/-- The resource data of a create of `{hello, hello-world}`. -/
def dataCreateHelloWorld : ResourceData :=
  { prevPackage := [], package := ["hello", "hello-world"], id := "", internal := none,
    versions := [] }

/-- The resource data of a create of the single name `a|b`. -/
def dataCreateBarName : ResourceData :=
  { prevPackage := [], package := ["a|b"], id := "", internal := none, versions := [] }

/-- The resource data of an update from `{core}` to `{core, hello}`, `core` being
recorded as not installed before management. -/
def dataUpdateAddHello : ResourceData :=
  { prevPackage := ["core"], package := ["core", "hello"], id := "core",
    internal := some [("core", false)], versions := [] }

/-- The resource data of an update from `{hello, hello-world}` to `{hello}`. -/
def dataUpdateDropHelloWorld : ResourceData :=
  { prevPackage := ["hello", "hello-world"], package := ["hello"], id := "hello|hello-world",
    internal := some [("hello", false), ("hello-world", false)], versions := [] }

/-- The resource data of an update from `{hello, core}` to `{hello}`, `core` being
recorded as installed before management. -/
def dataUpdateDropCore : ResourceData :=
  { prevPackage := ["hello", "core"], package := ["hello"], id := "core|hello",
    internal := some [("core", true), ("hello", false)], versions := [] }

/-- The resource data of the reconciliation that follows the update from
`{hello, hello-world}` to `{hello}`: previous and current declaration are
`{hello}`, record and ID are those the update left. -/
def dataSecondRunHello : ResourceData :=
  { prevPackage := ["hello"], package := ["hello"], id := "hello|hello-world",
    internal := some [("hello", false)], versions := [] }

/-- The resource data of the reconciliation that follows the create of
`{hello, core}` on the machine that lists `core`: previous and current
declaration are `{hello, core}`, record and ID are those the create left. -/
def dataSecondRunHelloCore : ResourceData :=
  { prevPackage := ["hello", "core"], package := ["hello", "core"], id := "core|hello",
    internal := some [("core", true), ("hello", false)], versions := [] }

/-- The resource after a create of `{core, hello}` that found `core` installed. -/
def dataCoreHello : ResourceData :=
  { prevPackage := ["core", "hello"], package := ["core", "hello"], id := "core|hello",
    internal := some [("core", true), ("hello", false)], versions := [] }

/-- Go library `errors.Is`: whether the error tree `err` holds `target`, that is
whether `err` is `target` or, for a joined error, whether one of its parts holds it. -/
def errorsIs (err target : GoError) : Bool :=
  err == target ||
    match err with
    | GoError.new _ => false
    | GoError.join a b => errorsIs a target || errorsIs b target

/-- A transport error of the executor: the connection to the machine is lost. -/
def errConnectionLost : GoError := GoError.new "ssh: connection lost"

/-- A remote machine that cannot be reached: every command ends in a transport
error. -/
def systemUnreachable : System :=
  fun _ _ => Except.error errConnectionLost

/-- The single-quote character of the shell. -/
def shellQuote : Char := Char.ofNat 39

/-- The start of the install snippet of `Apply`, up to and including the quote
that opens the package name. -/
def installStart : String := probeGuard ++ "snap install \x27"

/-- The start of the remove snippet of `Apply`, up to and including the quote
that opens the package name. -/
def removeStart : String := probeGuard ++ "snap remove \x27"

/-- The end of the two snippets of `Apply`, from the quote that closes the
package name. -/
def snippetEnd : String := "\x27; \x7d; _do;"

/-- What a POSIX shell reads after an opening single quote: the quoted word runs
to the next single quote, no character being an escape inside single quotes, and
the text after that quote is shell syntax again. -/
def singleQuotedWord (afterQuote : List Char) : List Char × List Char :=
  (afterQuote.takeWhile (fun c => c != shellQuote),
    ((afterQuote.dropWhile (fun c => c != shellQuote)).drop 1))

/-- A package name with single quotes in it. -/
def quoteName : String := "x\x27; reboot; \x27"

/-- The resource data of a create of the package named `quoteName`. -/
def dataCreateQuoteName : ResourceData :=
  { prevPackage := [], package := [quoteName], id := "", internal := none, versions := [] }

/-- The keys of the persisted PreInstalledRecord. -/
def recordKeys (d : ResourceData) : List String :=
  match d.internal with
  | none => []
  | some m => m.keys

/-- The resource data an update to the declaration `D` works on, `d` being the
data the operation before it left: `GetChange` delivers as the old value the
value of `package` in the state, which the last read-back or refresh has
written, and `D` as the new value; ID and record are those of `d`. -/
def updateData (d : ResourceData) (D : List PackageBlock) : ResourceData :=
  { d with prevPackage := d.package, package := D }

/-- The current declaration and the resource data that a sequence of successful
operations leads to: a create that starts without old value of `package` and
with an empty PreInstalledRecord, followed by any number of refreshes
(`resourcePackagesSnapRead`) and updates, each on any machine and with any
iteration order. Every operation works on the data the operation before it left.
With `surfaced` set, every update of the sequence finds the names it drops from
the declaration in the old value of `package`. -/
inductive Reachable (surfaced : Bool) : List PackageBlock → ResourceData → Prop where
  | create (ρ : RangeOrder) (s : System) (log : List Command) (d0 d1 : ResourceData)
      (log1 : List Command) (hprev : d0.prevPackage = []) (hrec : d0.internal = none)
      (h : resourcePackagesSnapCreate ρ s log d0 = (none, d1, log1)) :
      Reachable surfaced d0.package d1
  | refresh (D : List PackageBlock) (d : ResourceData) (hd : Reachable surfaced D d)
      (ρ : RangeOrder) (s : System) (log : List Command) (d1 : ResourceData)
      (log1 : List Command) (h : resourcePackagesSnapRead ρ s log d = (none, d1, log1)) :
      Reachable surfaced D d1
  | update (D : List PackageBlock) (d : ResourceData) (hd : Reachable surfaced D d)
      (ρ : RangeOrder) (s : System) (log : List Command) (D2 : List PackageBlock)
      (d2 : ResourceData) (log2 : List Command)
      (hs : surfaced = true → ∀ n ∈ D, n ∉ D2 → n ∈ d.package)
      (h : resourcePackagesSnapUpdate ρ s log (updateData d D2) = (none, d2, log2)) :
      Reachable surfaced D2 d2

/-- A remote machine whose snap lists `hello` and `hello-world` and on which every
other command succeeds silently. -/
def systemHelloListed : System :=
  fun _ cmd =>
    if cmd = snapListCommand then
      Except.ok { Stdout := "Name Version Rev\nhello 2.10 42\nhello-world 6.4 29\n",
                  Stderr := "", ExitCode := 0 }
    else Except.ok { Stdout := "", Stderr := "", ExitCode := 0 }

/-- The resource data after the create of `{hello, hello-world}` on the machine
`s`. -/
def dataAfterCreateHelloWorld (s : System) : ResourceData :=
  (resourcePackagesSnapCreate RangeOrder.stored s [] dataCreateHelloWorld).2.1

/-- The resource data after the create of `{hello, hello-world}` and the update to
`{hello}` that follows it, both on the machine `s`. -/
def dataAfterUpdateHello (s : System) : ResourceData :=
  (resourcePackagesSnapUpdate RangeOrder.stored s []
    (updateData (dataAfterCreateHelloWorld s) ["hello"])).2.1

/-- The command `Apply` has executed for the package at position `i` of the
collection: the entry of the command log at position `i` after the commands that
were executed before the call, if the log has one. -/
def executedFor (s : System) (log : List Command) (pkgs : Packages) (i : Nat) :
    Option Command :=
  (Apply s log pkgs).2.get? (log.length + i)

/-- The snippet of a package in the words of the specification: install-with-probe
for state Installed and remove-with-probe for state NotInstalled, the name of the
package between single quotes. -/
def snippetOf (p : Package) : Command :=
  match p.State with
  | PackageState.PackageInstalled =>
    probeGuard ++ "snap install \x27" ++ p.Name ++ "\x27; \x7d; _do;"
  | PackageState.PackageNotInstalled =>
    probeGuard ++ "snap remove \x27" ++ p.Name ++ "\x27; \x7d; _do;"

/-- The value of the attribute `package` that a declaration gives, as `Set.List()`
delivers it: the SDK adds the blocks of the declaration, whose computed
`versions` are not known, to a set with the hash of the block schema, so that
the blocks of one name are one item of the set. -/
def declaredPackage (ρ : RangeOrder) (blocks : List PackageBlock) : List PackageBlock :=
  (setList ρ (blocks.foldl (fun set name => setAdd set { name := name, versions := [] })
    newPackageSet)).map PackageItem.name

/-- The resource data of a create whose declaration has the block of `hello` twice. -/
def dataCreateHelloTwice : ResourceData :=
  { prevPackage := [], package := declaredPackage RangeOrder.stored ["hello", "hello"],
    id := "", internal := none, versions := [] }

/-- The resource data of a create whose declaration has a block with the empty
name. -/
def dataCreateEmptyName : ResourceData :=
  { prevPackage := [], package := declaredPackage RangeOrder.stored [""],
    id := "", internal := none, versions := [] }

/-! ## Properties: maps -/

namespace GoMap

theorem get_nil {V : Type} (k : String) : get ([] : GoMap V) k = none := rfl

theorem get_cons {V : Type} (k0 : String) (v : V) (rest : GoMap V) (k : String) :
    get ((k0, v) :: rest) k = if k0 = k then some v else get rest k := rfl

theorem get_eq_none_iff {V : Type} (m : GoMap V) (k : String) :
    m.get k = none ↔ k ∉ m.keys := by
  induction m with
  | nil => simp [get, keys]
  | cons e rest ih =>
    obtain ⟨k0, v⟩ := e
    rw [get_cons]
    by_cases h : k0 = k
    · simp [h, keys]
    · have h2 : ¬ k = k0 := fun h3 => h h3.symm
      simp only [keys, List.map_cons, List.mem_cons, not_or] at ih ⊢
      simp [h, h2, ih]

theorem contains_iff {V : Type} (m : GoMap V) (k : String) :
    m.contains k = true ↔ k ∈ m.keys := by
  unfold contains
  rw [Option.isSome_iff_ne_none, ne_eq, get_eq_none_iff, not_not]

theorem contains_false_iff {V : Type} (m : GoMap V) (k : String) :
    m.contains k = false ↔ k ∉ m.keys := by
  rw [← contains_iff, Bool.not_eq_true]

theorem set_of_not_mem {V : Type} (m : GoMap V) (k : String) (v : V) (h : k ∉ m.keys) :
    m.set k v = m ++ [(k, v)] := by
  induction m with
  | nil => rfl
  | cons e rest ih =>
    obtain ⟨k0, v0⟩ := e
    simp only [keys, List.map_cons, List.mem_cons, not_or] at h
    have h2 : ¬ k0 = k := fun h3 => h.1 h3.symm
    simp only [set, h2, if_false, List.cons_append]
    rw [ih h.2]

theorem get_set_self {V : Type} (m : GoMap V) (k : String) (v : V) :
    (m.set k v).get k = some v := by
  induction m with
  | nil => simp [set, get]
  | cons e rest ih =>
    obtain ⟨k0, v0⟩ := e
    by_cases h : k0 = k
    · simp [set, get, h]
    · simp [set, get, h, ih]

theorem get_set_other {V : Type} (m : GoMap V) (k : String) (v : V) (k1 : String)
    (hne : k1 ≠ k) : (m.set k v).get k1 = m.get k1 := by
  induction m with
  | nil =>
    have h2 : ¬ k = k1 := fun h3 => hne h3.symm
    simp [set, get, h2]
  | cons e rest ih =>
    obtain ⟨k0, v0⟩ := e
    by_cases h : k0 = k
    · subst h
      have h2 : ¬ k0 = k1 := fun h3 => hne h3.symm
      simp [set, get, h2]
    · by_cases h1 : k0 = k1
      · subst h1
        simp [set, get, h]
      · simp [set, get, h, h1, ih]

theorem delete_cons {V : Type} (k0 : String) (v0 : V) (rest : GoMap V) (k : String) :
    delete ((k0, v0) :: rest) k = if k0 = k then delete rest k else (k0, v0) :: delete rest k := by
  by_cases h : k0 = k
  · simp [delete, h]
  · simp [delete, h]

theorem get_delete_self {V : Type} (m : GoMap V) (k : String) :
    (m.delete k).get k = none := by
  rw [get_eq_none_iff]
  simp [delete, keys]

theorem get_delete_other {V : Type} (m : GoMap V) (k k1 : String) (hne : k1 ≠ k) :
    (m.delete k).get k1 = m.get k1 := by
  induction m with
  | nil => rfl
  | cons e rest ih =>
    obtain ⟨k0, v0⟩ := e
    rw [delete_cons]
    by_cases h : k0 = k
    · subst h
      have h2 : ¬ k0 = k1 := fun h3 => hne h3.symm
      rw [if_pos rfl, ih, get_cons, if_neg h2]
    · rw [if_neg h, get_cons, get_cons, ih]

theorem get_of_perm {V : Type} {m1 m2 : GoMap V} (hp : m1.Perm m2) (hnd : m1.keys.Nodup)
    (k : String) : m1.get k = m2.get k := by
  induction hp with
  | nil => rfl
  | cons e _ ih =>
    obtain ⟨k0, v⟩ := e
    simp only [keys, List.map_cons, List.nodup_cons] at hnd
    simp only [get_cons]
    rw [ih hnd.2]
  | swap e1 e2 l =>
    obtain ⟨k1, v1⟩ := e1
    obtain ⟨k2, v2⟩ := e2
    simp only [keys, List.map_cons, List.nodup_cons, List.mem_cons, not_or] at hnd
    simp only [get_cons]
    by_cases h1 : k1 = k
    · by_cases h2 : k2 = k
      · exact absurd (h2.trans h1.symm) hnd.1.1
      · simp [h1, h2]
    · simp [h1]
  | trans hp1 _ ih1 ih2 =>
    rw [ih1 hnd]
    apply ih2
    have : (List.map Prod.fst _).Perm (List.map Prod.fst _) := hp1.map Prod.fst
    exact (List.Perm.nodup_iff this).mp hnd

end GoMap

/-! ### Expansion of a declaration -/

theorem expandSetLoop_ok_iff (D : List PackageBlock) :
    ∀ (acc m : GoMap PackageBlock), expandSetLoop acc D = Except.ok m ↔
      ((∀ n ∈ D, n ≠ "" ∧ n ∉ acc.keys) ∧ D.Nodup ∧ m = acc ++ D.map (fun n => (n, n))) := by
  induction D with
  | nil =>
    intro acc m
    simp only [expandSetLoop, Except.ok.injEq, List.not_mem_nil, false_implies, implies_true,
      List.nodup_nil, List.map_nil, List.append_nil, true_and]
    exact eq_comm
  | cons n rest ih =>
    intro acc m
    unfold expandSetLoop
    by_cases h0 : n = ""
    · simp [h0]
    · rw [if_neg h0]
      by_cases hc : acc.contains n = true
      · rw [if_pos hc]
        have hk : n ∈ acc.keys := (GoMap.contains_iff acc n).mp hc
        simp [hk]
      · rw [if_neg hc]
        have hk : n ∉ acc.keys := fun h => hc ((GoMap.contains_iff acc n).mpr h)
        rw [GoMap.set_of_not_mem acc n n hk, ih]
        constructor
        · rintro ⟨h1, h2, h3⟩
          refine ⟨?_, ?_, ?_⟩
          · intro x hx
            rcases List.mem_cons.mp hx with hx | hx
            · subst hx; exact ⟨h0, hk⟩
            · have := h1 x hx
              simp only [GoMap.keys, List.map_append, List.map_cons, List.map_nil,
                List.mem_append, List.mem_singleton, not_or] at this
              exact ⟨this.1, this.2.1⟩
          · refine List.nodup_cons.mpr ⟨?_, h2⟩
            intro hn
            have := h1 n hn
            simp [GoMap.keys] at this
          · simp [h3]
        · rintro ⟨h1, h2, h3⟩
          have h2c := List.nodup_cons.mp h2
          refine ⟨?_, h2c.2, ?_⟩
          · intro x hx
            have := h1 x (List.mem_cons_of_mem _ hx)
            refine ⟨this.1, ?_⟩
            simp only [GoMap.keys, List.map_append, List.map_cons, List.map_nil,
              List.mem_append, List.mem_singleton, not_or]
            refine ⟨this.2, ?_⟩
            intro hxn
            subst hxn
            exact h2c.1 hx
          · simp [h3]

theorem expandPackagesSnapPackageSet_ok_iff (D : List PackageBlock) (m : GoMap PackageBlock) :
    expandPackagesSnapPackageSet D = Except.ok m ↔
      ((∀ n ∈ D, n ≠ "") ∧ D.Nodup ∧ m = D.map (fun n => (n, n))) := by
  unfold expandPackagesSnapPackageSet
  rw [expandSetLoop_ok_iff]
  simp [GoMap.keys]

/-- Assigning entries with distinct fresh keys one after the other appends them. -/
theorem foldl_set_fresh {V W : Type} (f : String × W → V) (l : List (String × W)) :
    ∀ (acc : GoMap V), (l.map Prod.fst).Nodup → (∀ e ∈ l, e.1 ∉ acc.keys) →
      l.foldl (fun pm e => pm.set e.1 (f e)) acc = acc ++ l.map (fun e => (e.1, f e)) := by
  induction l with
  | nil => intro acc _ _; simp
  | cons e rest ih =>
    intro acc hnd hfresh
    simp only [List.map_cons, List.nodup_cons] at hnd
    rw [List.foldl_cons, GoMap.set_of_not_mem acc e.1 (f e) (hfresh e (List.mem_cons_self _ _)), ih _ hnd.2]
    · simp
    · intro x hx
      simp only [GoMap.keys, List.map_append, List.map_cons, List.map_nil, List.mem_append,
        List.mem_singleton, not_or]
      refine ⟨hfresh x (List.mem_cons_of_mem _ hx), ?_⟩
      intro hxe
      apply hnd.1
      rw [← hxe]
      exact List.mem_map_of_mem Prod.fst hx

/-- The map a declaration expands to: one package per declared name. -/
theorem expandPackagesSnapPackage_ok_iff (ρ : RangeOrder) (D : List PackageBlock)
    (pm : GoMap Package) :
    expandPackagesSnapPackage ρ D = Except.ok pm ↔
      ((∀ n ∈ D, n ≠ "") ∧ D.Nodup ∧
        pm = (ρ.order (D.map (fun n => (n, n)))).map (fun e => (e.1, newPackage e.1))) := by
  unfold expandPackagesSnapPackage
  cases hset : expandPackagesSnapPackageSet D with
  | error err =>
    constructor
    · intro h
      cases h
    · rintro ⟨h1, h2, _⟩
      have := (expandPackagesSnapPackageSet_ok_iff D (D.map (fun n => (n, n)))).mpr ⟨h1, h2, rfl⟩
      rw [hset] at this
      cases this
  | ok m =>
    obtain ⟨h1, h2, h3⟩ := (expandPackagesSnapPackageSet_ok_iff D m).mp hset
    subst h3
    have hp := ρ.perm (D.map (fun n : String => (n, n)))
    have hnd : ((ρ.order (D.map (fun n : String => (n, n)))).map Prod.fst).Nodup := by
      have hq : (List.map Prod.fst (ρ.order (D.map (fun n : String => (n, n))))).Perm
          (List.map Prod.fst (D.map (fun n : String => (n, n)))) := hp.map Prod.fst
      rw [List.Perm.nodup_iff hq, List.map_map]
      have hid : (Prod.fst ∘ fun n : String => (n, n)) = id := rfl
      rw [hid, List.map_id]
      exact h2
    have hf := foldl_set_fresh (fun e : String × String => newPackage e.1)
      (ρ.order (D.map (fun n : String => (n, n)))) [] hnd (by simp [GoMap.keys])
    simp only [List.nil_append] at hf
    simp only [hf, Except.ok.injEq]
    constructor
    · intro h
      exact ⟨h1, h2, h.symm⟩
    · rintro ⟨_, _, h⟩
      exact h.symm

/-! ### The apply plan -/

theorem sortByName_perm (pkgs : Packages) : (sortByName pkgs).Perm pkgs :=
  List.perm_insertionSort _ pkgs

theorem expanded_perm (ρ : RangeOrder) (D : List PackageBlock) :
    ((ρ.order (D.map (fun n => (n, n)))).map (fun e => (e.1, newPackage e.1))).Perm
      (D.map (fun n => (n, newPackage n))) := by
  have h := (ρ.perm (D.map (fun n : String => (n, n)))).map
    (fun e : String × String => (e.1, newPackage e.1))
  simpa [List.map_map, Function.comp] using h

theorem expanded_keys (ρ : RangeOrder) (D : List PackageBlock) (n : String) :
    n ∈ GoMap.keys ((ρ.order (D.map (fun n => (n, n)))).map (fun e => (e.1, newPackage e.1)))
      ↔ n ∈ D := by
  have h := (expanded_perm ρ D).map Prod.fst
  unfold GoMap.keys
  rw [h.mem_iff]
  simp [List.map_map, Function.comp]

theorem removed_entries (cur : GoMap Package) (D2 : List PackageBlock)
    (hk : ∀ n, n ∈ cur.keys ↔ n ∈ D2) (D1 : List PackageBlock) :
    (D1.map (fun n => (n, newPackage n))).filterMap
        (fun e => if cur.contains e.1 then none
                  else some { e.2 with State := PackageState.PackageNotInstalled })
      = (D1.filter (fun n => decide (n ∉ D2))).map wantRemoved := by
  induction D1 with
  | nil => rfl
  | cons n rest ih =>
    by_cases h : n ∈ D2
    · have hc : cur.contains n = true := (GoMap.contains_iff cur n).mpr ((hk n).mpr h)
      simp only [List.map_cons, List.filterMap_cons, hc, if_true]
      rw [ih]
      simp [List.filter_cons, h]
    · have hc : cur.contains n = false :=
        (GoMap.contains_false_iff cur n).mpr (fun hn => h ((hk n).mp hn))
      simp only [List.map_cons, List.filterMap_cons, hc]
      rw [ih]
      simp [List.filter_cons, h, wantRemoved, newPackage]

/-- The plan is returned exactly for declarations without empty and without
repeated names, and is then a permutation of `planEntries`. -/
theorem plan_ok (ρ : RangeOrder) (d : ResourceData) (plan : Packages)
    (h : resourcePackagesSnapGetResourceData ρ d = Except.ok plan) :
    (∀ n ∈ d.package, n ≠ "") ∧ d.package.Nodup ∧
    (∀ n ∈ d.prevPackage, n ≠ "") ∧ d.prevPackage.Nodup ∧
    plan.Perm (planEntries d.prevPackage d.package) := by
  unfold resourcePackagesSnapGetResourceData at h
  cases h2 : expandPackagesSnapPackage ρ d.package with
  | error err => rw [h2] at h; cases h
  | ok packageMap =>
    cases h1 : expandPackagesSnapPackage ρ d.prevPackage with
    | error err => rw [h2, h1] at h; cases h
    | ok prevPackageMap =>
      rw [h2, h1] at h
      simp only [Except.ok.injEq] at h
      obtain ⟨a2, b2, c2⟩ := (expandPackagesSnapPackage_ok_iff ρ d.package packageMap).mp h2
      obtain ⟨a1, b1, c1⟩ := (expandPackagesSnapPackage_ok_iff ρ d.prevPackage prevPackageMap).mp h1
      refine ⟨a2, b2, a1, b1, ?_⟩
      rw [← h]
      refine (sortByName_perm _).trans ?_
      unfold planEntries
      apply List.Perm.append
      · have hA := ((ρ.perm packageMap).trans (c2 ▸ expanded_perm ρ d.package)).map
          (fun e : String × Package => ({ e.2 with State := PackageState.PackageInstalled } : Package))
        have hB : (d.package.map (fun n => (n, newPackage n))).map
            (fun e : String × Package => ({ e.2 with State := PackageState.PackageInstalled } : Package))
            = d.package.map wantInstalled := by
          simp [List.map_map, Function.comp, wantInstalled, newPackage]
        rw [hB] at hA
        exact hA
      · have hk : ∀ n, n ∈ GoMap.keys packageMap ↔ n ∈ d.package := by
          intro n
          rw [c2]
          exact expanded_keys ρ d.package n
        have hA := ((ρ.perm prevPackageMap).trans (c1 ▸ expanded_perm ρ d.prevPackage)).filterMap
          (fun e : String × Package => if packageMap.contains e.1 then none
                  else some ({ e.2 with State := PackageState.PackageNotInstalled } : Package))
        rw [removed_entries packageMap d.package hk d.prevPackage] at hA
        exact hA

theorem plan_exists (ρ : RangeOrder) (d : ResourceData)
    (a2 : ∀ n ∈ d.package, n ≠ "") (b2 : d.package.Nodup)
    (a1 : ∀ n ∈ d.prevPackage, n ≠ "") (b1 : d.prevPackage.Nodup) :
    ∃ plan, resourcePackagesSnapGetResourceData ρ d = Except.ok plan := by
  unfold resourcePackagesSnapGetResourceData
  rw [(expandPackagesSnapPackage_ok_iff ρ d.package _).mpr ⟨a2, b2, rfl⟩,
    (expandPackagesSnapPackage_ok_iff ρ d.prevPackage _).mpr ⟨a1, b1, rfl⟩]
  exact ⟨_, rfl⟩

theorem filter_name_map (f : String → Package) (hf : ∀ n, (f n).Name = n) (n : String) :
    ∀ (D : List String), D.Nodup →
      (D.map f).filter (fun p => decide (p.Name = n)) = if n ∈ D then [f n] else [] := by
  intro D
  induction D with
  | nil => intro _; rfl
  | cons x rest ih =>
    intro hnd
    have hc := List.nodup_cons.mp hnd
    rw [List.map_cons, List.filter_cons, ih hc.2, hf]
    by_cases hx : x = n
    · subst hx
      simp [hc.1]
    · have hx2 : ¬ n = x := fun h => hx h.symm
      simp [hx, hx2]

theorem planEntries_filter_name (prev cur : List PackageBlock) (hp : prev.Nodup)
    (hc : cur.Nodup) (n : String) :
    (planEntries prev cur).filter (fun p => decide (p.Name = n)) =
      if n ∈ cur then [wantInstalled n] else if n ∈ prev then [wantRemoved n] else [] := by
  unfold planEntries
  rw [List.filter_append, filter_name_map wantInstalled (fun _ => rfl) n cur hc,
    filter_name_map wantRemoved (fun _ => rfl) n _ (hp.filter _)]
  by_cases h2 : n ∈ cur
  · simp [h2]
  · by_cases h1 : n ∈ prev
    · simp [h1, h2]
    · simp [h1, h2]

/-- In a returned plan the entries of a name are: the entry to install when the
name is currently declared, the entry to remove when only the previous
declaration has it, none otherwise. -/
theorem plan_filter_name (ρ : RangeOrder) (d : ResourceData) (plan : Packages)
    (h : resourcePackagesSnapGetResourceData ρ d = Except.ok plan) (n : String) :
    plan.filter (fun p => decide (p.Name = n)) =
      if n ∈ d.package then [wantInstalled n]
      else if n ∈ d.prevPackage then [wantRemoved n] else [] := by
  obtain ⟨_, b2, _, b1, hperm⟩ := plan_ok ρ d plan h
  have hf := hperm.filter (fun p => decide (p.Name = n))
  rw [planEntries_filter_name d.prevPackage d.package b1 b2 n] at hf
  by_cases h2 : n ∈ d.package
  · rw [if_pos h2] at hf ⊢
    exact List.perm_singleton.mp hf
  · rw [if_neg h2] at hf ⊢
    by_cases h1 : n ∈ d.prevPackage
    · rw [if_pos h1] at hf ⊢
      exact List.perm_singleton.mp hf
    · rw [if_neg h1] at hf ⊢
      exact List.perm_nil.mp hf

theorem mem_planEntries (prev cur : List PackageBlock) (p : Package) :
    p ∈ planEntries prev cur ↔
      (p.Name ∈ cur ∧ p = wantInstalled p.Name) ∨
      (p.Name ∈ prev ∧ p.Name ∉ cur ∧ p = wantRemoved p.Name) := by
  unfold planEntries
  simp only [List.mem_append, List.mem_map, List.mem_filter, decide_eq_true_eq]
  constructor
  · rintro (⟨n, hn, rfl⟩ | ⟨n, ⟨hn1, hn2⟩, rfl⟩)
    · exact Or.inl ⟨hn, rfl⟩
    · exact Or.inr ⟨hn1, hn2, rfl⟩
  · rintro (⟨hn, hp⟩ | ⟨hn1, hn2, hp⟩)
    · exact Or.inl ⟨p.Name, hn, hp.symm⟩
    · exact Or.inr ⟨p.Name, ⟨hn1, hn2⟩, hp.symm⟩

theorem mem_plan (ρ : RangeOrder) (d : ResourceData) (plan : Packages)
    (h : resourcePackagesSnapGetResourceData ρ d = Except.ok plan) (p : Package) :
    p ∈ plan ↔
      (p.Name ∈ d.package ∧ p = wantInstalled p.Name) ∨
      (p.Name ∈ d.prevPackage ∧ p.Name ∉ d.package ∧ p = wantRemoved p.Name) := by
  rw [(plan_ok ρ d plan h).2.2.2.2.mem_iff, mem_planEntries]

/-! ### C1: what the plan contains -/

/-- C1: for duplicate-free previous and current declarations, the apply plan that
`resourcePackagesSnapGetResourceData` returns (and it returns one whenever no
declared name is empty) has, for each current name, exactly one entry and that
entry has state Installed; for each name of the previous declaration that the
current one lacks, exactly one entry and that entry has state NotInstalled; and
every entry of the plan is one of these. -/
theorem plan_installs_current_removes_dropped (ρ : RangeOrder) (d : ResourceData)
    (hprev : d.prevPackage.Nodup) (hcur : d.package.Nodup) :
    ((∀ n ∈ d.prevPackage ++ d.package, n ≠ "") →
        ∃ plan, resourcePackagesSnapGetResourceData ρ d = Except.ok plan) ∧
    ∀ plan, resourcePackagesSnapGetResourceData ρ d = Except.ok plan →
      (∀ n ∈ d.package,
        plan.filter (fun p => decide (p.Name = n)) = [wantInstalled n]) ∧
      (∀ n ∈ d.prevPackage, n ∉ d.package →
        plan.filter (fun p => decide (p.Name = n)) = [wantRemoved n]) ∧
      (∀ p ∈ plan, (p.Name ∈ d.package ∧ p.State = PackageState.PackageInstalled) ∨
        (p.Name ∈ d.prevPackage ∧ p.Name ∉ d.package ∧
          p.State = PackageState.PackageNotInstalled)) ∧
      plan.length = d.package.length +
        (d.prevPackage.filter (fun n => decide (n ∉ d.package))).length := by
  constructor
  · intro hne
    exact plan_exists ρ d (fun n hn => hne n (List.mem_append_right _ hn)) hcur
      (fun n hn => hne n (List.mem_append_left _ hn)) hprev
  · intro plan h
    refine ⟨?_, ?_, ?_, ?_⟩
    · intro n hn
      rw [plan_filter_name ρ d plan h n, if_pos hn]
    · intro n hn1 hn2
      rw [plan_filter_name ρ d plan h n, if_neg hn2, if_pos hn1]
    · intro p hp
      rcases (mem_plan ρ d plan h p).mp hp with ⟨h1, h2⟩ | ⟨h1, h2, h3⟩
      · left
        refine ⟨h1, ?_⟩
        rw [h2]
        rfl
      · right
        refine ⟨h1, h2, ?_⟩
        rw [h3]
        rfl
    · rw [(plan_ok ρ d plan h).2.2.2.2.length_eq]
      simp [planEntries]

/-- C1 at the update from `{hello, hello-world}` to `{hello}`. -/
theorem plan_installs_current_removes_dropped_witness :
    resourcePackagesSnapGetResourceData RangeOrder.reversed
        ⟨["hello", "hello-world"], ["hello"], "", none, []⟩
      = Except.ok [wantInstalled "hello", wantRemoved "hello-world"] ∧
    ([wantInstalled "hello", wantRemoved "hello-world"].filter
        (fun p => decide (p.Name = "hello-world")) = [wantRemoved "hello-world"]) :=
  ⟨by decide,
   ((plan_installs_current_removes_dropped RangeOrder.reversed
      ⟨["hello", "hello-world"], ["hello"], "", none, []⟩ (by decide) (by decide)).2
      [wantInstalled "hello", wantRemoved "hello-world"] (by decide)).2.1
      "hello-world" (by decide) (by decide)⟩

/-! ### C2: the states on delete -/

theorem restoreState_eq (d : ResourceData) (p : Package) :
    restoreState (getInternalData d) p =
      { p with State := if recorded d p.Name = some true then PackageState.PackageInstalled
                        else PackageState.PackageNotInstalled } := by
  unfold restoreState getInternalData recorded
  cases hi : d.internal with
  | none => simp
  | some m =>
    simp only
    split <;> simp_all

/-- The state the loop of delete gives a package: from the record alone. -/
theorem deletePlan_of_plan (ρ : RangeOrder) (d : ResourceData) (plan : Packages)
    (h : resourcePackagesSnapGetResourceData ρ d = Except.ok plan) :
    resourcePackagesSnapDeletePlan ρ d = Except.ok (plan.map (fun p =>
      { Manager := p.Manager, Name := p.Name, Version := p.Version,
        State := if recorded d p.Name = some true then PackageState.PackageInstalled
                 else PackageState.PackageNotInstalled })) := by
  unfold resourcePackagesSnapDeletePlan
  rw [h]
  simp only [Except.ok.injEq]
  apply List.map_congr_left
  intro p _
  rw [restoreState_eq]

theorem delete_of_deletePlan (ρ : RangeOrder) (s : System) (log : List Command)
    (d : ResourceData) (handed : Packages)
    (h : resourcePackagesSnapDeletePlan ρ d = Except.ok handed) :
    resourcePackagesSnapDelete ρ s log d =
      (errorOf (Apply s log handed).1, (Apply s log handed).2) := by
  unfold resourcePackagesSnapDelete
  rw [h]
  simp only
  generalize Apply s log handed = res
  obtain ⟨r, log1⟩ := res
  cases r <;> rfl

/-- C2: on delete, `Apply` is called with the packages of the plan, in the order
of the plan, each with state Installed when the PreInstalledRecord has the entry
true for its name and NotInstalled in every other case (no entry, entry false,
no record); the state the diff gave the package does not enter the result. -/
theorem delete_states_come_from_record (ρ : RangeOrder) (s : System) (log : List Command)
    (d : ResourceData) (plan : Packages)
    (h : resourcePackagesSnapGetResourceData ρ d = Except.ok plan) :
    ∃ handed : Packages,
      handed = plan.map (fun p =>
        { Manager := p.Manager, Name := p.Name, Version := p.Version,
          State := if recorded d p.Name = some true then PackageState.PackageInstalled
                   else PackageState.PackageNotInstalled }) ∧
      resourcePackagesSnapDeletePlan ρ d = Except.ok handed ∧
      resourcePackagesSnapDelete ρ s log d =
        (errorOf (Apply s log handed).1, (Apply s log handed).2) :=
  ⟨_, rfl, deletePlan_of_plan ρ d plan h,
    delete_of_deletePlan ρ s log d _ (deletePlan_of_plan ρ d plan h)⟩

/-- C2 at the delete of `{core, hello}` with the record `{core: true, hello: false}`:
`core` is handed over as Installed, `hello` as NotInstalled. -/
theorem delete_states_come_from_record_witness :
    resourcePackagesSnapGetResourceData RangeOrder.stored dataCoreHello
      = Except.ok [wantInstalled "core", wantInstalled "hello"] ∧
    ∃ handed : Packages,
      handed = [wantInstalled "core", wantInstalled "hello"].map (fun p =>
        { Manager := p.Manager, Name := p.Name, Version := p.Version,
          State := if recorded dataCoreHello p.Name = some true then PackageState.PackageInstalled
                   else PackageState.PackageNotInstalled }) ∧
      resourcePackagesSnapDeletePlan RangeOrder.stored dataCoreHello = Except.ok handed ∧
      resourcePackagesSnapDelete RangeOrder.stored systemQuiet [] dataCoreHello =
        (errorOf (Apply systemQuiet [] handed).1, (Apply systemQuiet [] handed).2) :=
  ⟨by decide, delete_states_come_from_record RangeOrder.stored systemQuiet [] dataCoreHello
    [wantInstalled "core", wantInstalled "hello"] (by decide)⟩

/-! ### The PreInstalledRecord after create and update -/

theorem recorded_setInternalData (d : ResourceData) (m : GoMap Bool) (n : String) :
    recorded (setInternalData d { PreInstalled := some m }) n = m.get n := by
  unfold recorded setInternalData
  cases m with
  | nil => rfl
  | cons e rest => rfl

theorem get_recordStep (inv : GoMap Package) (m : GoMap Bool) (p : Package) (n : String) :
    (recordStep inv m p).get n =
      if p.Name = n then recordValue inv (m.get n) p else m.get n := by
  unfold recordStep recordValue
  by_cases hn : p.Name = n
  · subst hn
    rw [if_pos rfl]
    by_cases h1 : p.State = PackageState.PackageInstalled
    · rw [if_pos h1, if_pos h1]
      cases hg : m.get p.Name with
      | none =>
        have hc : m.contains p.Name = false := by simp [GoMap.contains, hg]
        simp only [hc]
        rw [if_neg (by simp), GoMap.get_set_self]
      | some b =>
        have hc : m.contains p.Name = true := by simp [GoMap.contains, hg]
        simp only [hc, if_true, hg]
    · rw [if_neg h1, if_neg h1]
      by_cases h2 : p.State = PackageState.PackageNotInstalled
      · rw [if_pos h2, if_pos h2, GoMap.get_delete_self]
      · rw [if_neg h2, if_neg h2]
  · rw [if_neg hn]
    have hn2 : n ≠ p.Name := fun h => hn h.symm
    by_cases h1 : p.State = PackageState.PackageInstalled
    · rw [if_pos h1]
      by_cases hc : m.contains p.Name = true
      · rw [if_pos hc]
      · rw [if_neg hc, GoMap.get_set_other _ _ _ _ hn2]
    · rw [if_neg h1]
      by_cases h2 : p.State = PackageState.PackageNotInstalled
      · rw [if_pos h2, GoMap.get_delete_other _ _ _ hn2]
      · rw [if_neg h2]

/-- A name outside the plan keeps its entry. -/
theorem get_foldl_recordStep_other (inv : GoMap Package) (n : String) :
    ∀ (plan : Packages) (m : GoMap Bool), n ∉ plan.map Package.Name →
      (plan.foldl (recordStep inv) m).get n = m.get n := by
  intro plan
  induction plan with
  | nil => intro m _; rfl
  | cons q rest ih =>
    intro m hn
    simp only [List.map_cons, List.mem_cons, not_or] at hn
    rw [List.foldl_cons, ih _ hn.2, get_recordStep, if_neg (fun h => hn.1 h.symm)]

/-- The entry of a name of the plan after the loop. -/
theorem get_foldl_recordStep_mem (inv : GoMap Package) (p : Package) :
    ∀ (plan : Packages) (m : GoMap Bool), (plan.map Package.Name).Nodup → p ∈ plan →
      (plan.foldl (recordStep inv) m).get p.Name = recordValue inv (m.get p.Name) p := by
  intro plan
  induction plan with
  | nil => intro m _ hp; cases hp
  | cons q rest ih =>
    intro m hnd hp
    simp only [List.map_cons, List.nodup_cons] at hnd
    rw [List.foldl_cons]
    rcases List.mem_cons.mp hp with hpq | hpr
    · subst hpq
      rw [get_foldl_recordStep_other inv p.Name rest _ hnd.1, get_recordStep, if_pos rfl]
    · have hne : q.Name ≠ p.Name := by
        intro h
        apply hnd.1
        rw [h]
        exact List.mem_map_of_mem Package.Name hpr
      rw [ih _ hnd.2 hpr, get_recordStep, if_neg hne]

theorem planEntries_names_nodup (prev cur : List PackageBlock) (hp : prev.Nodup)
    (hc : cur.Nodup) : ((planEntries prev cur).map Package.Name).Nodup := by
  unfold planEntries
  rw [List.map_append, List.map_map, List.map_map]
  have h1 : (Package.Name ∘ wantInstalled) = id := rfl
  have h2 : (Package.Name ∘ wantRemoved) = id := rfl
  rw [h1, h2, List.map_id, List.map_id]
  refine List.Nodup.append hc (hp.filter _) ?_
  intro n hn1 hn2
  have := (List.mem_filter.mp hn2).2
  simp only [decide_eq_true_eq] at this
  exact this hn1

/-- No two entries of a returned plan have the same name. -/
theorem plan_names_nodup (ρ : RangeOrder) (d : ResourceData) (plan : Packages)
    (h : resourcePackagesSnapGetResourceData ρ d = Except.ok plan) :
    (plan.map Package.Name).Nodup := by
  obtain ⟨_, b2, _, b1, hperm⟩ := plan_ok ρ d plan h
  rw [List.Perm.nodup_iff (hperm.map Package.Name)]
  exact planEntries_names_nodup _ _ b1 b2

/-! ### The inventory of `Get` -/

theorem parseSnapListLine_installed (line : String) (q : Package)
    (h : parseSnapListLine line = some q) : q.State = PackageState.PackageInstalled := by
  unfold parseSnapListLine at h
  split at h
  · cases h
  · split at h
    · simp only [Option.some.injEq] at h
      rw [← h]
    · cases h

theorem parseSnapList_installed (stdout : String) (inv : Packages)
    (h : parseSnapList stdout = Except.ok inv) :
    ∀ q ∈ inv, q.State = PackageState.PackageInstalled := by
  unfold parseSnapList at h
  split at h
  · cases h
  · split at h
    · cases h
    · simp only [Except.ok.injEq] at h
      intro q hq
      rw [← h] at hq
      have hq2 := (sortByName_perm _).mem_iff.mp hq
      obtain ⟨line, _, hline⟩ := List.mem_filterMap.mp hq2
      exact parseSnapListLine_installed line q hline

/-- Whatever happens, `Get` executes exactly one command, the listing. -/
theorem Get_log (s : System) (log : List Command) :
    (Get s log).2 = log ++ [snapListCommand] := by
  unfold Get ExecuteCommand
  cases hs : s log snapListCommand with
  | error err => rfl
  | ok res =>
    simp only
    split
    · rfl
    · split <;> rfl

/-- What a successful `Get` has done: one command, the listing, executed without
transport error, and its output parsed. -/
theorem Get_ok (s : System) (log : List Command) (inv : Packages)
    (h : (Get s log).1 = Except.ok inv) :
    (Get s log).2 = log ++ [snapListCommand] ∧
    ∃ res, s log snapListCommand = Except.ok res ∧ parseSnapList res.Stdout = Except.ok inv := by
  refine ⟨Get_log s log, ?_⟩
  unfold Get ExecuteCommand at h
  cases hs : s log snapListCommand with
  | error err => rw [hs] at h; cases h
  | ok res =>
    rw [hs] at h
    simp only at h
    split at h
    · cases h
    · split at h
      · cases h
      · exact ⟨res, rfl, h⟩

theorem Get_installed (s : System) (log : List Command) (inv : Packages)
    (h : (Get s log).1 = Except.ok inv) :
    ∀ q ∈ inv, q.State = PackageState.PackageInstalled := by
  obtain ⟨_, res, _, hparse⟩ := Get_ok s log inv h
  exact parseSnapList_installed res.Stdout inv hparse

/-! ### `ToMap` -/

theorem get_foldl_set_none (n : String) :
    ∀ (inv : Packages) (acc : GoMap Package),
      (inv.foldl (fun m p => m.set p.Name p) acc).get n = none ↔
        (acc.get n = none ∧ n ∉ inv.map Package.Name) := by
  intro inv
  induction inv with
  | nil => intro acc; simp
  | cons q rest ih =>
    intro acc
    rw [List.foldl_cons, ih]
    by_cases hq : q.Name = n
    · subst hq
      simp [GoMap.get_set_self]
    · have hq2 : n ≠ q.Name := fun h => hq h.symm
      rw [GoMap.get_set_other _ _ _ _ hq2]
      simp [hq2]

theorem get_foldl_set_some (n : String) (p : Package) :
    ∀ (inv : Packages) (acc : GoMap Package),
      (inv.foldl (fun m p => m.set p.Name p) acc).get n = some p →
        (acc.get n = some p ∨ (p ∈ inv ∧ p.Name = n)) := by
  intro inv
  induction inv with
  | nil => intro acc h; exact Or.inl h
  | cons q rest ih =>
    intro acc h
    rw [List.foldl_cons] at h
    rcases ih _ h with h1 | ⟨h1, h2⟩
    · by_cases hq : q.Name = n
      · subst hq
        rw [GoMap.get_set_self] at h1
        simp only [Option.some.injEq] at h1
        subst h1
        exact Or.inr ⟨List.mem_cons_self _ _, rfl⟩
      · have hq2 : n ≠ q.Name := fun h => hq h.symm
        rw [GoMap.get_set_other _ _ _ _ hq2] at h1
        exact Or.inl h1
    · exact Or.inr ⟨List.mem_cons_of_mem _ h1, h2⟩

theorem ToMap_get_none (inv : Packages) (n : String) :
    inv.ToMap.get n = none ↔ n ∉ inv.map Package.Name := by
  have h := get_foldl_set_none n inv []
  simp only [GoMap.get_nil, true_and] at h
  exact h

theorem ToMap_get_some (inv : Packages) (n : String) (p : Package)
    (h : inv.ToMap.get n = some p) : p ∈ inv ∧ p.Name = n := by
  rcases get_foldl_set_some n p inv [] h with h1 | h1
  · cases h1
  · exact h1

/-- On an inventory whose packages are all Installed, the lookup of
`resourcePackagesSnapApply` in the inventory map tells whether the name is listed. -/
theorem preApply_lookup (inv : Packages)
    (hall : ∀ q ∈ inv, q.State = PackageState.PackageInstalled) (name : String) :
    (match inv.ToMap.get name with
     | some preApplyPkg => decide (preApplyPkg.State = PackageState.PackageInstalled)
     | none => false) = listedInstalled inv name := by
  unfold listedInstalled
  cases hg : inv.ToMap.get name with
  | none =>
    have := (ToMap_get_none inv name).mp hg
    symm
    simp only [decide_eq_false_iff_not, not_exists, not_and]
    intro q hq hn
    exact absurd (hn ▸ List.mem_map_of_mem Package.Name hq) this
  | some q =>
    obtain ⟨h1, h2⟩ := ToMap_get_some inv name q hg
    have hs := hall q h1
    simp only [hs, decide_True]
    symm
    rw [decide_eq_true_eq]
    exact ⟨q, h1, h2, hs⟩

/-! ### Successful create and update -/

theorem recorded_eq_get (d : ResourceData) (n : String) :
    recorded d n = (recordBefore d).get n := by
  unfold recorded recordBefore getInternalData
  cases d.internal <;> rfl

theorem update_eq_create : resourcePackagesSnapUpdate = resourcePackagesSnapCreate := rfl

/-- What a successful `resourcePackagesSnapApply` has done. -/
theorem resourcePackagesSnapApply_ok (ρ : RangeOrder) (s : System) (log : List Command)
    (d : ResourceData) (r : Packages) (d1 : ResourceData) (log2 : List Command)
    (h : resourcePackagesSnapApply ρ s log d = (Except.ok r, d1, log2)) :
    ∃ inv, (Get s log).1 = Except.ok inv ∧
      resourcePackagesSnapGetResourceData ρ d = Except.ok r ∧
      Apply s (log ++ [snapListCommand]) r = (Except.ok (), log2) ∧
      d1 = setInternalData d
        { PreInstalled := some (r.foldl (recordStep inv.ToMap) (recordBefore d)) } := by
  unfold resourcePackagesSnapApply at h
  have hlog := Get_log s log
  rcases hget : Get s log with ⟨g, log1⟩
  rw [hget] at h hlog
  simp only at hlog
  subst hlog
  cases g with
  | error err => simp at h
  | ok inv =>
    simp only at h
    cases hplan : resourcePackagesSnapGetResourceData ρ d with
    | error err => rw [hplan] at h; simp at h
    | ok plan =>
      rw [hplan] at h
      simp only at h
      rcases happ : Apply s (log ++ [snapListCommand]) plan with ⟨a, log2a⟩
      rw [happ] at h
      cases a with
      | error err => simp at h
      | ok u =>
        simp only [Prod.mk.injEq, Except.ok.injEq] at h
        obtain ⟨h1, h2, h3⟩ := h
        subst h1 h3
        refine ⟨inv, rfl, rfl, happ, ?_⟩
        rw [← h2]
        rfl

/-- What a successful create has done. -/
theorem resourcePackagesSnapCreate_ok (ρ : RangeOrder) (s : System) (log : List Command)
    (d d2 : ResourceData) (log3 : List Command)
    (h : resourcePackagesSnapCreate ρ s log d = (none, d2, log3)) :
    ∃ inv plan log2 inv2, (Get s log).1 = Except.ok inv ∧
      resourcePackagesSnapGetResourceData ρ d = Except.ok plan ∧
      Apply s (log ++ [snapListCommand]) plan = (Except.ok (), log2) ∧
      (Get s log2).1 = Except.ok inv2 ∧
      log3 = log2 ++ [snapListCommand] ∧
      d2 = resourcePackagesSnapSetResourceData ρ
        (filterByState (filterByNames inv2
          (packageNamesFromResourcePackagesSnapId (resourcePackagesSnapIdFromPackages plan)))
          PackageState.PackageInstalled)
        { setInternalData d
            { PreInstalled := some (plan.foldl (recordStep inv.ToMap) (recordBefore d)) }
          with id := resourcePackagesSnapIdFromPackages plan } := by
  unfold resourcePackagesSnapCreate at h
  rcases happ : resourcePackagesSnapApply ρ s log d with ⟨a, d1, log2⟩
  rw [happ] at h
  cases a with
  | error err => simp at h
  | ok plan =>
    obtain ⟨inv, h1, h2, h3, h4⟩ := resourcePackagesSnapApply_ok ρ s log d plan d1 log2 happ
    simp only at h
    unfold resourcePackagesSnapRead at h
    have hlog := Get_log s log2
    rcases hget : Get s log2 with ⟨g, log3a⟩
    rw [hget] at h hlog
    simp only at hlog
    cases g with
    | error err => simp at h
    | ok inv2 =>
      simp only [Prod.mk.injEq, true_and] at h
      obtain ⟨h5, h6⟩ := h
      refine ⟨inv, plan, log2, inv2, h1, h2, h3, by rw [hget], ?_, ?_⟩
      · rw [← h6, hlog]
      · rw [← h5, h4]

/-- The record after a successful create: the loop over the plan applied to the
record before. -/
theorem recorded_after_create (ρ : RangeOrder) (s : System) (log : List Command)
    (d d2 : ResourceData) (log3 : List Command)
    (h : resourcePackagesSnapCreate ρ s log d = (none, d2, log3)) :
    ∃ inv plan, (Get s log).1 = Except.ok inv ∧
      resourcePackagesSnapGetResourceData ρ d = Except.ok plan ∧
      d2.id = resourcePackagesSnapIdFromPackages plan ∧
      ∀ n, recorded d2 n = (plan.foldl (recordStep inv.ToMap) (recordBefore d)).get n := by
  obtain ⟨inv, plan, log2, inv2, h1, h2, _, _, _, h6⟩ :=
    resourcePackagesSnapCreate_ok ρ s log d d2 log3 h
  refine ⟨inv, plan, h1, h2, ?_, ?_⟩
  · rw [h6]
    rfl
  · intro n
    rw [h6, ← recorded_setInternalData d _ n]
    rfl

/-! ### C4: the record of a newly managed package -/

/-- C4: after a successful create or update, every package of the plan with state
Installed that had no entry in the PreInstalledRecord beforehand is recorded as
true if the pre-apply inventory of `Get` has a package of that name in state
Installed, and as false otherwise. -/
theorem newly_managed_package_recorded
    (op : RangeOrder → System → List Command → ResourceData →
      Option GoError × ResourceData × List Command)
    (hop : op = resourcePackagesSnapCreate ∨ op = resourcePackagesSnapUpdate)
    (ρ : RangeOrder) (s : System) (log : List Command) (d d2 : ResourceData)
    (log3 : List Command) (h : op ρ s log d = (none, d2, log3)) :
    ∃ inv plan, (Get s log).1 = Except.ok inv ∧
      resourcePackagesSnapGetResourceData ρ d = Except.ok plan ∧
      ∀ p ∈ plan, p.State = PackageState.PackageInstalled → recorded d p.Name = none →
        recorded d2 p.Name = some (listedInstalled inv p.Name) := by
  have hc : resourcePackagesSnapCreate ρ s log d = (none, d2, log3) := by
    rcases hop with hop | hop
    · rw [← hop]; exact h
    · rw [← update_eq_create, ← hop]; exact h
  obtain ⟨inv, plan, h1, h2, _, h4⟩ := recorded_after_create ρ s log d d2 log3 hc
  refine ⟨inv, plan, h1, h2, ?_⟩
  intro p hp hst hrec
  rw [h4, get_foldl_recordStep_mem inv.ToMap p plan _ (plan_names_nodup ρ d plan h2) hp,
    ← recorded_eq_get, hrec]
  unfold recordValue
  rw [if_pos hst]
  simp only
  rw [preApply_lookup inv (Get_installed s log inv h1)]

set_option maxRecDepth 20000 in
/-- C4 at the create of `{hello, core}` on a machine that lists `core` only: the
record is `{core: true, hello: false}`. -/
theorem newly_managed_package_recorded_witness :
    (resourcePackagesSnapCreate RangeOrder.stored systemCoreListed [] dataCreateHelloCore).2.1.internal
      = some [("core", true), ("hello", false)] ∧
    ∃ inv plan, (Get systemCoreListed []).1 = Except.ok inv ∧
      resourcePackagesSnapGetResourceData RangeOrder.stored dataCreateHelloCore = Except.ok plan ∧
      ∀ p ∈ plan, p.State = PackageState.PackageInstalled →
        recorded dataCreateHelloCore p.Name = none →
        recorded (resourcePackagesSnapCreate RangeOrder.stored systemCoreListed []
          dataCreateHelloCore).2.1 p.Name = some (listedInstalled inv p.Name) :=
  ⟨by decide,
   newly_managed_package_recorded resourcePackagesSnapCreate (Or.inl rfl) RangeOrder.stored
    systemCoreListed [] dataCreateHelloCore
    (resourcePackagesSnapCreate RangeOrder.stored systemCoreListed [] dataCreateHelloCore).2.1
    (resourcePackagesSnapCreate RangeOrder.stored systemCoreListed [] dataCreateHelloCore).2.2
    (by decide)⟩

/-! ### C5: first observation wins -/

/-- C5: a successful create or update leaves the recorded boolean of every name
that already has an entry and is in the plan with state Installed unchanged,
for every remote system (so whatever the pre-apply inventory reports), and
leaves the entry, or absence of entry, of every name outside the plan unchanged. -/
theorem first_observation_wins
    (op : RangeOrder → System → List Command → ResourceData →
      Option GoError × ResourceData × List Command)
    (hop : op = resourcePackagesSnapCreate ∨ op = resourcePackagesSnapUpdate)
    (ρ : RangeOrder) (s : System) (log : List Command) (d d2 : ResourceData)
    (log3 : List Command) (h : op ρ s log d = (none, d2, log3)) :
    ∃ plan, resourcePackagesSnapGetResourceData ρ d = Except.ok plan ∧
      (∀ p ∈ plan, p.State = PackageState.PackageInstalled →
        ∀ b, recorded d p.Name = some b → recorded d2 p.Name = some b) ∧
      (∀ n, n ∉ plan.map Package.Name → recorded d2 n = recorded d n) := by
  have hc : resourcePackagesSnapCreate ρ s log d = (none, d2, log3) := by
    rcases hop with hop | hop
    · rw [← hop]; exact h
    · rw [← update_eq_create, ← hop]; exact h
  obtain ⟨inv, plan, _, h2, _, h4⟩ := recorded_after_create ρ s log d d2 log3 hc
  refine ⟨plan, h2, ?_, ?_⟩
  · intro p hp hst b hrec
    rw [h4, get_foldl_recordStep_mem inv.ToMap p plan _ (plan_names_nodup ρ d plan h2) hp,
      ← recorded_eq_get, hrec]
    unfold recordValue
    rw [if_pos hst]
  · intro n hn
    rw [h4, get_foldl_recordStep_other inv.ToMap n plan _ hn, recorded_eq_get]

set_option maxRecDepth 20000 in
/-- C5 at the update from `{core}` to `{core, hello}` on a machine that lists
`core`, with `core` recorded false: the record keeps `core: false`. -/
theorem first_observation_wins_witness :
    recorded (resourcePackagesSnapUpdate RangeOrder.stored systemCoreListed []
        dataUpdateAddHello).2.1 "core" = some false ∧
    ∃ plan, resourcePackagesSnapGetResourceData RangeOrder.stored dataUpdateAddHello
        = Except.ok plan ∧
      (∀ p ∈ plan, p.State = PackageState.PackageInstalled →
        ∀ b, recorded dataUpdateAddHello p.Name = some b →
          recorded (resourcePackagesSnapUpdate RangeOrder.stored systemCoreListed []
            dataUpdateAddHello).2.1 p.Name = some b) ∧
      (∀ n, n ∉ plan.map Package.Name →
        recorded (resourcePackagesSnapUpdate RangeOrder.stored systemCoreListed []
          dataUpdateAddHello).2.1 n = recorded dataUpdateAddHello n) :=
  ⟨by decide,
   first_observation_wins resourcePackagesSnapUpdate (Or.inr rfl) RangeOrder.stored
    systemCoreListed [] dataUpdateAddHello
    (resourcePackagesSnapUpdate RangeOrder.stored systemCoreListed [] dataUpdateAddHello).2.1
    (resourcePackagesSnapUpdate RangeOrder.stored systemCoreListed [] dataUpdateAddHello).2.2
    (by decide)⟩

/-! ### C6: a dropped package is no longer tracked -/

theorem Apply_eq_applyLoop (s : System) (log : List Command) (pkgs : Packages) :
    Apply s log pkgs = applyLoop s log pkgs := by
  unfold Apply
  cases pkgs with
  | nil => rfl
  | cons p rest => simp

/-- The loop over a concatenation: the second part runs only if the first went through. -/
theorem applyLoop_append (s : System) (a b : Packages) :
    ∀ (log : List Command), applyLoop s log (a ++ b) =
      match applyLoop s log a with
      | (Except.ok _, log1) => applyLoop s log1 b
      | (Except.error err, log1) => (Except.error err, log1) := by
  induction a with
  | nil => intro log; rfl
  | cons p rest ih =>
    intro log
    simp only [List.cons_append, applyLoop, ExecuteCommand]
    cases hs : s log (applyCommand p) with
    | error err => rfl
    | ok res =>
      simp only
      split
      · rfl
      · split
        · rfl
        · exact ih _

/-- The commands `Apply` executes are those of the packages of an initial part of
the collection, in order. -/
theorem applyLoop_log (s : System) (pkgs : Packages) :
    ∀ (log : List Command), ∃ cmds, (applyLoop s log pkgs).2 = log ++ cmds ∧
      cmds <+: pkgs.map applyCommand := by
  induction pkgs with
  | nil => intro log; exact ⟨[], by simp [applyLoop], List.nil_prefix⟩
  | cons p rest ih =>
    intro log
    simp only [applyLoop, ExecuteCommand]
    have hone : [applyCommand p] <+: (p :: rest).map applyCommand :=
      ⟨rest.map applyCommand, rfl⟩
    cases hs : s log (applyCommand p) with
    | error err => exact ⟨[applyCommand p], rfl, hone⟩
    | ok res =>
      simp only
      split
      · exact ⟨[applyCommand p], rfl, hone⟩
      · split
        · exact ⟨[applyCommand p], rfl, hone⟩
        · obtain ⟨cmds, h1, h2⟩ := ih (log ++ [applyCommand p])
          refine ⟨applyCommand p :: cmds, ?_, ?_⟩
          · rw [h1]; simp
          · rw [List.map_cons]
            exact (List.prefix_cons_inj _).mpr h2

theorem listedInstalled_iff (inv : Packages)
    (hall : ∀ q ∈ inv, q.State = PackageState.PackageInstalled) (name : String) :
    listedInstalled inv name = true ↔ name ∈ inv.map Package.Name := by
  unfold listedInstalled
  rw [decide_eq_true_eq, List.mem_map]
  constructor
  · rintro ⟨q, h1, h2, _⟩
    exact ⟨q, h1, h2⟩
  · rintro ⟨q, h1, h2⟩
    exact ⟨q, h1, h2, hall q h1⟩

theorem expandSetLoop_error (D : List PackageBlock) :
    ∀ (acc : GoMap PackageBlock) (e : GoError), expandSetLoop acc D = Except.error e →
      (e = errEmptyName ∧ "" ∈ D) ∨
      ∃ n, e = errDuplicateName n ∧ n ∈ D ∧ (n ∈ acc.keys ∨ 1 < D.count n) := by
  induction D with
  | nil => intro acc e h; cases h
  | cons x rest ih =>
    intro acc e h
    unfold expandSetLoop at h
    by_cases h0 : x = ""
    · rw [if_pos h0] at h
      simp only [Except.error.injEq] at h
      left
      exact ⟨h.symm, by rw [h0]; exact List.mem_cons_self _ _⟩
    · rw [if_neg h0] at h
      by_cases hc : acc.contains x = true
      · rw [if_pos hc] at h
        simp only [Except.error.injEq] at h
        right
        exact ⟨x, h.symm, List.mem_cons_self _ _, Or.inl ((GoMap.contains_iff acc x).mp hc)⟩
      · rw [if_neg hc] at h
        have hk : x ∉ acc.keys := fun hx => hc ((GoMap.contains_iff acc x).mpr hx)
        rw [GoMap.set_of_not_mem acc x x hk] at h
        rcases ih _ e h with ⟨h1, h2⟩ | ⟨n, h1, h2, h3⟩
        · left
          exact ⟨h1, List.mem_cons_of_mem _ h2⟩
        · right
          refine ⟨n, h1, List.mem_cons_of_mem _ h2, ?_⟩
          rcases h3 with h3 | h3
          · simp only [GoMap.keys, List.map_append, List.map_cons, List.map_nil,
              List.mem_append, List.mem_singleton] at h3
            rcases h3 with h3 | h3
            · exact Or.inl h3
            · right
              subst h3
              rw [List.count_cons_self]
              have := List.count_pos_iff.mpr h2
              omega
          · right
            rw [List.count_cons]
            omega

theorem expandPackagesSnapPackage_error (ρ : RangeOrder) (D : List PackageBlock) (e : GoError)
    (h : expandPackagesSnapPackage ρ D = Except.error e) : isDeclarationError D e := by
  unfold expandPackagesSnapPackage at h
  cases hset : expandPackagesSnapPackageSet D with
  | ok m => rw [hset] at h; cases h
  | error e1 =>
    rw [hset] at h
    simp only [Except.error.injEq] at h
    subst h
    unfold expandPackagesSnapPackageSet at hset
    rcases expandSetLoop_error D [] e1 hset with h1 | ⟨n, h1, _, h3⟩
    · exact Or.inl h1
    · right
      refine ⟨n, h1, ?_⟩
      rcases h3 with h3 | h3
      · simp [GoMap.keys] at h3
      · exact h3

/-! ### C8: the resource ID -/

theorem sortByName_sorted (pkgs : Packages) :
    (sortByName pkgs).Sorted (fun a b => a.Name.data ≤ b.Name.data) := by
  haveI : IsTotal Package (fun a b => a.Name.data ≤ b.Name.data) :=
    ⟨fun a b => le_total a.Name.data b.Name.data⟩
  haveI : IsTrans Package (fun a b => a.Name.data ≤ b.Name.data) :=
    ⟨fun _ _ _ h1 h2 => le_trans h1 h2⟩
  exact List.sorted_insertionSort _ pkgs

theorem plan_is_sorted (ρ : RangeOrder) (d : ResourceData) (plan : Packages)
    (h : resourcePackagesSnapGetResourceData ρ d = Except.ok plan) :
    plan.Sorted (fun a b => a.Name.data ≤ b.Name.data) := by
  unfold resourcePackagesSnapGetResourceData at h
  cases h2 : expandPackagesSnapPackage ρ d.package with
  | error err => rw [h2] at h; cases h
  | ok packageMap =>
    cases h1 : expandPackagesSnapPackage ρ d.prevPackage with
    | error err => rw [h2, h1] at h; cases h
    | ok prevPackageMap =>
      rw [h2, h1] at h
      simp only [Except.ok.injEq] at h
      rw [← h]
      exact sortByName_sorted _

/-- The names of a returned plan are strictly ascending. -/
theorem plan_names_ascending (ρ : RangeOrder) (d : ResourceData) (plan : Packages)
    (h : resourcePackagesSnapGetResourceData ρ d = Except.ok plan) :
    ((plan.map Package.Name).map String.data).Sorted (· < ·) := by
  have hs := plan_is_sorted ρ d plan h
  have hnd := plan_names_nodup ρ d plan h
  have h1 : ((plan.map Package.Name).map String.data).Sorted (· ≤ ·) := by
    unfold List.Sorted
    rw [List.map_map, List.pairwise_map]
    exact hs
  have h2 : ((plan.map Package.Name).map String.data).Nodup := by
    apply List.Nodup.map _ hnd
    intro a b hab
    exact String.ext hab
  exact h1.lt_of_le h2

theorem plan_names_perm (ρ : RangeOrder) (d : ResourceData) (plan : Packages)
    (h : resourcePackagesSnapGetResourceData ρ d = Except.ok plan) :
    (plan.map Package.Name).Perm
      (d.package ++ d.prevPackage.filter (fun n => decide (n ∉ d.package))) := by
  have hp := ((plan_ok ρ d plan h).2.2.2.2).map Package.Name
  unfold planEntries at hp
  rw [List.map_append, List.map_map, List.map_map] at hp
  have h1 : (Package.Name ∘ wantInstalled) = id := rfl
  have h2 : (Package.Name ∘ wantRemoved) = id := rfl
  rw [h1, h2, List.map_id, List.map_id] at hp
  exact hp

/-- C8, as amended: after every successful create or update the resource ID is
the names of the apply plan, sorted strictly ascending and joined with `|`; the
plan names are the names of the current declaration together with the names
that only the previous declaration has. They are the current names alone exactly
when the operation drops no package, as on create. -/
theorem resource_id_from_plan_names
    (op : RangeOrder → System → List Command → ResourceData →
      Option GoError × ResourceData × List Command)
    (hop : op = resourcePackagesSnapCreate ∨ op = resourcePackagesSnapUpdate)
    (ρ : RangeOrder) (s : System) (log : List Command) (d d2 : ResourceData)
    (log3 : List Command) (h : op ρ s log d = (none, d2, log3)) :
    ∃ names : List String,
      d2.id = stringsJoin names "|" ∧
      (names.map String.data).Sorted (· < ·) ∧
      names.Perm (d.package ++ d.prevPackage.filter (fun n => decide (n ∉ d.package))) ∧
      ((∀ n ∈ d.prevPackage, n ∈ d.package) ↔ names.Perm d.package) := by
  have hc : resourcePackagesSnapCreate ρ s log d = (none, d2, log3) := by
    rcases hop with hop | hop
    · rw [← hop]; exact h
    · rw [← update_eq_create, ← hop]; exact h
  obtain ⟨inv, plan, _, h2, h3, _⟩ := recorded_after_create ρ s log d d2 log3 hc
  have hperm := plan_names_perm ρ d plan h2
  refine ⟨plan.map Package.Name, h3, plan_names_ascending ρ d plan h2, hperm, ?_⟩
  constructor
  · intro hall
    have hnil : d.prevPackage.filter (fun n => decide (n ∉ d.package)) = [] := by
      rw [List.filter_eq_nil_iff]
      intro n hn
      simp only [decide_eq_true_eq, not_not]
      exact hall n hn
    rw [hnil, List.append_nil] at hperm
    exact hperm
  · intro hp n hn
    by_contra hnot
    have hlen := (hperm.symm.trans hp).length_eq
    have hmem : n ∈ d.prevPackage.filter (fun n => decide (n ∉ d.package)) :=
      List.mem_filter.mpr ⟨hn, by simpa using hnot⟩
    have hpos := List.length_pos_of_mem hmem
    rw [List.length_append] at hlen
    omega

set_option maxRecDepth 20000 in
/-- C8 at the update from `{hello, hello-world}` to `{hello}`. -/
theorem resource_id_from_plan_names_witness :
    ∃ names : List String,
      (resourcePackagesSnapUpdate RangeOrder.stored systemCoreListed []
        dataUpdateDropHelloWorld).2.1.id = stringsJoin names "|" ∧
      (names.map String.data).Sorted (· < ·) ∧
      names.Perm (dataUpdateDropHelloWorld.package ++
        dataUpdateDropHelloWorld.prevPackage.filter
          (fun n => decide (n ∉ dataUpdateDropHelloWorld.package))) ∧
      ((∀ n ∈ dataUpdateDropHelloWorld.prevPackage, n ∈ dataUpdateDropHelloWorld.package) ↔
        names.Perm dataUpdateDropHelloWorld.package) :=
  resource_id_from_plan_names resourcePackagesSnapUpdate (Or.inr rfl) RangeOrder.stored
    systemCoreListed [] dataUpdateDropHelloWorld
    (resourcePackagesSnapUpdate RangeOrder.stored systemCoreListed []
      dataUpdateDropHelloWorld).2.1
    (resourcePackagesSnapUpdate RangeOrder.stored systemCoreListed []
      dataUpdateDropHelloWorld).2.2
    (by decide)

set_option maxRecDepth 20000 in
/-- C8 fails as stated: the successful update from `{hello, hello-world}` to
`{hello}` sets the ID `hello|hello-world`, not `hello`; the ID names
`hello-world`, which only the previous declaration has. -/
theorem resource_id_from_plan_names_counterexample :
    (resourcePackagesSnapUpdate RangeOrder.stored systemCoreListed []
      dataUpdateDropHelloWorld).1 = none ∧
    (resourcePackagesSnapUpdate RangeOrder.stored systemCoreListed []
      dataUpdateDropHelloWorld).2.1.id = "hello|hello-world" ∧
    (resourcePackagesSnapUpdate RangeOrder.stored systemCoreListed []
      dataUpdateDropHelloWorld).2.1.id ≠ stringsJoin dataUpdateDropHelloWorld.package "|" ∧
    "hello-world" ∈ packageNamesFromResourcePackagesSnapId
      (resourcePackagesSnapUpdate RangeOrder.stored systemCoreListed []
        dataUpdateDropHelloWorld).2.1.id ∧
    "hello-world" ∉ dataUpdateDropHelloWorld.package ∧
    "hello-world" ∈ dataUpdateDropHelloWorld.prevPackage := by
  decide

/-! ### C9: a package dropped by an update -/

theorem hasPrefix_of_sentinelCode (stdout : String) (code : Nat)
    (h : sentinelCode stdout = some code) :
    stringsHasPrefix stdout "which_snap_rc=" = true := by
  unfold sentinelCode at h
  by_cases hp : stringsHasPrefix stdout "which_snap_rc=" = true
  · exact hp
  · rw [if_neg hp] at h
    cases h

theorem ne_zero_line_of_sentinelCode (stdout : String) (code : Nat)
    (h : sentinelCode stdout = some code) (hnz : code ≠ 0) :
    stdout ≠ "which_snap_rc=0" := by
  intro heq
  rw [heq] at h
  have h0 : sentinelCode "which_snap_rc=0" = some 0 := by decide
  rw [h0] at h
  simp only [Option.some.injEq] at h
  exact hnz h.symm

/-- C10: when the result of the command has a stdout that begins with
`which_snap_rc=` followed by a non-zero code, then whatever its exit code and
stderr are, `Get` returns `ErrSnapPackageManagerNotAvailable` and no packages,
and `Apply`, having gone through the packages before, returns
`ErrSnapPackageManagerNotAvailable` at the package whose command produced that
result and executes no further command. -/
theorem sentinel_means_not_available (s : System) (res : CommandResult) (code : Nat)
    (hcode : sentinelCode res.Stdout = some code) (hnz : code ≠ 0) :
    (∀ log : List Command, s log snapListCommand = Except.ok res →
      Get s log = (Except.error ErrSnapPackageManagerNotAvailable, log ++ [snapListCommand])) ∧
    (∀ (log log1 : List Command) (before : Packages) (pkg : Package) (after : Packages),
      Apply s log before = (Except.ok (), log1) →
      s log1 (applyCommand pkg) = Except.ok res →
      Apply s log (before ++ pkg :: after) =
        (Except.error ErrSnapPackageManagerNotAvailable, log1 ++ [applyCommand pkg])) := by
  have hpre := hasPrefix_of_sentinelCode res.Stdout code hcode
  have hne := ne_zero_line_of_sentinelCode res.Stdout code hcode hnz
  constructor
  · intro log hs
    unfold Get ExecuteCommand
    rw [hs]
    simp [hpre, hne]
  · intro log log1 before pkg after hbefore hs
    rw [Apply_eq_applyLoop] at hbefore ⊢
    rw [applyLoop_append, hbefore]
    simp only [applyLoop, ExecuteCommand]
    rw [hs]
    simp [hpre]

set_option maxRecDepth 20000 in
/-- C10 on a machine without snap: the sentinel line comes with exit code 0 for
`Get` and with exit code 1 for the first package of an `Apply` of two. -/
theorem sentinel_means_not_available_witness :
    Get systemNoSnap [] =
      (Except.error ErrSnapPackageManagerNotAvailable, [] ++ [snapListCommand]) ∧
    Apply systemNoSnap [] ([] ++ wantInstalled "hello" :: [wantRemoved "core"]) =
      (Except.error ErrSnapPackageManagerNotAvailable,
        [] ++ [applyCommand (wantInstalled "hello")]) :=
  ⟨(sentinel_means_not_available systemNoSnap (sentinelResult 0) 1 (by decide)
      (by decide)).1 [] (by decide),
   (sentinel_means_not_available systemNoSnap (sentinelResult 1) 1 (by decide)
      (by decide)).2 [] [] [] (wantInstalled "hello") [wantRemoved "core"] (by decide)
      (by decide)⟩

/-! ### C13: `Apply` stops at the first failure -/

theorem applyLoop_cons_of_fails (s : System) (log : List Command) (p : Package)
    (rest : Packages) (h : commandFails s log (applyCommand p) = true) :
    (applyLoop s log (p :: rest)).1 ≠ Except.ok () ∧
      (applyLoop s log (p :: rest)).2 = log ++ [applyCommand p] := by
  unfold commandFails at h
  simp only [applyLoop, ExecuteCommand]
  cases hs : s log (applyCommand p) with
  | error err => simp
  | ok res =>
    rw [hs] at h
    simp only [Bool.or_eq_true, decide_eq_true_eq] at h
    simp only
    by_cases hp : stringsHasPrefix res.Stdout "which_snap_rc=" = true
    · simp [hp]
    · have hx : res.ExitCode ≠ 0 := by
        rcases h with h | h
        · exact absurd h hp
        · exact h
      simp [hp, hx]

theorem applyLoop_cons_of_not_fails (s : System) (log : List Command) (p : Package)
    (rest : Packages) (h : commandFails s log (applyCommand p) = false) :
    applyLoop s log (p :: rest) = applyLoop s (log ++ [applyCommand p]) rest := by
  unfold commandFails at h
  simp only [applyLoop, ExecuteCommand]
  cases hs : s log (applyCommand p) with
  | error err => rw [hs] at h; simp at h
  | ok res =>
    rw [hs] at h
    simp only [Bool.or_eq_false_iff, decide_eq_false_iff_not, not_not] at h
    simp [h.1, h.2]

theorem failsAt_zero (s : System) (log : List Command) (p : Package) (rest : Packages) :
    failsAt s log (p :: rest) 0 = commandFails s log (applyCommand p) := by
  simp [failsAt]

theorem failsAt_succ (s : System) (log : List Command) (p : Package) (rest : Packages)
    (i : Nat) :
    failsAt s log (p :: rest) (i + 1) = failsAt s (log ++ [applyCommand p]) rest i := by
  simp [failsAt]

/-- Without a failing command the loop runs through. -/
theorem applyLoop_of_no_failure (s : System) (pkgs : Packages) :
    ∀ log : List Command, (∀ i, i < pkgs.length → failsAt s log pkgs i = false) →
      applyLoop s log pkgs = (Except.ok (), log ++ pkgs.map applyCommand) := by
  induction pkgs with
  | nil => intro log _; simp [applyLoop]
  | cons p rest ih =>
    intro log h
    have h0 := h 0 (by simp)
    rw [failsAt_zero] at h0
    rw [applyLoop_cons_of_not_fails s log p rest h0, ih]
    · simp
    · intro i hi
      have := h (i + 1) (by simpa using hi)
      rw [failsAt_succ] at this
      exact this

/-- The loop stops right after the first failing command. -/
theorem applyLoop_of_first_failure (s : System) (pkgs : Packages) :
    ∀ (log : List Command) (j : Nat), j < pkgs.length → failsAt s log pkgs j = true →
      (∀ i, i < j → failsAt s log pkgs i = false) →
      (applyLoop s log pkgs).1 ≠ Except.ok () ∧
        (applyLoop s log pkgs).2 = log ++ (pkgs.take (j + 1)).map applyCommand := by
  induction pkgs with
  | nil => intro log j hj; simp at hj
  | cons p rest ih =>
    intro log j hj hfail hbefore
    cases j with
    | zero =>
      rw [failsAt_zero] at hfail
      have := applyLoop_cons_of_fails s log p rest hfail
      simpa using this
    | succ j =>
      have h0 := hbefore 0 (by omega)
      rw [failsAt_zero] at h0
      rw [applyLoop_cons_of_not_fails s log p rest h0]
      rw [failsAt_succ] at hfail
      have := ih (log ++ [applyCommand p]) j (by simpa using hj) hfail (by
        intro i hi
        have := hbefore (i + 1) (by omega)
        rw [failsAt_succ] at this
        exact this)
      simpa using this

/-- Either no command fails or there is a first one that does. -/
theorem first_failure_exists (f : Nat → Bool) (n : Nat) :
    (∀ i, i < n → f i = false) ∨
      ∃ j, j < n ∧ f j = true ∧ ∀ i, i < j → f i = false := by
  induction n with
  | zero => left; intro i hi; omega
  | succ n ih =>
    rcases ih with h | ⟨j, hj, hf, hb⟩
    · cases hn : f n with
      | false =>
        left
        intro i hi
        rcases Nat.lt_succ_iff_lt_or_eq.mp hi with hi | hi
        · exact h i hi
        · rw [hi]; exact hn
      | true => right; exact ⟨n, by omega, hn, h⟩
    · right; exact ⟨j, by omega, hf, hb⟩

/-- C13: `Apply` executes the commands of the packages one by one in the order
of the collection. If no command fails (transport error, sentinel on stdout or
non-zero exit code) it executes the command of every package and returns
success; if the command of the package at position `j` is the first to fail, it
has executed exactly the commands of the packages up to and including that one,
none for a later package, and returns an error. So it returns success if and
only if no command failed, and for the empty collection it executes no command
and returns success. -/
theorem apply_stops_at_first_failure (s : System) (log : List Command) (pkgs : Packages) :
    ((∀ i, i < pkgs.length → failsAt s log pkgs i = false) →
      Apply s log pkgs = (Except.ok (), log ++ pkgs.map applyCommand)) ∧
    (∀ j, j < pkgs.length → failsAt s log pkgs j = true →
      (∀ i, i < j → failsAt s log pkgs i = false) →
      (Apply s log pkgs).1 ≠ Except.ok () ∧
        (Apply s log pkgs).2 = log ++ (pkgs.take (j + 1)).map applyCommand) ∧
    ((Apply s log pkgs).1 = Except.ok () ↔
      ∀ i, i < pkgs.length → failsAt s log pkgs i = false) ∧
    Apply s log [] = (Except.ok (), log) := by
  rw [Apply_eq_applyLoop]
  refine ⟨applyLoop_of_no_failure s pkgs log, applyLoop_of_first_failure s pkgs log, ?_, rfl⟩
  constructor
  · intro hok
    rcases first_failure_exists (failsAt s log pkgs) pkgs.length with h | ⟨j, hj, hf, hb⟩
    · exact h
    · exact absurd hok (applyLoop_of_first_failure s pkgs log j hj hf hb).1
  · intro h
    rw [applyLoop_of_no_failure s pkgs log h]

set_option maxRecDepth 20000 in
/-- C13 on a machine that fails to remove `hello`: of the three packages the
command of the second is the first to fail, and the third gets none. -/
theorem apply_stops_at_first_failure_witness :
    (Apply systemRemoveFails [] [wantInstalled "core", wantRemoved "hello", wantRemoved "vlc"]).1
      ≠ Except.ok () ∧
    (Apply systemRemoveFails [] [wantInstalled "core", wantRemoved "hello", wantRemoved "vlc"]).2
      = [] ++ ([wantInstalled "core", wantRemoved "hello", wantRemoved "vlc"].take (1 + 1)).map
          applyCommand :=
  (apply_stops_at_first_failure systemRemoveFails []
    [wantInstalled "core", wantRemoved "hello", wantRemoved "vlc"]).2.1 1 (by decide)
    (by decide) (by decide)

/-! ### The text of the commands of `Apply` -/

theorem snapProbe_eq : snapProbe = probeGuard ++ "snap " := by decide

theorem snapInstallCommand_text (name : String) :
    snapInstallCommand name =
      probeGuard ++ "snap install \x27" ++ name ++ "\x27; \x7d; _do;" := by
  unfold snapInstallCommand NewCommand
  rw [snapProbe_eq]
  apply String.ext
  simp only [String.data_append, List.append_assoc]
  rfl

theorem snapRemoveCommand_text (name : String) :
    snapRemoveCommand name =
      probeGuard ++ "snap remove \x27" ++ name ++ "\x27; \x7d; _do;" := by
  unfold snapRemoveCommand NewCommand
  rw [snapProbe_eq]
  apply String.ext
  simp only [String.data_append, List.append_assoc]
  rfl

/-! ### C19: failure before the record is written -/

set_option maxRecDepth 20000 in
theorem applyCommand_ne_list (p : Package) : applyCommand p ≠ snapListCommand := by
  have key : ∀ rest : String, probeGuard ++ rest ≠ snapListCommand := by
    intro rest h
    have hd := congrArg (fun c : String => c.data.take 80) h
    simp only [String.data_append] at hd
    have h1 : (probeGuard.data ++ rest.data).take 80 = probeGuard.data.take 80 := by
      rw [List.take_append_of_le_length]
      decide
    rw [h1] at hd
    revert hd
    decide
  unfold applyCommand
  split
  · rw [snapInstallCommand_text]
    have := key ("snap install \x27" ++ p.Name ++ "\x27; \x7d; _do;")
    simpa [String.append_assoc] using this
  · split
    · rw [snapRemoveCommand_text]
      have := key ("snap remove \x27" ++ p.Name ++ "\x27; \x7d; _do;")
      simpa [String.append_assoc] using this
    · decide

/-- C19: when the pre-apply `Get` fails, or the diff fails, or `Apply` fails during
a create or an update, the operation returns that very error, the resource data
(PreInstalledRecord, resource ID and observed state) is what it was before, and
the command log ends where the failure happened: no listing is executed after
the one of the pre-apply `Get`, so no read-back has taken place. -/
theorem failure_leaves_resource_data
    (op : RangeOrder → System → List Command → ResourceData →
      Option GoError × ResourceData × List Command)
    (hop : op = resourcePackagesSnapCreate ∨ op = resourcePackagesSnapUpdate)
    (ρ : RangeOrder) (s : System) (log : List Command) (d : ResourceData) :
    (∀ e, (Get s log).1 = Except.error e →
      op ρ s log d = (some e, d, log ++ [snapListCommand])) ∧
    (∀ inv e, (Get s log).1 = Except.ok inv →
      resourcePackagesSnapGetResourceData ρ d = Except.error e →
      op ρ s log d = (some e, d, log ++ [snapListCommand])) ∧
    (∀ inv plan e log2, (Get s log).1 = Except.ok inv →
      resourcePackagesSnapGetResourceData ρ d = Except.ok plan →
      Apply s (log ++ [snapListCommand]) plan = (Except.error e, log2) →
      op ρ s log d = (some e, d, log2) ∧
      ∃ cmds, log2 = log ++ [snapListCommand] ++ cmds ∧ cmds <+: plan.map applyCommand ∧
        snapListCommand ∉ cmds) := by
  have hopc : op = resourcePackagesSnapCreate := by
    rcases hop with hop | hop
    · exact hop
    · rw [hop, update_eq_create]
  subst hopc
  have hlog := Get_log s log
  rcases hget : Get s log with ⟨g, log1⟩
  rw [hget] at hlog
  simp only at hlog
  subst hlog
  refine ⟨?_, ?_, ?_⟩
  · intro e he
    simp only at he
    subst he
    unfold resourcePackagesSnapCreate resourcePackagesSnapApply
    rw [hget]
  · intro inv e hinv hplan
    simp only at hinv
    subst hinv
    unfold resourcePackagesSnapCreate resourcePackagesSnapApply
    rw [hget]
    simp only [hplan]
  · intro inv plan e log2 hinv hplan happ
    simp only at hinv
    subst hinv
    constructor
    · unfold resourcePackagesSnapCreate resourcePackagesSnapApply
      rw [hget]
      simp only [hplan, happ]
    · rw [Apply_eq_applyLoop] at happ
      obtain ⟨cmds, h1, h2⟩ := applyLoop_log s plan (log ++ [snapListCommand])
      rw [happ] at h1
      refine ⟨cmds, h1, h2, ?_⟩
      intro hmem
      obtain ⟨p, _, hp⟩ := List.mem_map.mp (h2.subset hmem)
      exact applyCommand_ne_list p hp

set_option maxRecDepth 20000 in
/-- C19 at the create of `{core}` on a machine that fails to install: the error of
`Apply` is returned and the resource data is untouched. -/
theorem failure_leaves_resource_data_witness :
    resourcePackagesSnapCreate RangeOrder.stored systemInstallFails [] dataCreateCore =
      (some (GoError.join ErrSnapPackageManager (GoError.new "error: cannot install")),
        dataCreateCore, [snapListCommand, snapInstallCommand "core"]) ∧
    ∃ cmds, [snapListCommand, snapInstallCommand "core"] = [] ++ [snapListCommand] ++ cmds ∧
      cmds <+: [wantInstalled "core"].map applyCommand ∧ snapListCommand ∉ cmds :=
  (failure_leaves_resource_data resourcePackagesSnapCreate (Or.inl rfl) RangeOrder.stored
    systemInstallFails [] dataCreateCore).2.2
    [{ Manager := SnapPackageManager, Name := "core", Version := { Installed := "16-2.61" },
       State := PackageState.PackageInstalled }]
    [wantInstalled "core"]
    (GoError.join ErrSnapPackageManager (GoError.new "error: cannot install"))
    [snapListCommand, snapInstallCommand "core"]
    (by decide) (by decide) (by decide)

/-! ### C15: the plan is strictly ascending and canonical -/

theorem plan_strictly_ascending (ρ : RangeOrder) (d : ResourceData) (plan : Packages)
    (h : resourcePackagesSnapGetResourceData ρ d = Except.ok plan) :
    plan.Pairwise (fun a b => a.Name.data < b.Name.data) := by
  have h1 := plan_names_ascending ρ d plan h
  unfold List.Sorted at h1
  rw [List.map_map, List.pairwise_map] at h1
  exact h1

theorem planEntries_perm (prev cur prev2 cur2 : List PackageBlock)
    (hc : cur2.Perm cur) (hp : prev2.Perm prev) :
    (planEntries prev2 cur2).Perm (planEntries prev cur) := by
  unfold planEntries
  apply List.Perm.append
  · exact hc.map _
  · apply List.Perm.map
    have hf : (fun n : PackageBlock => decide (n ∉ cur2)) = (fun n => decide (n ∉ cur)) := by
      funext n
      exact decide_eq_decide.mpr (not_congr hc.mem_iff)
    rw [hf]
    exact hp.filter _

/-- Two returned plans for the same sets of declared names are the same list. -/
theorem plan_unique (ρ1 ρ2 : RangeOrder) (d1 d2 : ResourceData) (plan1 plan2 : Packages)
    (hc : d2.package.Perm d1.package) (hp : d2.prevPackage.Perm d1.prevPackage)
    (h1 : resourcePackagesSnapGetResourceData ρ1 d1 = Except.ok plan1)
    (h2 : resourcePackagesSnapGetResourceData ρ2 d2 = Except.ok plan2) : plan2 = plan1 := by
  haveI : IsAntisymm Package (fun a b => a.Name.data < b.Name.data) :=
    ⟨fun _ _ hab hba => absurd hba (lt_asymm hab)⟩
  have hperm : plan2.Perm plan1 :=
    ((plan_ok ρ2 d2 plan2 h2).2.2.2.2.trans (planEntries_perm _ _ _ _ hc hp)).trans
      (plan_ok ρ1 d1 plan1 h1).2.2.2.2.symm
  exact List.eq_of_perm_of_sorted hperm (plan_strictly_ascending ρ2 d2 plan2 h2)
    (plan_strictly_ascending ρ1 d1 plan1 h1)

/-- C15: for duplicate-free previous and current declarations the apply plan (one
is returned whenever no declared name is empty) is strictly ascending by package
name, so no two entries share a name; and it is determined by the two sets of
declared names: every iteration order of the maps and every listing order of
the declarations gives the same plan, entry by entry, hence the same sequence of
commands for `Apply`. -/
theorem plan_strictly_ascending_and_canonical (ρ : RangeOrder) (d : ResourceData)
    (hprev : d.prevPackage.Nodup) (hcur : d.package.Nodup) :
    ((∀ n ∈ d.prevPackage ++ d.package, n ≠ "") →
        ∃ plan, resourcePackagesSnapGetResourceData ρ d = Except.ok plan) ∧
    ∀ plan, resourcePackagesSnapGetResourceData ρ d = Except.ok plan →
      plan.Pairwise (fun a b => a.Name.data < b.Name.data) ∧
      (plan.map Package.Name).Nodup ∧
      ∀ (ρ2 : RangeOrder) (d2 : ResourceData),
        d2.package.Perm d.package → d2.prevPackage.Perm d.prevPackage →
        resourcePackagesSnapGetResourceData ρ2 d2 = Except.ok plan := by
  constructor
  · intro hne
    exact plan_exists ρ d (fun n hn => hne n (List.mem_append_right _ hn)) hcur
      (fun n hn => hne n (List.mem_append_left _ hn)) hprev
  · intro plan h
    refine ⟨plan_strictly_ascending ρ d plan h, plan_names_nodup ρ d plan h, ?_⟩
    intro ρ2 d2 hc hp
    obtain ⟨a2, b2, a1, b1, _⟩ := plan_ok ρ d plan h
    obtain ⟨plan2, h2⟩ := plan_exists ρ2 d2
      (fun n hn => a2 n (hc.mem_iff.mp hn)) (hc.nodup_iff.mpr b2)
      (fun n hn => a1 n (hp.mem_iff.mp hn)) (hp.nodup_iff.mpr b1)
    have heq := plan_unique ρ ρ2 d d2 plan plan2 hc hp h h2
    rw [heq] at h2
    exact h2

/-- C15 at the update from `{hello, hello-world}` to `{hello}`: the reversed
iteration order and the reversed listing give the plan of the stored order. -/
theorem plan_strictly_ascending_and_canonical_witness :
    resourcePackagesSnapGetResourceData RangeOrder.reversed
      { prevPackage := ["hello-world", "hello"], package := ["hello"], id := "",
        internal := none, versions := [] }
      = Except.ok [wantInstalled "hello", wantRemoved "hello-world"] :=
  (((plan_strictly_ascending_and_canonical RangeOrder.stored dataUpdateDropHelloWorld
    (by decide) (by decide)).2 [wantInstalled "hello", wantRemoved "hello-world"]
    (by decide)).2.2 RangeOrder.reversed
      { prevPackage := ["hello-world", "hello"], package := ["hello"], id := "",
        internal := none, versions := [] }
      (List.Perm.refl _) (List.Perm.swap _ _ _))

/-! ### The listing: lines and rows -/

theorem parseSnapListLine_eq_rowOfLine (line : String) :
    parseSnapListLine line = rowOfLine line := by
  unfold parseSnapListLine rowOfLine
  by_cases h : line = ""
  · subst h
    rfl
  · rw [if_neg h]

/-- When the scanner meets no error, its tokens are the lines of the text. -/
theorem scanLines_of_no_error (pieces : List (List Char)) :
    (scanLines pieces).2 = none →
      (scanLines pieces).1 = (linesOfPieces pieces).map (fun l => String.mk (dropCR l)) := by
  induction pieces with
  | nil => intro _; rfl
  | cons seg rest ih =>
    intro h
    cases rest with
    | nil =>
      unfold scanLines at h ⊢
      unfold linesOfPieces
      by_cases h0 : seg = []
      · simp [h0]
      · rw [if_neg h0] at h ⊢
        by_cases h1 : MaxScanTokenSize ≤ byteSize seg
        · rw [if_pos h1] at h
          simp at h
        · rw [if_neg h1, if_neg h0]
          rfl
    | cons seg2 rest2 =>
      unfold scanLines at h ⊢
      unfold linesOfPieces
      by_cases h1 : MaxScanTokenSize ≤ byteSize seg
      · rw [if_pos h1] at h
        simp at h
      · rw [if_neg h1] at h ⊢
        simp only at h ⊢
        rw [ih h]
        rfl

/-- The scanner meets no error when every piece of the text is shorter than the
token limit. -/
theorem scanLines_no_error_of_short (pieces : List (List Char)) :
    (∀ piece ∈ pieces, byteSize piece < MaxScanTokenSize) → (scanLines pieces).2 = none := by
  induction pieces with
  | nil => intro _; rfl
  | cons seg rest ih =>
    intro h
    have hseg : ¬ MaxScanTokenSize ≤ byteSize seg := by
      have := h seg (List.mem_cons_self _ _)
      omega
    cases rest with
    | nil =>
      unfold scanLines
      by_cases h0 : seg = []
      · simp [h0]
      · rw [if_neg h0, if_neg hseg]
    | cons seg2 rest2 =>
      unfold scanLines
      rw [if_neg hseg]
      exact ih (fun piece hp => h piece (List.mem_cons_of_mem _ hp))

/-- What a successful parse returns: the rows of the listing, sorted. -/
theorem parseSnapList_ok (stdout : String) (inv : Packages)
    (h : parseSnapList stdout = Except.ok inv) :
    listingLines stdout ≠ [] ∧ inv = sortByName (listingRows stdout) := by
  unfold parseSnapList at h
  have hno : (scanLines (splitNewline stdout.data)).2 = none := by
    rcases hsc : scanLines (splitNewline stdout.data) with ⟨ts, err⟩
    rw [hsc] at h
    cases ts with
    | nil => simp at h
    | cons hd tl =>
      cases err with
      | none => rfl
      | some e => simp at h
  have hlines := scanLines_of_no_error _ hno
  rcases hsc : scanLines (splitNewline stdout.data) with ⟨ts, err⟩
  rw [hsc] at h hno hlines
  simp only at hno hlines
  subst hno
  have hl : listingLines stdout = ts := hlines.symm
  cases ts with
  | nil => simp at h
  | cons hd tl =>
    simp only [Except.ok.injEq] at h
    refine ⟨by rw [hl]; simp, ?_⟩
    unfold listingRows
    rw [hl, ← h]
    have hf : parseSnapListLine = rowOfLine := funext parseSnapListLine_eq_rowOfLine
    rw [hf]
    rfl

/-! ### C16: the inventory is stably sorted -/

/-- The sort keeps the entries of one name in their order. -/
theorem sortByName_filter_name (pkgs : Packages) (n : String) :
    (sortByName pkgs).filter (fun p => decide (p.Name = n)) =
      pkgs.filter (fun p => decide (p.Name = n)) := by
  have hpw : (pkgs.filter (fun p => decide (p.Name = n))).Pairwise
      (fun a b => a.Name.data ≤ b.Name.data) := by
    rw [List.pairwise_iff_forall_sublist]
    intro a b hab
    have ha := hab.subset (List.mem_cons_self a [b])
    have hb := hab.subset (List.mem_cons_of_mem a (List.mem_cons_self b []))
    simp only [List.mem_filter, decide_eq_true_eq] at ha hb
    rw [ha.2, hb.2]
  have hsub : List.Sublist (pkgs.filter (fun p => decide (p.Name = n))) (sortByName pkgs) :=
    List.sublist_insertionSort hpw (List.filter_sublist pkgs)
  have hsub2 := hsub.filter (fun p => decide (p.Name = n))
  rw [List.filter_filter] at hsub2
  simp only [Bool.and_self] at hsub2
  have hlen := ((sortByName_perm pkgs).filter (fun p => decide (p.Name = n))).length_eq
  exact (hsub2.eq_of_length hlen.symm).symm

/-- C16: whenever `Get` succeeds, the collection it returns is sorted ascending
by package name, is a permutation of the rows of the listing, and for every
name has the rows of that name in their order of appearance in the listing. -/
theorem inventory_stably_sorted (s : System) (log : List Command) (inv : Packages)
    (h : (Get s log).1 = Except.ok inv) :
    ∃ res, s log snapListCommand = Except.ok res ∧
      inv.Sorted (fun a b => a.Name.data ≤ b.Name.data) ∧
      inv.Perm (listingRows res.Stdout) ∧
      ∀ n, inv.filter (fun p => decide (p.Name = n)) =
        (listingRows res.Stdout).filter (fun p => decide (p.Name = n)) := by
  obtain ⟨_, res, hs, hparse⟩ := Get_ok s log inv h
  obtain ⟨_, hinv⟩ := parseSnapList_ok res.Stdout inv hparse
  refine ⟨res, hs, ?_, ?_, ?_⟩
  · rw [hinv]; exact sortByName_sorted _
  · rw [hinv]; exact sortByName_perm _
  · intro n
    rw [hinv]
    exact sortByName_filter_name _ n

/-- C16 on a listing with two rows named `core`: they come after `bare`, in the
order of the listing. -/
theorem inventory_stably_sorted_witness :
    ∃ res, systemCoreTwice [] snapListCommand = Except.ok res ∧
      List.Sorted (fun a b : Package => a.Name.data ≤ b.Name.data)
        [{ Manager := SnapPackageManager, Name := "bare", Version := { Installed := "1" },
           State := PackageState.PackageInstalled },
         { Manager := SnapPackageManager, Name := "core", Version := { Installed := "2" },
           State := PackageState.PackageInstalled },
         { Manager := SnapPackageManager, Name := "core", Version := { Installed := "1" },
           State := PackageState.PackageInstalled }] ∧
      List.Perm
        [{ Manager := SnapPackageManager, Name := "bare", Version := { Installed := "1" },
           State := PackageState.PackageInstalled },
         { Manager := SnapPackageManager, Name := "core", Version := { Installed := "2" },
           State := PackageState.PackageInstalled },
         { Manager := SnapPackageManager, Name := "core", Version := { Installed := "1" },
           State := PackageState.PackageInstalled }]
        (listingRows res.Stdout) ∧
      ∀ n, List.filter (fun p : Package => decide (p.Name = n))
        [{ Manager := SnapPackageManager, Name := "bare", Version := { Installed := "1" },
           State := PackageState.PackageInstalled },
         { Manager := SnapPackageManager, Name := "core", Version := { Installed := "2" },
           State := PackageState.PackageInstalled },
         { Manager := SnapPackageManager, Name := "core", Version := { Installed := "1" },
           State := PackageState.PackageInstalled }] =
        (listingRows res.Stdout).filter (fun p => decide (p.Name = n)) :=
  inventory_stably_sorted systemCoreTwice [] _ (by decide)

/-! ### The scanner and its token limit -/

theorem splitChar_ne_nil (sep : Char) (l : List Char) : splitChar sep l ≠ [] := by
  cases l with
  | nil => simp [splitChar]
  | cons c cs =>
    unfold splitChar
    split
    · simp
    · split <;> simp

theorem splitChar_of_not_mem (sep : Char) (l : List Char) (h : sep ∉ l) :
    splitChar sep l = [l] := by
  induction l with
  | nil => rfl
  | cons c cs ih =>
    simp only [List.mem_cons, not_or] at h
    unfold splitChar
    rw [ih h.2]
    simp only
    rw [if_neg (fun hc => h.1 hc.symm)]

theorem splitChar_append_sep (sep : Char) (a rest : List Char) (h : sep ∉ a) :
    splitChar sep (a ++ sep :: rest) = a :: splitChar sep rest := by
  induction a with
  | nil =>
    simp only [List.nil_append]
    rw [splitChar]
    rcases hr : splitChar sep rest with _ | ⟨seg, segs⟩
    · exact absurd hr (splitChar_ne_nil sep rest)
    · simp
  | cons c cs ih =>
    simp only [List.mem_cons, not_or] at h
    simp only [List.cons_append]
    rw [splitChar, ih h.2]
    simp only
    rw [if_neg (fun hc => h.1 hc.symm)]

theorem byteSize_nil : byteSize [] = 0 := rfl

theorem byteSize_cons (c : Char) (cs : List Char) :
    byteSize (c :: cs) = byteSize cs + c.utf8Size := rfl

theorem byteSize_append (a b : List Char) : byteSize (a ++ b) = byteSize a + byteSize b := by
  induction a with
  | nil => simp [byteSize_nil]
  | cons c cs ih =>
    rw [List.cons_append, byteSize_cons, byteSize_cons, ih]
    omega

theorem byteSize_replicate (n : Nat) : byteSize (List.replicate n (Char.ofNat 97)) = n := by
  induction n with
  | zero => rfl
  | succ n ih =>
    rw [List.replicate_succ, byteSize_cons, ih]
    rfl

theorem byteSize_longLine : byteSize longLine = MaxScanTokenSize :=
  byteSize_replicate MaxScanTokenSize

theorem newline_not_mem_longLine : Char.ofNat 10 ∉ longLine := by
  unfold longLine
  intro h
  have := List.eq_of_mem_replicate h
  revert this
  decide

theorem longLine_ne_nil : longLine ≠ [] := by
  intro h
  have h1 := congrArg byteSize h
  rw [byteSize_longLine, byteSize_nil] at h1
  revert h1
  decide

/-- The only error of the scanner is `ErrTooLong`. -/
theorem scanLines_error (pieces : List (List Char)) (e : GoError) :
    (scanLines pieces).2 = some e → e = ErrTooLong := by
  induction pieces with
  | nil => intro h; cases h
  | cons seg rest ih =>
    intro h
    cases rest with
    | nil =>
      unfold scanLines at h
      split at h
      · cases h
      · split at h
        · simp only [Option.some.injEq] at h; exact h.symm
        · cases h
    | cons seg2 rest2 =>
      unfold scanLines at h
      split at h
      · simp only [Option.some.injEq] at h; exact h.symm
      · exact ih h

/-- The scanner delivers no token exactly when the text is empty or its first
piece is too long. -/
theorem scanLines_tokens_nil_iff (pieces : List (List Char)) (hne : pieces ≠ []) :
    (scanLines pieces).1 = [] ↔
      (pieces = [[]] ∨ MaxScanTokenSize ≤ byteSize (pieces.headD [])) := by
  cases pieces with
  | nil => exact absurd rfl hne
  | cons seg rest =>
    cases rest with
    | nil =>
      unfold scanLines
      by_cases h0 : seg = []
      · simp [h0]
      · by_cases h1 : MaxScanTokenSize ≤ byteSize seg
        · simp [h0, h1]
        · simp [h0, h1]
    | cons seg2 rest2 =>
      unfold scanLines
      by_cases h1 : MaxScanTokenSize ≤ byteSize seg
      · simp [h1]
      · simp [h1]

theorem splitNewline_eq_singleton_nil (l : List Char) : splitNewline l = [[]] ↔ l = [] := by
  constructor
  · intro h
    cases l with
    | nil => rfl
    | cons c cs =>
      unfold splitNewline at h
      rw [splitChar] at h
      rcases hr : splitChar (Char.ofNat 10) cs with _ | ⟨seg, segs⟩
      · exact absurd hr (splitChar_ne_nil _ cs)
      · rw [hr] at h
        simp only at h
        split at h <;> simp at h
  · intro h
    subst h
    rfl

/-! ### What `Get` returns for a result of the executor -/

theorem Get_result (s : System) (log : List Command) (res : CommandResult)
    (hs : s log snapListCommand = Except.ok res) :
    (Get s log).1 =
      if getSentinelCheck res.Stdout = true then Except.error ErrSnapPackageManagerNotAvailable
      else if res.ExitCode ≠ 0 then Except.error ErrSnapPackageUnexpected
      else parseSnapList res.Stdout := by
  unfold Get ExecuteCommand getSentinelCheck
  rw [hs]
  simp only
  split
  · rfl
  · split <;> rfl

theorem linesOfPieces_eq_nil_iff (pieces : List (List Char)) :
    linesOfPieces pieces = [] ↔ (pieces = [] ∨ pieces = [[]]) := by
  cases pieces with
  | nil => simp [linesOfPieces]
  | cons seg rest =>
    cases rest with
    | nil =>
      unfold linesOfPieces
      by_cases h0 : seg = []
      · simp [h0]
      · simp [h0]
    | cons seg2 rest2 => simp [linesOfPieces]

theorem listingLines_eq_nil_iff (stdout : String) :
    listingLines stdout = [] ↔ stdout = "" := by
  unfold listingLines
  rw [List.map_eq_nil_iff, linesOfPieces_eq_nil_iff]
  constructor
  · rintro (h | h)
    · exact absurd h (splitChar_ne_nil _ _)
    · exact String.ext ((splitNewline_eq_singleton_nil _).mp h)
  · intro h
    right
    rw [h]
    rfl

/-- The parse fails with the unexpected error exactly when the scanner delivers
no first line: the text is empty or its first line is too long. -/
theorem parseSnapList_unexpected_iff (stdout : String) :
    parseSnapList stdout = Except.error ErrSnapPackageUnexpected ↔
      (stdout = "" ∨ firstLineTooLong stdout) := by
  have hnil := scanLines_tokens_nil_iff (splitNewline stdout.data) (splitChar_ne_nil _ _)
  have herr := scanLines_error (splitNewline stdout.data)
  unfold parseSnapList firstLineTooLong
  rcases hsc : scanLines (splitNewline stdout.data) with ⟨ts, err⟩
  rw [hsc] at hnil herr
  simp only at hnil herr
  have hempty : stdout = "" ↔ splitNewline stdout.data = [[]] := by
    rw [splitNewline_eq_singleton_nil]
    constructor
    · intro h; rw [h]
    · intro h; exact String.ext h
  rw [hempty, ← hnil]
  cases ts with
  | nil => simp
  | cons hd tl =>
    simp only [reduceCtorEq, iff_false]
    cases err with
    | none => simp
    | some e =>
      rw [herr e rfl]
      simp only [Except.error.injEq]
      decide

/-- With at least one line and no line too long the parse returns the rows of the
listing, sorted. -/
theorem parseSnapList_of_short (stdout : String) (hline : listingLines stdout ≠ [])
    (hshort : ∀ piece ∈ splitNewline stdout.data, byteSize piece < MaxScanTokenSize) :
    parseSnapList stdout = Except.ok (sortByName (listingRows stdout)) := by
  have hno := scanLines_no_error_of_short _ hshort
  have hlines := scanLines_of_no_error _ hno
  have hl : (scanLines (splitNewline stdout.data)).1 = listingLines stdout := hlines
  unfold parseSnapList
  rcases hsc : scanLines (splitNewline stdout.data) with ⟨ts, err⟩
  rw [hsc] at hno hl
  simp only at hno hl
  subst hno
  cases ts with
  | nil => exact absurd hl.symm hline
  | cons hd tl =>
    simp only [Except.ok.injEq]
    unfold listingRows
    rw [← hl]
    have hf : parseSnapListLine = rowOfLine := funext parseSnapListLine_eq_rowOfLine
    rw [hf]
    rfl

theorem mem_listingRows (stdout : String) (p : Package) :
    p ∈ listingRows stdout ↔
      ∃ line ∈ (listingLines stdout).tail, ∃ name version rest,
        stringsFields line = name :: version :: rest ∧
        p = { Manager := SnapPackageManager, Name := name,
              Version := { Installed := version, Available := "" },
              State := PackageState.PackageInstalled } := by
  unfold listingRows
  rw [List.mem_filterMap]
  constructor
  · rintro ⟨line, hl, hrow⟩
    refine ⟨line, hl, ?_⟩
    unfold rowOfLine at hrow
    rcases hf : stringsFields line with _ | ⟨a, _ | ⟨b, tl⟩⟩
    · rw [hf] at hrow; simp at hrow
    · rw [hf] at hrow; simp at hrow
    · rw [hf] at hrow
      simp only [Option.some.injEq] at hrow
      exact ⟨a, b, tl, rfl, hrow.symm⟩
  · rintro ⟨line, hl, name, version, rest, hf, hp⟩
    refine ⟨line, hl, ?_⟩
    unfold rowOfLine
    rw [hf, hp]

/-! ### C12: when `Get` fails with the unexpected error -/

/-- A piece that is too long makes the scanner stop with an error. -/
theorem scanLines_error_of_long (pieces : List (List Char)) :
    (∃ piece ∈ pieces, MaxScanTokenSize ≤ byteSize piece) →
      (scanLines pieces).2 = some ErrTooLong := by
  induction pieces with
  | nil => rintro ⟨piece, hp, _⟩; cases hp
  | cons seg rest ih =>
    rintro ⟨piece, hp, hlong⟩
    cases rest with
    | nil =>
      have hps : piece = seg := by simpa using hp
      subst hps
      have h0 : piece ≠ [] := by
        intro h0
        rw [h0, byteSize_nil] at hlong
        revert hlong
        decide
      unfold scanLines
      rw [if_neg h0, if_pos hlong]
    | cons seg2 rest2 =>
      unfold scanLines
      by_cases h1 : MaxScanTokenSize ≤ byteSize seg
      · rw [if_pos h1]
      · rw [if_neg h1]
        rcases List.mem_cons.mp hp with hp | hp
        · subst hp
          exact absurd hlong h1
        · exact ih ⟨piece, hp, hlong⟩

/-- With a first line that the scanner accepts and a later line that is too long,
the parse fails with the error of the scanner. -/
theorem parseSnapList_of_long_row (stdout : String) (hne : stdout ≠ "")
    (hfirst : ¬ firstLineTooLong stdout)
    (hlong : ∃ piece ∈ splitNewline stdout.data, MaxScanTokenSize ≤ byteSize piece) :
    parseSnapList stdout = Except.error (GoError.join ErrSnapPackage ErrTooLong) := by
  have herr := scanLines_error_of_long _ hlong
  have hnil := scanLines_tokens_nil_iff (splitNewline stdout.data) (splitChar_ne_nil _ _)
  unfold firstLineTooLong at hfirst
  unfold parseSnapList
  rcases hsc : scanLines (splitNewline stdout.data) with ⟨ts, err⟩
  rw [hsc] at herr hnil
  simp only at herr hnil
  subst herr
  cases ts with
  | nil =>
    rcases hnil.mp rfl with h | h
    · exact absurd (String.ext ((splitNewline_eq_singleton_nil _).mp h)) hne
    · exact absurd h hfirst
  | cons hd tl => rfl

theorem longLine_cons :
    longLine = Char.ofNat 97 :: List.replicate 65535 (Char.ofNat 97) := by
  unfold longLine
  have h : MaxScanTokenSize = 65535 + 1 := by decide
  rw [h]
  exact List.replicate_succ _ _

theorem hasPrefix_longLine (rest : List Char) :
    stringsHasPrefix (String.mk (longLine ++ rest)) "which_snap_rc=" = false := by
  unfold stringsHasPrefix
  rw [longLine_cons]
  rfl

theorem getSentinelCheck_longLine (rest : List Char) :
    getSentinelCheck (String.mk (longLine ++ rest)) = false := by
  unfold getSentinelCheck
  rw [hasPrefix_longLine]
  rfl

/-- C12, as amended: when the executor returns a result without transport error
on which the sentinel check of `Get` does not fire, `Get` fails with
`ErrSnapPackageUnexpected` if and only if the exit code is non-zero, or stdout is
completely empty, or its first line has 65536 bytes or more; and a stdout that
consists of a header line only (shorter than that, with or without its newline)
with exit code 0 makes `Get` succeed with the empty collection. -/
theorem get_unexpected_iff (s : System) (log : List Command) (res : CommandResult)
    (hs : s log snapListCommand = Except.ok res)
    (hnot : getSentinelCheck res.Stdout = false) :
    ((Get s log).1 = Except.error ErrSnapPackageUnexpected ↔
      (res.ExitCode ≠ 0 ∨ res.Stdout = "" ∨ firstLineTooLong res.Stdout)) ∧
    (∀ header : List Char, res.ExitCode = 0 → header ≠ [] → Char.ofNat 10 ∉ header →
      byteSize header < MaxScanTokenSize →
      (res.Stdout.data = header ∨ res.Stdout.data = header ++ [Char.ofNat 10]) →
      (Get s log).1 = Except.ok []) := by
  have hres := Get_result s log res hs
  rw [hnot] at hres
  simp only [Bool.false_eq_true, if_false] at hres
  constructor
  · rw [hres]
    by_cases hx : res.ExitCode ≠ 0
    · rw [if_pos hx]
      simp [hx]
    · rw [if_neg hx, parseSnapList_unexpected_iff]
      simp [hx]
  · intro header hx h0 hnl hshort hstd
    rw [hres, if_neg (by simpa using hx)]
    have hpieces : splitNewline res.Stdout.data = [header] ∨
        splitNewline res.Stdout.data = [header, []] := by
      rcases hstd with h | h
      · left
        rw [h]
        exact splitChar_of_not_mem _ _ hnl
      · right
        rw [h]
        unfold splitNewline
        rw [splitChar_append_sep _ _ _ hnl]
        rfl
    have hlines : listingLines res.Stdout = [String.mk (dropCR header)] := by
      unfold listingLines
      rcases hpieces with h | h
      · rw [h]
        simp [linesOfPieces, h0]
      · rw [h]
        simp [linesOfPieces]
    have hshort2 : ∀ piece ∈ splitNewline res.Stdout.data, byteSize piece < MaxScanTokenSize := by
      intro piece hp
      rcases hpieces with h | h
      · rw [h] at hp
        simp only [List.mem_singleton] at hp
        rw [hp]; exact hshort
      · rw [h] at hp
        simp only [List.mem_cons, List.mem_singleton, List.not_mem_nil, or_false] at hp
        rcases hp with hp | hp
        · rw [hp]; exact hshort
        · rw [hp]; decide
    rw [parseSnapList_of_short res.Stdout (by rw [hlines]; simp) hshort2]
    unfold listingRows
    rw [hlines]
    rfl

/-- C12 on a machine whose snap lists nothing: the header alone gives the empty
collection. -/
theorem get_unexpected_iff_witness :
    (Get (systemAnswering "Name Version Rev\n" 0) []).1 = Except.ok [] :=
  (get_unexpected_iff (systemAnswering "Name Version Rev\n" 0) []
    { Stdout := "Name Version Rev\n", Stderr := "", ExitCode := 0 } rfl (by decide)).2
    "Name Version Rev".data rfl (by decide) (by decide) (by decide) (Or.inr (by decide))

/-- C12 fails as stated. A stdout that is one line of 65536 letters, with exit
code 0, is neither a sentinel nor empty, and `Get` fails with
`ErrSnapPackageUnexpected`. And for the stdout `which_snap_rc=0` followed by a
newline, whose code is zero, with exit code 1, `Get` does not fail with
`ErrSnapPackageUnexpected` but with `ErrSnapPackageManagerNotAvailable`. -/
theorem get_unexpected_iff_counterexample :
    ((Get (systemAnswering longHeaderListing 0) []).1 = Except.error ErrSnapPackageUnexpected ∧
      longHeaderListing ≠ "" ∧
      stringsHasPrefix longHeaderListing "which_snap_rc=" = false) ∧
    ((Get (systemAnswering "which_snap_rc=0\n" 1) []).1
        = Except.error ErrSnapPackageManagerNotAvailable ∧
      sentinelCode "which_snap_rc=0\n" = some 0 ∧
      ErrSnapPackageManagerNotAvailable ≠ ErrSnapPackageUnexpected) := by
  have hcheck : getSentinelCheck longHeaderListing = false := by
    have := getSentinelCheck_longLine []
    rw [List.append_nil] at this
    exact this
  have hstart : stringsHasPrefix longHeaderListing "which_snap_rc=" = false := by
    have := hasPrefix_longLine []
    rw [List.append_nil] at this
    exact this
  have hne : longHeaderListing ≠ "" := by
    intro h
    exact longLine_ne_nil (congrArg String.data h)
  refine ⟨⟨?_, hne, hstart⟩, by decide⟩
  rw [Get_result (systemAnswering longHeaderListing 0) []
    { Stdout := longHeaderListing, Stderr := "", ExitCode := 0 } rfl, hcheck]
  simp only [Bool.false_eq_true, if_false, ne_eq, not_true_eq_false]
  rw [parseSnapList_unexpected_iff]
  right
  unfold firstLineTooLong longHeaderListing splitNewline
  rw [splitChar_of_not_mem _ _ newline_not_mem_longLine]
  simp only [List.headD_cons]
  rw [byteSize_longLine]

/-! ### C11: the packages `Get` returns -/

/-- C11, as amended: for every stdout on which the sentinel check of `Get` does
not fire, with exit code 0, at least one line and no line of 65536 bytes or
more, `Get` returns, sorted by name, exactly one package per line after the
first that has at least two whitespace-separated tokens, with the first token
as name, the second as installed version, no available version, state Installed
and manager snap; the first line, the lines with fewer than two tokens (the
empty lines among them) and the tokens after the second contribute nothing. -/
theorem get_returns_listing_rows (s : System) (log : List Command) (res : CommandResult)
    (hs : s log snapListCommand = Except.ok res)
    (hnot : getSentinelCheck res.Stdout = false) (hexit : res.ExitCode = 0)
    (hline : listingLines res.Stdout ≠ [])
    (hshort : ∀ piece ∈ splitNewline res.Stdout.data, byteSize piece < MaxScanTokenSize) :
    ∃ inv, Get s log = (Except.ok inv, log ++ [snapListCommand]) ∧
      inv.Perm (listingRows res.Stdout) ∧
      inv.length = ((listingLines res.Stdout).tail.filter
        (fun line => decide (2 ≤ (stringsFields line).length))).length ∧
      ∀ p, p ∈ inv ↔
        ∃ line ∈ (listingLines res.Stdout).tail, ∃ name version rest,
          stringsFields line = name :: version :: rest ∧
          p = { Manager := SnapPackageManager, Name := name,
                Version := { Installed := version, Available := "" },
                State := PackageState.PackageInstalled } := by
  have hres := Get_result s log res hs
  rw [hnot] at hres
  simp only [Bool.false_eq_true, if_false, hexit, ne_eq, not_true_eq_false] at hres
  rw [parseSnapList_of_short res.Stdout hline hshort] at hres
  refine ⟨sortByName (listingRows res.Stdout), ?_, sortByName_perm _, ?_, ?_⟩
  · rw [← hres, ← Get_log s log]
  · rw [(sortByName_perm _).length_eq]
    unfold listingRows
    generalize (listingLines res.Stdout).tail = lines
    induction lines with
    | nil => rfl
    | cons line rest ih =>
      rw [List.filterMap_cons, List.filter_cons]
      unfold rowOfLine
      rcases hf : stringsFields line with _ | ⟨a, _ | ⟨b, tl⟩⟩
      · simpa [hf] using ih
      · simpa [hf] using ih
      · simpa [hf] using ih
  · intro p
    rw [(sortByName_perm _).mem_iff, mem_listingRows]

set_option maxRecDepth 20000 in
/-- C11 on a listing with a header, three rows, an empty line and a line of one
token. -/
theorem get_returns_listing_rows_witness :
    ∃ inv, Get systemCoreTwice [] = (Except.ok inv, [] ++ [snapListCommand]) ∧
      inv.Perm (listingRows "Name Version Rev\ncore 2 x\nbare 1 y\n\ncore 1 z\nodd\n") ∧
      inv.length = ((listingLines "Name Version Rev\ncore 2 x\nbare 1 y\n\ncore 1 z\nodd\n").tail.filter
        (fun line => decide (2 ≤ (stringsFields line).length))).length ∧
      ∀ p, p ∈ inv ↔
        ∃ line ∈ (listingLines "Name Version Rev\ncore 2 x\nbare 1 y\n\ncore 1 z\nodd\n").tail,
          ∃ name version rest,
            stringsFields line = name :: version :: rest ∧
            p = { Manager := SnapPackageManager, Name := name,
                  Version := { Installed := version, Available := "" },
                  State := PackageState.PackageInstalled } :=
  get_returns_listing_rows systemCoreTwice []
    { Stdout := "Name Version Rev\ncore 2 x\nbare 1 y\n\ncore 1 z\nodd\n", Stderr := "",
      ExitCode := 0 }
    rfl (by decide) rfl (by decide) (by decide)

theorem splitNewline_longRowListing :
    splitNewline longRowListing.data =
      ["Name Version Rev".data, longLine ++ " 1".data, []] := by
  have hnl : Char.ofNat 10 ∉ longLine ++ " 1".data := by
    intro h
    rcases List.mem_append.mp h with h | h
    · exact newline_not_mem_longLine h
    · revert h
      decide
  unfold splitNewline longRowListing
  show splitChar (Char.ofNat 10) ("Name Version Rev".data ++ Char.ofNat 10 ::
    ((longLine ++ " 1".data) ++ [Char.ofNat 10])) = _
  rw [splitChar_append_sep _ _ _ (by decide), splitChar_append_sep _ _ _ hnl]
  rfl

/-- C11 fails as stated. For a stdout with a header and one row of two tokens
whose name has 65536 letters, with exit code 0, `Get` returns no packages but
the error of the scanner. And for the stdout `which_snap_rc=0` followed by a
newline, whose code is zero, `Get` returns `ErrSnapPackageManagerNotAvailable`. -/
theorem get_returns_listing_rows_counterexample :
    ((Get (systemAnswering longRowListing 0) []).1
        = Except.error (GoError.join ErrSnapPackage ErrTooLong) ∧
      stringsHasPrefix longRowListing "which_snap_rc=" = false ∧
      listingLines longRowListing ≠ []) ∧
    ((Get (systemAnswering "which_snap_rc=0\n" 0) []).1
        = Except.error ErrSnapPackageManagerNotAvailable ∧
      sentinelCode "which_snap_rc=0\n" = some 0 ∧
      listingLines "which_snap_rc=0\n" ≠ []) := by
  have hstart : stringsHasPrefix longRowListing "which_snap_rc=" = false := rfl
  have hcheck : getSentinelCheck longRowListing = false := by
    unfold getSentinelCheck
    rw [hstart]
    rfl
  have hne : longRowListing ≠ "" := by
    intro h
    have := congrArg String.data h
    unfold longRowListing at this
    simp at this
  have hlines : listingLines longRowListing ≠ [] := by
    rw [ne_eq, listingLines_eq_nil_iff]
    exact hne
  refine ⟨⟨?_, hstart, hlines⟩, by decide⟩
  rw [Get_result (systemAnswering longRowListing 0) []
    { Stdout := longRowListing, Stderr := "", ExitCode := 0 } rfl, hcheck]
  simp only [Bool.false_eq_true, if_false, ne_eq, not_true_eq_false]
  apply parseSnapList_of_long_row longRowListing hne
  · unfold firstLineTooLong
    rw [splitNewline_longRowListing]
    decide
  · refine ⟨longLine ++ " 1".data, ?_, ?_⟩
    · rw [splitNewline_longRowListing]
      simp
    · rw [byteSize_append, byteSize_longLine]
      omega

/-! ### C17: the resource ID and the names -/

theorem stringsJoin_cons_cons (e r : String) (rs : List String) (sep : String) :
    stringsJoin (e :: r :: rs) sep = e ++ sep ++ stringsJoin (r :: rs) sep := rfl

/-- Splitting the joined names gives the names back when none contains the bar. -/
theorem split_join_names (names : List String) :
    names ≠ [] → (∀ n ∈ names, Char.ofNat 124 ∉ n.data) →
      stringsSplitBar (stringsJoin names "|") = names := by
  induction names with
  | nil => intro h; exact absurd rfl h
  | cons e rest ih =>
    intro _ hbar
    have he : Char.ofNat 124 ∉ e.data := hbar e (List.mem_cons_self _ _)
    cases rest with
    | nil =>
      unfold stringsSplitBar
      have : stringsJoin [e] "|" = e := rfl
      rw [this, splitChar_of_not_mem _ _ he]
      rfl
    | cons r rs =>
      have ih2 := ih (by simp) (fun n hn => hbar n (List.mem_cons_of_mem _ hn))
      unfold stringsSplitBar at ih2 ⊢
      rw [stringsJoin_cons_cons]
      have hd : (e ++ "|" ++ stringsJoin (r :: rs) "|").data =
          e.data ++ Char.ofNat 124 :: (stringsJoin (r :: rs) "|").data := by
        simp only [String.data_append, List.append_assoc]
        rfl
      rw [hd, splitChar_append_sep _ _ _ he, List.map_cons, ih2]

theorem names_of_id_of_packages (pkgs : Packages) (hne : pkgs ≠ [])
    (hbar : ∀ p ∈ pkgs, Char.ofNat 124 ∉ p.Name.data) :
    packageNamesFromResourcePackagesSnapId (resourcePackagesSnapIdFromPackages pkgs)
      = pkgs.Names := by
  unfold packageNamesFromResourcePackagesSnapId resourcePackagesSnapIdFromPackages
  apply split_join_names
  · unfold Packages.Names
    intro h
    exact hne (List.map_eq_nil_iff.mp h)
  · intro n hn
    unfold Packages.Names at hn
    obtain ⟨p, hp, rfl⟩ := List.mem_map.mp hn
    exact hbar p hp

/-- C17, as amended: for every non-empty collection of packages whose names
contain no `|`, splitting the resource ID with
`packageNamesFromResourcePackagesSnapId` gives back exactly the list of names
from which `resourcePackagesSnapIdFromPackages` built it. -/
theorem id_round_trip (pkgs : Packages) (hne : pkgs ≠ [])
    (hbar : ∀ p ∈ pkgs, Char.ofNat 124 ∉ p.Name.data) :
    packageNamesFromResourcePackagesSnapId (resourcePackagesSnapIdFromPackages pkgs)
      = pkgs.Names :=
  names_of_id_of_packages pkgs hne hbar

/-- C17 for the plan of `core` and `hello`. -/
theorem id_round_trip_witness :
    packageNamesFromResourcePackagesSnapId
        (resourcePackagesSnapIdFromPackages [wantInstalled "core", wantInstalled "hello"])
      = Packages.Names [wantInstalled "core", wantInstalled "hello"] :=
  id_round_trip [wantInstalled "core", wantInstalled "hello"] (by decide) (by decide)

/-- C17 fails as stated: the declaration accepts the name `a|b`, the plan for it
has that one non-empty name, its ID is `a|b`, and splitting the ID gives the two
names `a` and `b`. -/
theorem id_round_trip_counterexample :
    resourcePackagesSnapGetResourceData RangeOrder.stored
        { prevPackage := [], package := ["a|b"], id := "", internal := none, versions := [] }
      = Except.ok [wantInstalled "a|b"] ∧
    resourcePackagesSnapIdFromPackages [wantInstalled "a|b"] = "a|b" ∧
    packageNamesFromResourcePackagesSnapId
        (resourcePackagesSnapIdFromPackages [wantInstalled "a|b"]) = ["a", "b"] ∧
    Packages.Names [wantInstalled "a|b"] = ["a|b"] := by
  decide

/-! ### The filters of the read-back -/

theorem filter_state_of_installed (inv : Packages)
    (hall : ∀ q ∈ inv, q.State = PackageState.PackageInstalled) (names : List String) :
    filterByState (filterByNames inv names) PackageState.PackageInstalled =
      inv.filter (fun p => decide (p.Name ∈ names)) := by
  unfold filterByState filterByNames
  rw [List.filter_eq_self]
  intro p hp
  simp only [decide_eq_true_eq]
  exact hall p (List.mem_filter.mp hp).1

/-! ### C14: a second reconciliation of the same declaration -/

/-- The record is left as it is by the entries to install that it already tracks. -/
theorem foldl_recordStep_tracked (inv : GoMap Package) (plan : Packages) :
    ∀ m : GoMap Bool,
      (∀ p ∈ plan, p.State = PackageState.PackageInstalled ∧ m.get p.Name ≠ none) →
      plan.foldl (recordStep inv) m = m := by
  induction plan with
  | nil => intro m _; rfl
  | cons q rest ih =>
    intro m h
    obtain ⟨hst, hget⟩ := h q (List.mem_cons_self _ _)
    have hstep : recordStep inv m q = m := by
      unfold recordStep
      rw [if_pos hst]
      have hc : m.contains q.Name = true := by
        unfold GoMap.contains
        exact Option.isSome_iff_ne_none.mpr hget
      rw [if_pos hc]
    rw [List.foldl_cons, hstep]
    exact ih m (fun p hp => h p (List.mem_cons_of_mem _ hp))

/-- The plan of a reconciliation whose previous and current declaration agree:
the current names, all to install. -/
theorem plan_of_same_declaration (ρ : RangeOrder) (d : ResourceData) (plan : Packages)
    (hsame : d.prevPackage = d.package)
    (h : resourcePackagesSnapGetResourceData ρ d = Except.ok plan) :
    plan.Perm (d.package.map wantInstalled) := by
  have hp := (plan_ok ρ d plan h).2.2.2.2
  unfold planEntries at hp
  have hnil : d.prevPackage.filter (fun n => decide (n ∉ d.package)) = [] := by
    rw [List.filter_eq_nil_iff, hsame]
    intro n hn
    simp [hn]
  rw [hnil, List.map_nil, List.append_nil] at hp
  exact hp

/-- The persisted record after a successful create or update. -/
theorem internal_after_create (ρ : RangeOrder) (s : System) (log : List Command)
    (d d2 : ResourceData) (log3 : List Command)
    (h : resourcePackagesSnapCreate ρ s log d = (none, d2, log3)) :
    ∃ inv plan, (Get s log).1 = Except.ok inv ∧
      resourcePackagesSnapGetResourceData ρ d = Except.ok plan ∧
      d2.id = resourcePackagesSnapIdFromPackages plan ∧
      d2.internal =
        (if (plan.foldl (recordStep inv.ToMap) (recordBefore d)).isEmpty then none
         else some (plan.foldl (recordStep inv.ToMap) (recordBefore d))) := by
  obtain ⟨inv, plan, log2, inv2, h1, h2, _, _, _, h6⟩ :=
    resourcePackagesSnapCreate_ok ρ s log d d2 log3 h
  refine ⟨inv, plan, h1, h2, ?_, ?_⟩
  · rw [h6]; rfl
  · rw [h6]; rfl

theorem recordBefore_of_internal (d : ResourceData) (m : GoMap Bool)
    (h : d.internal = if m.isEmpty then none else some m) : recordBefore d = m := by
  unfold recordBefore getInternalData
  rw [h]
  cases m with
  | nil => rfl
  | cons e rest => rfl

/-- C14, as amended: after a successful first reconciliation of a declaration D,
a successful second one with previous = current = D has a plan with exactly the
names of D, all with state Installed (no removal), leaves the PreInstalledRecord
exactly as the first run left it on every machine (so whatever the inventory
now reports), and sets the ID to the sorted names of D joined with `|`; this is
the ID of the first run whenever the first run dropped no package, as a create
does. -/
theorem second_run_idempotent
    (op1 op2 : RangeOrder → System → List Command → ResourceData →
      Option GoError × ResourceData × List Command)
    (hop1 : op1 = resourcePackagesSnapCreate ∨ op1 = resourcePackagesSnapUpdate)
    (hop2 : op2 = resourcePackagesSnapCreate ∨ op2 = resourcePackagesSnapUpdate)
    (ρ1 ρ2 : RangeOrder) (s1 s2 : System) (log1 log2 logA logB : List Command)
    (d d1 e e2 : ResourceData)
    (h1 : op1 ρ1 s1 log1 d = (none, d1, logA))
    (hcur : e.package = d.package) (hprev : e.prevPackage = d.package)
    (hint : e.internal = d1.internal)
    (h2 : op2 ρ2 s2 log2 e = (none, e2, logB)) :
    ∃ plan2, resourcePackagesSnapGetResourceData ρ2 e = Except.ok plan2 ∧
      plan2.Perm (d.package.map wantInstalled) ∧
      (∀ p ∈ plan2, p.State = PackageState.PackageInstalled) ∧
      e2.internal = d1.internal ∧
      e2.id = stringsJoin (plan2.map Package.Name) "|" ∧
      ((∀ n ∈ d.prevPackage, n ∈ d.package) → e2.id = d1.id) := by
  have hc1 : resourcePackagesSnapCreate ρ1 s1 log1 d = (none, d1, logA) := by
    rcases hop1 with hop | hop
    · rw [← hop]; exact h1
    · rw [← update_eq_create, ← hop]; exact h1
  have hc2 : resourcePackagesSnapCreate ρ2 s2 log2 e = (none, e2, logB) := by
    rcases hop2 with hop | hop
    · rw [← hop]; exact h2
    · rw [← update_eq_create, ← hop]; exact h2
  obtain ⟨inv1, plan1, _, hp1, hid1, hi1⟩ := internal_after_create ρ1 s1 log1 d d1 logA hc1
  obtain ⟨inv2, plan2, _, hp2, hid2, hi2⟩ := internal_after_create ρ2 s2 log2 e e2 logB hc2
  have hperm2 : plan2.Perm (d.package.map wantInstalled) := by
    have := plan_of_same_declaration ρ2 e plan2 (by rw [hprev, hcur]) hp2
    rw [hcur] at this
    exact this
  have hall : ∀ p ∈ plan2, p = wantInstalled p.Name ∧ p.Name ∈ d.package := by
    intro p hp
    obtain ⟨n, hn, hpn⟩ := List.mem_map.mp (hperm2.mem_iff.mp hp)
    rw [← hpn]
    exact ⟨rfl, hn⟩
  have hbefore : recordBefore e =
      plan1.foldl (recordStep inv1.ToMap) (recordBefore d) :=
    recordBefore_of_internal e _ (by rw [hint, hi1])
  have htracked : ∀ p ∈ plan2, p.State = PackageState.PackageInstalled ∧
      (recordBefore e).get p.Name ≠ none := by
    intro p hp
    obtain ⟨hpw, hpn⟩ := hall p hp
    refine ⟨by rw [hpw]; rfl, ?_⟩
    have hmem : wantInstalled p.Name ∈ plan1 :=
      (mem_plan ρ1 d plan1 hp1 (wantInstalled p.Name)).mpr (Or.inl ⟨hpn, rfl⟩)
    have hval := get_foldl_recordStep_mem inv1.ToMap (wantInstalled p.Name) plan1
      (recordBefore d) (plan_names_nodup ρ1 d plan1 hp1) hmem
    have hname : (wantInstalled p.Name).Name = p.Name := rfl
    rw [hname] at hval
    rw [hbefore, hval]
    unfold recordValue
    have hst : (wantInstalled p.Name).State = PackageState.PackageInstalled := rfl
    rw [if_pos hst]
    split <;> simp
  refine ⟨plan2, hp2, hperm2, fun p hp => (htracked p hp).1, ?_, hid2, ?_⟩
  · rw [hi2, foldl_recordStep_tracked inv2.ToMap plan2 _ htracked, hbefore, hi1]
  · intro hsub
    have hperm1 : plan1.Perm (d.package.map wantInstalled) := by
      have hp := (plan_ok ρ1 d plan1 hp1).2.2.2.2
      unfold planEntries at hp
      have hnil : d.prevPackage.filter (fun n => decide (n ∉ d.package)) = [] := by
        rw [List.filter_eq_nil_iff]
        intro n hn
        simp [hsub n hn]
      rw [hnil, List.map_nil, List.append_nil] at hp
      exact hp
    haveI : IsAntisymm Package (fun a b => a.Name.data < b.Name.data) :=
      ⟨fun _ _ hab hba => absurd hba (lt_asymm hab)⟩
    have heq : plan2 = plan1 :=
      List.eq_of_perm_of_sorted (hperm2.trans hperm1.symm)
        (plan_strictly_ascending ρ2 e plan2 hp2) (plan_strictly_ascending ρ1 d plan1 hp1)
    rw [hid2, hid1, heq]

set_option maxRecDepth 20000 in
/-- C14 at the create of `{hello, core}` on a machine that lists `core`, followed
by an update with the same declaration on a machine that lists nothing: record
and ID stay. -/
theorem second_run_idempotent_witness :
    (resourcePackagesSnapUpdate RangeOrder.reversed systemRemoveFails []
        dataSecondRunHelloCore).2.1.internal
      = (resourcePackagesSnapCreate RangeOrder.stored systemCoreListed []
        dataCreateHelloCore).2.1.internal ∧
    (resourcePackagesSnapUpdate RangeOrder.reversed systemRemoveFails []
        dataSecondRunHelloCore).2.1.id
      = (resourcePackagesSnapCreate RangeOrder.stored systemCoreListed []
        dataCreateHelloCore).2.1.id :=
  (second_run_idempotent resourcePackagesSnapCreate resourcePackagesSnapUpdate
    (Or.inl rfl) (Or.inr rfl) RangeOrder.stored RangeOrder.reversed
    systemCoreListed systemRemoveFails [] []
    (resourcePackagesSnapCreate RangeOrder.stored systemCoreListed [] dataCreateHelloCore).2.2
    (resourcePackagesSnapUpdate RangeOrder.reversed systemRemoveFails []
      dataSecondRunHelloCore).2.2
    dataCreateHelloCore
    (resourcePackagesSnapCreate RangeOrder.stored systemCoreListed [] dataCreateHelloCore).2.1
    dataSecondRunHelloCore
    (resourcePackagesSnapUpdate RangeOrder.reversed systemRemoveFails []
      dataSecondRunHelloCore).2.1
    (by decide) rfl rfl (by decide) (by decide)).elim
    (fun _ h => ⟨h.2.2.2.1, h.2.2.2.2.2 (by decide)⟩)

set_option maxRecDepth 20000 in
/-- C14 fails as stated: the successful update from `{hello, hello-world}` to
`{hello}` leaves the ID `hello|hello-world`; the successful second
reconciliation with previous = current = `{hello}`, started from the record and
the ID of the first, sets the ID `hello`. -/
theorem second_run_idempotent_counterexample :
    (resourcePackagesSnapUpdate RangeOrder.stored systemCoreListed []
      dataUpdateDropHelloWorld).1 = none ∧
    (resourcePackagesSnapUpdate RangeOrder.stored systemCoreListed []
      dataUpdateDropHelloWorld).2.1.id = dataSecondRunHello.id ∧
    (resourcePackagesSnapUpdate RangeOrder.stored systemCoreListed []
      dataUpdateDropHelloWorld).2.1.internal = dataSecondRunHello.internal ∧
    dataSecondRunHello.package = dataUpdateDropHelloWorld.package ∧
    dataSecondRunHello.prevPackage = dataUpdateDropHelloWorld.package ∧
    (resourcePackagesSnapUpdate RangeOrder.stored systemCoreListed []
      dataSecondRunHello).1 = none ∧
    (resourcePackagesSnapUpdate RangeOrder.stored systemCoreListed []
      dataSecondRunHello).2.1.id = "hello" ∧
    dataSecondRunHello.id = "hello|hello-world" := by
  decide

/-! ### C24: when the expansion of a declaration succeeds -/

/-- C24: `expandPackagesSnapPackageSet` succeeds if and only if every entry of the
declaration has a non-empty name and no two entries have the same name; the map
it then returns has exactly the declared names as keys; and a declaration with
an empty name is rejected with an error, which for a declaration without
repeated name is the empty-name error. -/
theorem expand_succeeds_iff (D : List PackageBlock) :
    ((∃ m, expandPackagesSnapPackageSet D = Except.ok m) ↔
      ((∀ n ∈ D, n ≠ "") ∧ D.Nodup)) ∧
    (∀ m, expandPackagesSnapPackageSet D = Except.ok m →
      m.keys = D ∧ ∀ n, m.contains n = true ↔ n ∈ D) ∧
    ("" ∈ D → (∃ e, expandPackagesSnapPackageSet D = Except.error e) ∧
      (D.Nodup → expandPackagesSnapPackageSet D = Except.error errEmptyName)) := by
  refine ⟨?_, ?_, ?_⟩
  · constructor
    · rintro ⟨m, hm⟩
      obtain ⟨h1, h2, _⟩ := (expandPackagesSnapPackageSet_ok_iff D m).mp hm
      exact ⟨h1, h2⟩
    · rintro ⟨h1, h2⟩
      exact ⟨_, (expandPackagesSnapPackageSet_ok_iff D _).mpr ⟨h1, h2, rfl⟩⟩
  · intro m hm
    obtain ⟨_, _, h3⟩ := (expandPackagesSnapPackageSet_ok_iff D m).mp hm
    have hk : m.keys = D := by
      rw [h3]
      unfold GoMap.keys
      rw [List.map_map]
      exact List.map_id D
    refine ⟨hk, ?_⟩
    intro n
    rw [GoMap.contains_iff, hk]
  · intro hempty
    have herr : ∃ e, expandPackagesSnapPackageSet D = Except.error e := by
      cases hres : expandPackagesSnapPackageSet D with
      | error e => exact ⟨e, rfl⟩
      | ok m =>
        obtain ⟨h1, _, _⟩ := (expandPackagesSnapPackageSet_ok_iff D m).mp hres
        exact absurd rfl (h1 "" hempty)
    refine ⟨herr, ?_⟩
    intro hnd
    obtain ⟨e, he⟩ := herr
    rw [he]
    unfold expandPackagesSnapPackageSet at he
    rcases expandSetLoop_error D [] e he with ⟨h1, _⟩ | ⟨n, _, _, h3⟩
    · rw [h1]
    · exfalso
      rcases h3 with h3 | h3
      · simp [GoMap.keys] at h3
      · have := List.nodup_iff_count_le_one.mp hnd n
        omega

/-- C24 for the declaration of `hello` and an empty name: no duplicate, and the
empty-name error. -/
theorem expand_succeeds_iff_witness :
    expandPackagesSnapPackageSet ["hello", ""] = Except.error errEmptyName :=
  ((expand_succeeds_iff ["hello", ""]).2.2 (by decide)).2 (by decide)

/-! ### C21: the errors of `Apply` -/

theorem errorsIs_join_left (a b : GoError) : errorsIs (GoError.join a b) a = true := by
  have h : errorsIs a a = true := by
    cases a <;> simp [errorsIs]
  simp [errorsIs, h]

/-- The errors of the loop of `Apply`: the error comes from the first command
that fails, and it is the transport error joined to `ErrSnapPackageManager`, or
`ErrSnapPackageManagerNotAvailable` for a sentinel, or the stderr text
joined to `ErrSnapPackageManager` for a non-zero exit code without sentinel. -/
theorem applyLoop_error_cases (s : System) :
    ∀ (pkgs : Packages) (log : List Command) (e : GoError),
      (applyLoop s log pkgs).1 = Except.error e →
      ∃ pre p post, pkgs = pre ++ p :: post ∧
        ((∃ err, s (log ++ pre.map applyCommand) (applyCommand p) = Except.error err ∧
            e = GoError.join ErrSnapPackageManager err) ∨
         (∃ res, s (log ++ pre.map applyCommand) (applyCommand p) = Except.ok res ∧
            stringsHasPrefix res.Stdout "which_snap_rc=" = true ∧
            e = ErrSnapPackageManagerNotAvailable) ∨
         (∃ res, s (log ++ pre.map applyCommand) (applyCommand p) = Except.ok res ∧
            stringsHasPrefix res.Stdout "which_snap_rc=" = false ∧ res.ExitCode ≠ 0 ∧
            e = GoError.join ErrSnapPackageManager (GoError.new res.Stderr))) := by
  intro pkgs
  induction pkgs with
  | nil =>
    intro log e h
    simp [applyLoop] at h
  | cons p rest ih =>
    intro log e h
    simp only [applyLoop, ExecuteCommand] at h
    cases hs : s log (applyCommand p) with
    | error err =>
      rw [hs] at h
      simp only [Except.error.injEq] at h
      exact ⟨[], p, rest, rfl, Or.inl ⟨err, by simpa using hs, h.symm⟩⟩
    | ok res =>
      rw [hs] at h
      simp only at h
      by_cases hp : stringsHasPrefix res.Stdout "which_snap_rc=" = true
      · rw [if_pos hp] at h
        simp only [Except.error.injEq] at h
        exact ⟨[], p, rest, rfl, Or.inr (Or.inl ⟨res, by simpa using hs, hp, h.symm⟩)⟩
      · rw [if_neg hp] at h
        by_cases hx : res.ExitCode ≠ 0
        · rw [if_pos hx] at h
          simp only [Except.error.injEq] at h
          exact ⟨[], p, rest, rfl,
            Or.inr (Or.inr ⟨res, by simpa using hs, by simpa using hp, hx, h.symm⟩)⟩
        · rw [if_neg hx] at h
          obtain ⟨pre, q, post, hsplit, hcase⟩ := ih (log ++ [applyCommand p]) e h
          refine ⟨p :: pre, q, post, by rw [hsplit]; rfl, ?_⟩
          simpa [List.append_assoc] using hcase

/-- A transport error at the first command of `Apply`: the error returned is the
transport error joined to `ErrSnapPackageManager`, which `errors.Is` finds in it. -/
theorem Apply_transport_error (s : System) (log : List Command) (p : Package)
    (rest : Packages) (err : GoError) (h : s log (applyCommand p) = Except.error err) :
    Apply s log (p :: rest) =
      (Except.error (GoError.join ErrSnapPackageManager err), log ++ [applyCommand p]) ∧
    errorsIs (GoError.join ErrSnapPackageManager err) ErrSnapPackageManager = true := by
  refine ⟨?_, errorsIs_join_left _ _⟩
  rw [Apply_eq_applyLoop]
  simp only [applyLoop, ExecuteCommand]
  rw [h]

set_option maxRecDepth 20000 in
/-- C21 does not hold of the code: on a machine that cannot be reached, the
command of `Apply` for the installation of `hello` ends in a transport error, no
command is executed without transport error, and `Apply` returns the transport
error joined to `ErrSnapPackageManager`, an error that `errors.Is` classifies as
`ErrSnapPackageManager`; `Get` on the same machine returns the transport error
joined to `ErrSnapPackage` only, which is not classified so. -/
theorem transport_error_classified_as_manager_error :
    systemUnreachable [] (snapInstallCommand "hello") = Except.error errConnectionLost ∧
    Apply systemUnreachable [] [wantInstalled "hello"] =
      (Except.error (GoError.join ErrSnapPackageManager errConnectionLost),
        [snapInstallCommand "hello"]) ∧
    errorsIs (GoError.join ErrSnapPackageManager errConnectionLost) ErrSnapPackageManager
      = true ∧
    Get systemUnreachable [] =
      (Except.error (GoError.join ErrSnapPackage errConnectionLost), [snapListCommand]) ∧
    errorsIs (GoError.join ErrSnapPackage errConnectionLost) ErrSnapPackageManager = false := by
  decide

/-! ### C22: the quoting of the package name -/

theorem snapInstallCommand_parts (name : String) :
    snapInstallCommand name = installStart ++ name ++ snippetEnd := by
  rw [snapInstallCommand_text]
  rfl

theorem snapRemoveCommand_parts (name : String) :
    snapRemoveCommand name = removeStart ++ name ++ snippetEnd := by
  rw [snapRemoveCommand_text]
  rfl

/-- A name without single quote is read by the shell as one quoted word, and the
text that follows it is the end of the snippet. -/
theorem singleQuotedWord_of_no_quote (name : String) (h : shellQuote ∉ name.data) :
    singleQuotedWord (name ++ snippetEnd).data = (name.data, "; \x7d; _do;".data) := by
  have hall : ∀ c ∈ name.data, (fun c => c != shellQuote) c = true := by
    intro c hc
    simp only [bne_iff_ne, ne_eq]
    intro heq
    exact h (heq ▸ hc)
  have hend : snippetEnd.data = shellQuote :: "; \x7d; _do;".data := by decide
  unfold singleQuotedWord
  rw [String.data_append, hend]
  rw [List.takeWhile_append_of_pos hall, List.dropWhile_append_of_pos hall]
  simp [List.takeWhile, List.dropWhile]

set_option maxRecDepth 20000 in
/-- C22 does not hold of the code: the declaration accepts the non-empty name
`x'; reboot; '`, a create with it executes the install snippet of that name, the
text between the opening quote and the closing quote of that snippet is the name
as it stands, with two single quotes in it, and the shell ends the quoted word at
the first of them, after `x`, so that `; reboot; ''; }; _do;` follows as shell
syntax; the same holds of the remove snippet. -/
theorem name_with_quote_ends_quoting :
    quoteName ≠ "" ∧
    (∃ m, expandPackagesSnapPackageSet [quoteName] = Except.ok m) ∧
    snapInstallCommand quoteName ∈
      (resourcePackagesSnapCreate RangeOrder.stored systemCoreListed [] dataCreateQuoteName).2.2 ∧
    snapInstallCommand quoteName = installStart ++ quoteName ++ snippetEnd ∧
    snapRemoveCommand quoteName = removeStart ++ quoteName ++ snippetEnd ∧
    quoteName.data.count shellQuote = 2 ∧
    singleQuotedWord (quoteName ++ snippetEnd).data =
      ("x".data, "; reboot; \x27\x27; \x7d; _do;".data) ∧
    snapInstallCommand quoteName =
      probeGuard ++ "snap install \x27x\x27; reboot; \x27\x27; \x7d; _do;" ∧
    snapRemoveCommand quoteName =
      probeGuard ++ "snap remove \x27x\x27; reboot; \x27\x27; \x7d; _do;" := by
  refine ⟨by decide, ⟨_, rfl⟩, by decide, snapInstallCommand_parts _,
    snapRemoveCommand_parts _, by decide, by decide, by decide, by decide⟩

/-! ### The set written to the attribute `package` -/

theorem GoMap.get_of_mem {V : Type} (m : GoMap V) (hnd : m.keys.Nodup) (k : String) (v : V)
    (h : (k, v) ∈ m) : m.get k = some v := by
  induction m with
  | nil => cases h
  | cons e rest ih =>
    obtain ⟨k0, v0⟩ := e
    simp only [GoMap.keys, List.map_cons, List.nodup_cons] at hnd
    rw [GoMap.get_cons]
    rcases List.mem_cons.mp h with h1 | h1
    · simp only [Prod.mk.injEq] at h1
      rw [if_pos h1.1.symm, h1.2]
    · have hk : k0 ≠ k := by
        intro hk
        apply hnd.1
        rw [hk]
        exact List.mem_map.mpr ⟨(k, v), h1, rfl⟩
      rw [if_neg hk]
      exact ih hnd.2 h1

theorem setAdd_of_mem (set : PackageSet) (item : PackageItem)
    (h : item.name ∈ set.map PackageItem.name) : setAdd set item = set := by
  unfold setAdd
  rw [if_pos]
  rw [List.any_eq_true]
  obtain ⟨x, hx, hn⟩ := List.mem_map.mp h
  exact ⟨x, hx, by simp [hn]⟩

theorem setAdd_of_not_mem (set : PackageSet) (item : PackageItem)
    (h : item.name ∉ set.map PackageItem.name) : setAdd set item = set ++ [item] := by
  unfold setAdd
  rw [if_neg]
  rw [List.any_eq_true]
  rintro ⟨x, hx, hn⟩
  apply h
  simp only [beq_iff_eq] at hn
  exact List.mem_map.mpr ⟨x, hx, hn⟩

/-- The set of `flattenPackagesSnapPackage`, from a set to start with: its names
are the names of the start and of the packages, no name twice, and a name that
the start does not have comes with the versions of the first package of that name. -/
theorem flattenLoop_spec (r : Packages) :
    ∀ acc : PackageSet, (acc.map PackageItem.name).Nodup →
      ((r.foldl (fun packageSet clientPkg => setAdd packageSet
          { name := clientPkg.Name, versions := [flattenVersions clientPkg.Version] })
          acc).map PackageItem.name).Nodup ∧
      (∀ n, n ∈ (r.foldl (fun packageSet clientPkg => setAdd packageSet
          { name := clientPkg.Name, versions := [flattenVersions clientPkg.Version] })
          acc).map PackageItem.name ↔ n ∈ acc.map PackageItem.name ∨ n ∈ r.map Package.Name) ∧
      (∀ n p, r.find? (fun q => decide (q.Name = n)) = some p →
        n ∉ acc.map PackageItem.name →
        ({ name := n, versions := [flattenVersions p.Version] } : PackageItem) ∈
          r.foldl (fun packageSet clientPkg => setAdd packageSet
            { name := clientPkg.Name, versions := [flattenVersions clientPkg.Version] })
            acc) ∧
      (∀ x ∈ acc, x ∈ r.foldl (fun packageSet clientPkg => setAdd packageSet
          { name := clientPkg.Name, versions := [flattenVersions clientPkg.Version] })
          acc) := by
  induction r with
  | nil =>
    intro acc hnd
    refine ⟨hnd, ?_, ?_, ?_⟩
    · intro n; simp
    · intro n p h; cases h
    · intro x hx; exact hx
  | cons c rest ih =>
    intro acc hnd
    simp only [List.foldl_cons]
    by_cases hc : c.Name ∈ acc.map PackageItem.name
    · rw [setAdd_of_mem acc _ hc]
      obtain ⟨i1, i2, i3, i4⟩ := ih acc hnd
      refine ⟨i1, ?_, ?_, i4⟩
      · intro n
        rw [i2 n, List.map_cons, List.mem_cons]
        constructor
        · rintro (h | h)
          · exact Or.inl h
          · exact Or.inr (Or.inr h)
        · rintro (h | h | h)
          · exact Or.inl h
          · exact Or.inl (h ▸ hc)
          · exact Or.inr h
      · intro n p hfind hn
        have hne : c.Name ≠ n := fun heq => hn (heq ▸ hc)
        rw [List.find?_cons_of_neg _ (by simpa using hne)] at hfind
        exact i3 n p hfind hn
    · rw [setAdd_of_not_mem acc _ hc]
      have hnd2 : ((acc ++ [({ name := c.Name, versions := [flattenVersions c.Version] } :
          PackageItem)]).map PackageItem.name).Nodup := by
        rw [List.map_append, List.map_cons, List.map_nil]
        apply List.Nodup.append hnd (List.nodup_singleton _)
        intro a ha hb
        rw [List.mem_singleton] at hb
        have hb2 : a = c.Name := hb
        exact hc (hb2 ▸ ha)
      obtain ⟨i1, i2, i3, i4⟩ := ih _ hnd2
      refine ⟨i1, ?_, ?_, ?_⟩
      · intro n
        rw [i2 n, List.map_append, List.map_cons, List.map_nil, List.mem_append,
          List.mem_singleton, List.map_cons, List.mem_cons]
        constructor
        · rintro ((h | h) | h)
          · exact Or.inl h
          · exact Or.inr (Or.inl h)
          · exact Or.inr (Or.inr h)
        · rintro (h | h | h)
          · exact Or.inl (Or.inl h)
          · exact Or.inl (Or.inr h)
          · exact Or.inr h
      · intro n p hfind hn
        by_cases hne : c.Name = n
        · rw [List.find?_cons_of_pos _ (by simpa using hne)] at hfind
          simp only [Option.some.injEq] at hfind
          apply i4
          rw [← hfind, ← hne]
          simp
        · rw [List.find?_cons_of_neg _ (by simpa using hne)] at hfind
          apply i3 n p hfind
          rw [List.map_append, List.map_cons, List.map_nil, List.mem_append,
            List.mem_singleton]
          rintro (h | h)
          · exact hn h
          · exact hne h.symm
      · intro x hx
        exact i4 x (List.mem_append_left _ hx)

/-- What `resourcePackagesSnapSetResourceData` writes: the names of the packages,
each once, the versions of a name being those of the first package of that name;
ID and record are left as they are. -/
theorem setResourceData_spec (ρ : RangeOrder) (r : Packages) (d : ResourceData) :
    (resourcePackagesSnapSetResourceData ρ r d).package.Nodup ∧
    (resourcePackagesSnapSetResourceData ρ r d).versions.keys =
      (resourcePackagesSnapSetResourceData ρ r d).package ∧
    (∀ n, n ∈ (resourcePackagesSnapSetResourceData ρ r d).package ↔ n ∈ r.map Package.Name) ∧
    (∀ n p, r.find? (fun q => decide (q.Name = n)) = some p →
      (resourcePackagesSnapSetResourceData ρ r d).versions.get n =
        some [flattenVersions p.Version]) ∧
    (resourcePackagesSnapSetResourceData ρ r d).id = d.id ∧
    (resourcePackagesSnapSetResourceData ρ r d).internal = d.internal ∧
    (resourcePackagesSnapSetResourceData ρ r d).prevPackage = d.prevPackage := by
  obtain ⟨f1, f2, f3, _⟩ := flattenLoop_spec r newPackageSet List.nodup_nil
  have hperm : (setList ρ (flattenPackagesSnapPackage r)).Perm (flattenPackagesSnapPackage r) :=
    ρ.perm _
  have hnd : ((setList ρ (flattenPackagesSnapPackage r)).map PackageItem.name).Nodup :=
    ((hperm.map PackageItem.name).nodup_iff).mpr f1
  have hkeys : (resourcePackagesSnapSetResourceData ρ r d).versions.keys =
      (resourcePackagesSnapSetResourceData ρ r d).package := by
    unfold resourcePackagesSnapSetResourceData GoMap.keys
    simp only [List.map_map]
    rfl
  refine ⟨hnd, hkeys, ?_, ?_, rfl, rfl, rfl⟩
  · intro n
    have h1 : n ∈ (resourcePackagesSnapSetResourceData ρ r d).package ↔
        n ∈ (flattenPackagesSnapPackage r).map PackageItem.name :=
      (hperm.map PackageItem.name).mem_iff
    rw [h1]
    have h2 := f2 n
    simp only [newPackageSet, List.map_nil, List.not_mem_nil, false_or] at h2
    exact h2
  · intro n p hfind
    apply GoMap.get_of_mem
    · rw [hkeys]
      exact hnd
    · have hmem := f3 n p hfind (by simp [newPackageSet])
      have hmem2 : ({ name := n, versions := [flattenVersions p.Version] } : PackageItem) ∈
          setList ρ (flattenPackagesSnapPackage r) := hperm.mem_iff.mpr hmem
      exact List.mem_map.mpr ⟨_, hmem2, rfl⟩

/-! ### C18: the observed state of the read-back -/

theorem filterByState_filterByNames (inv : Packages) (names : List String) :
    filterByState (filterByNames inv names) PackageState.PackageInstalled =
      inv.filter (fun p => decide (p.Name ∈ names ∧ p.State = PackageState.PackageInstalled)) := by
  unfold filterByState filterByNames
  rw [List.filter_filter]
  apply List.filter_congr
  intro p _
  simp [and_comm]

theorem mem_keptRows_names (inv : Packages) (names : List String) (n : String) :
    n ∈ (inv.filter (fun p =>
        decide (p.Name ∈ names ∧ p.State = PackageState.PackageInstalled))).map Package.Name ↔
      n ∈ names ∧ listedInstalled inv n = true := by
  unfold listedInstalled
  rw [decide_eq_true_eq, List.mem_map]
  constructor
  · rintro ⟨p, hp, hpn⟩
    obtain ⟨h1, h2⟩ := List.mem_filter.mp hp
    simp only [decide_eq_true_eq] at h2
    exact ⟨hpn ▸ h2.1, p, h1, hpn, h2.2⟩
  · rintro ⟨h1, p, h2, h3, h4⟩
    refine ⟨p, List.mem_filter.mpr ⟨h2, ?_⟩, h3⟩
    simp only [decide_eq_true_eq]
    exact ⟨h3 ▸ h1, h4⟩

/-- C18, as amended: after a successful create or update the observed state is
the value the read-back writes to the attribute `package`, a set of blocks with
one block for a name and without order. Its names are the pieces of the resource
ID split at `|` that the post-apply inventory of `Get` lists in state Installed,
and the versions of a name are those of the first such entry of the inventory.
When the current declaration is not empty and no declared name contains `|`,
these are the names of the plan that the inventory lists: the current names and
the names this operation dropped; when moreover nothing was dropped, they are the
current names that the inventory lists. A desired package that the inventory
lacks is absent from the observed state, and the operation still succeeds. -/
theorem observed_state_after_read_back
    (op : RangeOrder → System → List Command → ResourceData →
      Option GoError × ResourceData × List Command)
    (hop : op = resourcePackagesSnapCreate ∨ op = resourcePackagesSnapUpdate)
    (ρ : RangeOrder) (s : System) (log : List Command) (d d2 : ResourceData)
    (log3 : List Command) (h : op ρ s log d = (none, d2, log3)) :
    ∃ inv2 log2, log3 = log2 ++ [snapListCommand] ∧ (Get s log2).1 = Except.ok inv2 ∧
      d2.package.Nodup ∧ d2.versions.keys = d2.package ∧
      (∀ n, n ∈ d2.package ↔
        n ∈ packageNamesFromResourcePackagesSnapId d2.id ∧ listedInstalled inv2 n = true) ∧
      (∀ n p, n ∈ packageNamesFromResourcePackagesSnapId d2.id →
        inv2.find? (fun q =>
          decide (q.Name = n ∧ q.State = PackageState.PackageInstalled)) = some p →
        d2.versions.get n = some [flattenVersions p.Version]) ∧
      (d.package ≠ [] →
        (∀ n ∈ d.package ++ d.prevPackage, Char.ofNat 124 ∉ n.data) →
        (∀ n, n ∈ d2.package ↔
          (n ∈ d.package ∨ n ∈ d.prevPackage) ∧ listedInstalled inv2 n = true) ∧
        ((∀ n ∈ d.prevPackage, n ∈ d.package) →
          ∀ n, n ∈ d2.package ↔ n ∈ d.package ∧ listedInstalled inv2 n = true)) ∧
      (∀ n ∈ d.package, n ∉ inv2.map Package.Name → n ∉ d2.package) := by
  have hc : resourcePackagesSnapCreate ρ s log d = (none, d2, log3) := by
    rcases hop with hop | hop
    · rw [← hop]; exact h
    · rw [← update_eq_create, ← hop]; exact h
  obtain ⟨inv, plan, log2, inv2, _, h2, _, h4, h5, h6⟩ :=
    resourcePackagesSnapCreate_ok ρ s log d d2 log3 hc
  have hall := Get_installed s log2 inv2 h4
  rw [filterByState_filterByNames] at h6
  obtain ⟨s1, s2, s3, s4, s5, _, _⟩ := setResourceData_spec ρ
    (inv2.filter (fun p => decide (p.Name ∈ packageNamesFromResourcePackagesSnapId
      (resourcePackagesSnapIdFromPackages plan) ∧ p.State = PackageState.PackageInstalled)))
    { setInternalData d
        { PreInstalled := some (plan.foldl (recordStep inv.ToMap) (recordBefore d)) }
      with id := resourcePackagesSnapIdFromPackages plan }
  rw [← h6] at s1 s2 s3 s4 s5
  have hid : d2.id = resourcePackagesSnapIdFromPackages plan := s5
  rw [← hid] at s3 s4
  have hnames : ∀ n, n ∈ d2.package ↔
      n ∈ packageNamesFromResourcePackagesSnapId d2.id ∧ listedInstalled inv2 n = true := by
    intro n
    rw [s3 n, mem_keptRows_names]
  refine ⟨inv2, log2, h5, h4, s1, s2, hnames, ?_, ?_, ?_⟩
  · intro n p hn hfind
    apply s4 n p
    rw [List.find?_filter]
    rw [← hfind]
    congr 1
    funext q
    by_cases hq : q.Name = n
    · simp [hq, hn]
    · simp [hq]
  · intro hne hbar
    have hplan_ne : plan ≠ [] := by
      intro hnil
      obtain ⟨x, hx⟩ := List.exists_mem_of_ne_nil _ hne
      have := (mem_plan ρ d plan h2 (wantInstalled x)).mpr (Or.inl ⟨hx, rfl⟩)
      rw [hnil] at this
      cases this
    have hsplit : packageNamesFromResourcePackagesSnapId d2.id = plan.Names := by
      rw [hid]
      apply names_of_id_of_packages plan hplan_ne
      intro p hp
      rcases (mem_plan ρ d plan h2 p).mp hp with ⟨h1, _⟩ | ⟨h1, _, _⟩
      · exact hbar _ (List.mem_append_left _ h1)
      · exact hbar _ (List.mem_append_right _ h1)
    have hmem : ∀ n, n ∈ plan.Names ↔ (n ∈ d.package ∨ n ∈ d.prevPackage) := by
      intro n
      unfold Packages.Names
      rw [(plan_names_perm ρ d plan h2).mem_iff]
      simp only [List.mem_append, List.mem_filter, decide_eq_true_eq]
      constructor
      · rintro (h1 | ⟨h1, _⟩)
        · exact Or.inl h1
        · exact Or.inr h1
      · rintro (h1 | h1)
        · exact Or.inl h1
        · by_cases hin : n ∈ d.package
          · exact Or.inl hin
          · exact Or.inr ⟨h1, hin⟩
    constructor
    · intro n
      rw [hnames n, hsplit, hmem n]
    · intro hsub n
      rw [hnames n, hsplit, hmem n]
      constructor
      · rintro ⟨h1 | h1, h3⟩
        · exact ⟨h1, h3⟩
        · exact ⟨hsub _ h1, h3⟩
      · rintro ⟨h1, h3⟩
        exact ⟨Or.inl h1, h3⟩
  · intro n _ hn hobsn
    have := ((hnames n).mp hobsn).2
    rw [listedInstalled_iff inv2 hall] at this
    exact hn this

set_option maxRecDepth 20000 in
/-- C18 at the create of `{hello, core}` on a machine that lists `core` only. -/
theorem observed_state_after_read_back_witness :
    ∃ inv2 log2,
      (resourcePackagesSnapCreate RangeOrder.stored systemCoreListed []
        dataCreateHelloCore).2.2 = log2 ++ [snapListCommand] ∧
      (Get systemCoreListed log2).1 = Except.ok inv2 ∧
      (resourcePackagesSnapCreate RangeOrder.stored systemCoreListed []
        dataCreateHelloCore).2.1.package.Nodup ∧
      (resourcePackagesSnapCreate RangeOrder.stored systemCoreListed []
        dataCreateHelloCore).2.1.versions.keys =
        (resourcePackagesSnapCreate RangeOrder.stored systemCoreListed []
          dataCreateHelloCore).2.1.package ∧
      (∀ n, n ∈ (resourcePackagesSnapCreate RangeOrder.stored systemCoreListed []
          dataCreateHelloCore).2.1.package ↔
        n ∈ packageNamesFromResourcePackagesSnapId
          (resourcePackagesSnapCreate RangeOrder.stored systemCoreListed []
            dataCreateHelloCore).2.1.id ∧ listedInstalled inv2 n = true) ∧
      (∀ n p, n ∈ packageNamesFromResourcePackagesSnapId
          (resourcePackagesSnapCreate RangeOrder.stored systemCoreListed []
            dataCreateHelloCore).2.1.id →
        inv2.find? (fun q =>
          decide (q.Name = n ∧ q.State = PackageState.PackageInstalled)) = some p →
        (resourcePackagesSnapCreate RangeOrder.stored systemCoreListed []
          dataCreateHelloCore).2.1.versions.get n = some [flattenVersions p.Version]) ∧
      (dataCreateHelloCore.package ≠ [] →
        (∀ n ∈ dataCreateHelloCore.package ++ dataCreateHelloCore.prevPackage,
          Char.ofNat 124 ∉ n.data) →
        (∀ n, n ∈ (resourcePackagesSnapCreate RangeOrder.stored systemCoreListed []
            dataCreateHelloCore).2.1.package ↔
          (n ∈ dataCreateHelloCore.package ∨ n ∈ dataCreateHelloCore.prevPackage) ∧
            listedInstalled inv2 n = true) ∧
        ((∀ n ∈ dataCreateHelloCore.prevPackage, n ∈ dataCreateHelloCore.package) →
          ∀ n, n ∈ (resourcePackagesSnapCreate RangeOrder.stored systemCoreListed []
              dataCreateHelloCore).2.1.package ↔
            n ∈ dataCreateHelloCore.package ∧ listedInstalled inv2 n = true)) ∧
      (∀ n ∈ dataCreateHelloCore.package, n ∉ inv2.map Package.Name →
        n ∉ (resourcePackagesSnapCreate RangeOrder.stored systemCoreListed []
          dataCreateHelloCore).2.1.package) :=
  observed_state_after_read_back resourcePackagesSnapCreate (Or.inl rfl) RangeOrder.stored
    systemCoreListed [] dataCreateHelloCore
    (resourcePackagesSnapCreate RangeOrder.stored systemCoreListed [] dataCreateHelloCore).2.1
    (resourcePackagesSnapCreate RangeOrder.stored systemCoreListed [] dataCreateHelloCore).2.2
    (by decide)

set_option maxRecDepth 20000 in
/-- C18 fails as stated, three times. The successful update from `{hello, core}`
to `{hello}` on a machine that still lists `core` afterwards surfaces `core`,
which is outside the current desired set. The successful create of `{core}` on a
machine whose inventory has two entries of the name `core` surfaces one block for
them, with the version of the first. And the successful create of the single
name `a|b` on a machine that lists `a` surfaces `a`. -/
theorem observed_state_after_read_back_counterexample :
    ((resourcePackagesSnapUpdate RangeOrder.stored systemCoreListed []
        dataUpdateDropCore).1 = none ∧
      (resourcePackagesSnapUpdate RangeOrder.stored systemCoreListed []
        dataUpdateDropCore).2.1.package = ["core"] ∧
      (resourcePackagesSnapUpdate RangeOrder.stored systemCoreListed []
        dataUpdateDropCore).2.1.versions = [("core", [[("installed", "16-2.61")]])] ∧
      "core" ∉ dataUpdateDropCore.package) ∧
    ((resourcePackagesSnapCreate RangeOrder.stored systemCoreTwice [] dataCreateCore).1 = none ∧
      (resourcePackagesSnapCreate RangeOrder.stored systemCoreTwice [] dataCreateCore).2.2 =
        [snapListCommand, snapInstallCommand "core"] ++ [snapListCommand] ∧
      (Get systemCoreTwice [snapListCommand, snapInstallCommand "core"]).1 = Except.ok
        [{ Manager := SnapPackageManager, Name := "bare", Version := { Installed := "1" },
           State := PackageState.PackageInstalled },
         { Manager := SnapPackageManager, Name := "core", Version := { Installed := "2" },
           State := PackageState.PackageInstalled },
         { Manager := SnapPackageManager, Name := "core", Version := { Installed := "1" },
           State := PackageState.PackageInstalled }] ∧
      (resourcePackagesSnapCreate RangeOrder.stored systemCoreTwice []
        dataCreateCore).2.1.package = ["core"] ∧
      (resourcePackagesSnapCreate RangeOrder.stored systemCoreTwice []
        dataCreateCore).2.1.versions = [("core", [[("installed", "2")]])]) ∧
    ((resourcePackagesSnapCreate RangeOrder.stored (systemAnswering "Name Version\na 1\n" 0) []
        dataCreateBarName).1 = none ∧
      (resourcePackagesSnapCreate RangeOrder.stored (systemAnswering "Name Version\na 1\n" 0) []
        dataCreateBarName).2.1.package = ["a"] ∧
      "a" ∉ dataCreateBarName.package) := by
  decide

/-! ### C23: the tracked names and the current names -/

theorem mem_recordKeys (d : ResourceData) (n : String) :
    n ∈ recordKeys d ↔ recorded d n ≠ none := by
  unfold recordKeys recorded
  cases d.internal with
  | none => simp
  | some m =>
    simp only [ne_eq]
    rw [GoMap.get_eq_none_iff, not_not]

/-- Which names are tracked after a successful create or update: the names of the
new value of `package`, and the tracked names that neither the new nor the old
value has. -/
theorem tracked_after_create (ρ : RangeOrder) (s : System) (log : List Command)
    (d d2 : ResourceData) (log3 : List Command)
    (h : resourcePackagesSnapCreate ρ s log d = (none, d2, log3)) :
    ∀ n, n ∈ recordKeys d2 ↔
      (n ∈ d.package ∨ (n ∈ recordKeys d ∧ n ∉ d.prevPackage)) := by
  obtain ⟨inv, plan, _, h2, _, h4⟩ := recorded_after_create ρ s log d d2 log3 h
  intro n
  rw [mem_recordKeys, mem_recordKeys, h4]
  by_cases hcur : n ∈ d.package
  · have hmem : wantInstalled n ∈ plan :=
      (mem_plan ρ d plan h2 (wantInstalled n)).mpr (Or.inl ⟨hcur, rfl⟩)
    have hval := get_foldl_recordStep_mem inv.ToMap (wantInstalled n) plan (recordBefore d)
      (plan_names_nodup ρ d plan h2) hmem
    have hname : (wantInstalled n).Name = n := rfl
    rw [hname] at hval
    rw [hval]
    unfold recordValue
    have hst : (wantInstalled n).State = PackageState.PackageInstalled := rfl
    rw [if_pos hst]
    constructor
    · intro _; exact Or.inl hcur
    · intro _
      split <;> simp
  · by_cases hprev : n ∈ d.prevPackage
    · have hmem : wantRemoved n ∈ plan :=
        (mem_plan ρ d plan h2 (wantRemoved n)).mpr (Or.inr ⟨hprev, hcur, rfl⟩)
      have hval := get_foldl_recordStep_mem inv.ToMap (wantRemoved n) plan (recordBefore d)
        (plan_names_nodup ρ d plan h2) hmem
      have hname : (wantRemoved n).Name = n := rfl
      rw [hname] at hval
      rw [hval]
      unfold recordValue
      have hst : (wantRemoved n).State = PackageState.PackageNotInstalled := rfl
      have hst2 : (wantRemoved n).State ≠ PackageState.PackageInstalled := by rw [hst]; decide
      rw [if_neg hst2, if_pos hst]
      simp [hcur, hprev]
    · have hnot : n ∉ plan.map Package.Name := by
        intro hn
        obtain ⟨p, hp, hpn⟩ := List.mem_map.mp hn
        rcases (mem_plan ρ d plan h2 p).mp hp with ⟨h1, _⟩ | ⟨h1, _, _⟩
        · exact hcur (hpn ▸ h1)
        · exact hprev (hpn ▸ h1)
      rw [get_foldl_recordStep_other inv.ToMap n plan _ hnot, ← recorded_eq_get]
      simp [hcur, hprev]

/-- A successful refresh leaves the PreInstalledRecord as it is. -/
theorem recordKeys_after_read (ρ : RangeOrder) (s : System) (log : List Command)
    (d d1 : ResourceData) (log1 : List Command)
    (h : resourcePackagesSnapRead ρ s log d = (none, d1, log1)) :
    recordKeys d1 = recordKeys d := by
  unfold resourcePackagesSnapRead at h
  rcases hget : Get s log with ⟨g, log1a⟩
  rw [hget] at h
  cases g with
  | error err => simp at h
  | ok inv =>
    simp only [Prod.mk.injEq, true_and] at h
    rw [← h.1]
    rfl

/-- C23, as amended: in every state that a successful create, started from an
empty PreInstalledRecord, and any sequence of successful refreshes and updates
lead to, every name of the current declaration is a key of the
PreInstalledRecord; the keys are exactly the names of the current declaration
when every update of the sequence found the names it dropped from the
declaration in the old value of `package`, the value the last read-back or
refresh wrote; and an update from such a state tracks afterwards the names of
its declaration and the names tracked before that the old value of `package`
lacks: a dropped package which the last read did not list stays tracked. -/
theorem tracked_names_are_current (surfaced : Bool) (D : List PackageBlock)
    (d : ResourceData) (h : Reachable surfaced D d) :
    (∀ n ∈ D, n ∈ recordKeys d) ∧
    (surfaced = true → ∀ n, n ∈ recordKeys d ↔ n ∈ D) ∧
    (∀ (ρ : RangeOrder) (s : System) (log : List Command) (D2 : List PackageBlock)
      (d2 : ResourceData) (log2 : List Command),
      resourcePackagesSnapUpdate ρ s log (updateData d D2) = (none, d2, log2) →
      ∀ n, n ∈ recordKeys d2 ↔ (n ∈ D2 ∨ (n ∈ recordKeys d ∧ n ∉ d.package))) := by
  have hstep : ∀ (d : ResourceData) (ρ : RangeOrder) (s : System) (log : List Command)
      (D2 : List PackageBlock) (d2 : ResourceData) (log2 : List Command),
      resourcePackagesSnapUpdate ρ s log (updateData d D2) = (none, d2, log2) →
      ∀ n, n ∈ recordKeys d2 ↔ (n ∈ D2 ∨ (n ∈ recordKeys d ∧ n ∉ d.package)) := by
    intro d ρ s log D2 d2 log2 hop n
    rw [update_eq_create] at hop
    exact tracked_after_create ρ s log (updateData d D2) d2 log2 hop n
  refine ⟨?_, ?_, hstep d⟩
  · induction h with
    | create ρ s log d0 d1 log1 hprev hrec h =>
      intro n hn
      exact (tracked_after_create ρ s log d0 d1 log1 h n).mpr (Or.inl hn)
    | refresh D d _ ρ s log d1 log1 h ih =>
      intro n hn
      rw [recordKeys_after_read ρ s log d d1 log1 h]
      exact ih n hn
    | update D d _ ρ s log D2 d2 log2 _ h _ =>
      intro n hn
      exact (hstep d ρ s log D2 d2 log2 h n).mpr (Or.inl hn)
  · intro hsurf
    induction h with
    | create ρ s log d0 d1 log1 hprev hrec h =>
      intro n
      rw [tracked_after_create ρ s log d0 d1 log1 h n]
      have hnone : n ∉ recordKeys d0 := by
        unfold recordKeys
        rw [hrec]
        simp
      simp [hnone]
    | refresh D d _ ρ s log d1 log1 h ih =>
      intro n
      rw [recordKeys_after_read ρ s log d d1 log1 h]
      exact ih n
    | update D d _ ρ s log D2 d2 log2 hs h ih =>
      intro n
      rw [hstep d ρ s log D2 d2 log2 h n, ih n]
      constructor
      · rintro (h1 | ⟨h1, h2⟩)
        · exact h1
        · by_contra hcon
          exact h2 (hs hsurf n h1 hcon)
      · intro h1
        exact Or.inl h1

set_option maxRecDepth 20000 in
/-- C23 for the create of `{hello, hello-world}` followed by the update to
`{hello}` on a machine whose snap lists both: the read-back of the create has
surfaced `hello-world`, the state is reachable, and `hello` alone is tracked. -/
theorem tracked_names_are_current_witness :
    Reachable true ["hello"] (dataAfterUpdateHello systemHelloListed) ∧
    (dataAfterCreateHelloWorld systemHelloListed).package = ["hello", "hello-world"] ∧
    recordKeys (dataAfterUpdateHello systemHelloListed) = ["hello"] ∧
    ((∀ n ∈ ["hello"], n ∈ recordKeys (dataAfterUpdateHello systemHelloListed)) ∧
      (true = true →
        ∀ n, n ∈ recordKeys (dataAfterUpdateHello systemHelloListed) ↔ n ∈ ["hello"]) ∧
      (∀ (ρ : RangeOrder) (s : System) (log : List Command) (D2 : List PackageBlock)
        (d2 : ResourceData) (log2 : List Command),
        resourcePackagesSnapUpdate ρ s log
          (updateData (dataAfterUpdateHello systemHelloListed) D2) = (none, d2, log2) →
        ∀ n, n ∈ recordKeys d2 ↔
          (n ∈ D2 ∨ (n ∈ recordKeys (dataAfterUpdateHello systemHelloListed) ∧
            n ∉ (dataAfterUpdateHello systemHelloListed).package)))) :=
  have hreach : Reachable true ["hello"] (dataAfterUpdateHello systemHelloListed) :=
    Reachable.update ["hello", "hello-world"] (dataAfterCreateHelloWorld systemHelloListed)
      (Reachable.create RangeOrder.stored systemHelloListed [] dataCreateHelloWorld
        (dataAfterCreateHelloWorld systemHelloListed)
        (resourcePackagesSnapCreate RangeOrder.stored systemHelloListed []
          dataCreateHelloWorld).2.2
        rfl rfl (by decide))
      RangeOrder.stored systemHelloListed [] ["hello"] (dataAfterUpdateHello systemHelloListed)
      (resourcePackagesSnapUpdate RangeOrder.stored systemHelloListed []
        (updateData (dataAfterCreateHelloWorld systemHelloListed) ["hello"])).2.2
      (fun _ => by decide)
      (by decide)
  ⟨hreach, by decide, by decide,
    tracked_names_are_current true ["hello"] (dataAfterUpdateHello systemHelloListed) hreach⟩

set_option maxRecDepth 20000 in
/-- C23 fails as stated: on a machine whose snap lists `core` only and on which
every other command succeeds, the create of `{hello, hello-world}` succeeds and
its read-back surfaces no package; the update to `{hello}` that follows finds an
empty old value of `package`, issues no removal, succeeds, and leaves
`hello-world` tracked, which the current declaration does not have. -/
theorem tracked_names_are_current_counterexample :
    Reachable false ["hello"] (dataAfterUpdateHello systemCoreListed) ∧
    dataCreateHelloWorld.prevPackage = [] ∧ dataCreateHelloWorld.internal = none ∧
    resourcePackagesSnapCreate RangeOrder.stored systemCoreListed [] dataCreateHelloWorld =
      (none, dataAfterCreateHelloWorld systemCoreListed,
        [snapListCommand, snapInstallCommand "hello", snapInstallCommand "hello-world",
          snapListCommand]) ∧
    (dataAfterCreateHelloWorld systemCoreListed).package = [] ∧
    recordKeys (dataAfterCreateHelloWorld systemCoreListed) = ["hello", "hello-world"] ∧
    resourcePackagesSnapUpdate RangeOrder.stored systemCoreListed []
        (updateData (dataAfterCreateHelloWorld systemCoreListed) ["hello"]) =
      (none, dataAfterUpdateHello systemCoreListed,
        [snapListCommand, snapInstallCommand "hello", snapListCommand]) ∧
    recordKeys (dataAfterUpdateHello systemCoreListed) = ["hello", "hello-world"] ∧
    "hello-world" ∉ ["hello"] :=
  ⟨Reachable.update ["hello", "hello-world"] (dataAfterCreateHelloWorld systemCoreListed)
      (Reachable.create RangeOrder.stored systemCoreListed [] dataCreateHelloWorld
        (dataAfterCreateHelloWorld systemCoreListed)
        (resourcePackagesSnapCreate RangeOrder.stored systemCoreListed []
          dataCreateHelloWorld).2.2
        rfl rfl (by decide))
      RangeOrder.stored systemCoreListed [] ["hello"] (dataAfterUpdateHello systemCoreListed)
      (resourcePackagesSnapUpdate RangeOrder.stored systemCoreListed []
        (updateData (dataAfterCreateHelloWorld systemCoreListed) ["hello"])).2.2
      (fun hf => Bool.noConfusion hf)
      (by decide),
    by decide⟩

/-! ### C20: the command executed for a package -/

theorem applyCommand_eq_snippetOf (p : Package) : applyCommand p = snippetOf p := by
  unfold applyCommand snippetOf
  cases hst : p.State with
  | PackageInstalled => simp [snapInstallCommand_text]
  | PackageNotInstalled => simp [snapRemoveCommand_text]

/-- C20, as amended: `Apply` keeps the commands executed before the call and adds
at most one command for a package. For a package of the collection whose turn
comes, no command of an earlier package having failed, the command executed for
it is the probe followed by `snap install '<name>'` if its state is Installed and
the probe followed by `snap remove '<name>'` if its state is NotInstalled, where
`<name>` is the name of that package as it stands; for a package after a failing
command no command is executed. -/
theorem command_of_single_package (s : System) (log : List Command) (pkgs : Packages)
    (i : Nat) (p : Package) (hp : pkgs.get? i = some p) :
    (Apply s log pkgs).2.take log.length = log ∧
    (Apply s log pkgs).2.length ≤ log.length + pkgs.length ∧
    ((∀ j, j < i → failsAt s log pkgs j = false) →
      executedFor s log pkgs i = some (snippetOf p)) ∧
    ((∃ j, j < i ∧ failsAt s log pkgs j = true) → executedFor s log pkgs i = none) := by
  have hi : i < pkgs.length := by
    rw [List.get?_eq_some] at hp
    exact hp.1
  unfold executedFor
  rw [List.get?_eq_getElem?] at hp
  simp only [List.get?_eq_getElem?]
  rw [Apply_eq_applyLoop]
  rcases first_failure_exists (failsAt s log pkgs) pkgs.length with hno | ⟨j0, hj0, hf, hb⟩
  · rw [applyLoop_of_no_failure s pkgs log hno]
    refine ⟨by simp, by simp, ?_, ?_⟩
    · intro _
      simp only
      rw [List.getElem?_append_right (by omega), Nat.add_sub_cancel_left, List.getElem?_map,
        hp, Option.map_some', applyCommand_eq_snippetOf]
    · rintro ⟨j, hj, hfj⟩
      have := hno j (by omega)
      rw [this] at hfj
      cases hfj
  · rw [(applyLoop_of_first_failure s pkgs log j0 hj0 hf hb).2]
    refine ⟨by simp, ?_, ?_, ?_⟩
    · simp only [List.length_append, List.length_map, List.length_take]
      omega
    · intro hbefore
      have hle : i ≤ j0 := by
        by_contra hcon
        have := hbefore j0 (by omega)
        rw [this] at hf
        cases hf
      rw [List.getElem?_append_right (by omega), Nat.add_sub_cancel_left, List.getElem?_map,
        List.getElem?_take_of_lt (by omega), hp, Option.map_some', applyCommand_eq_snippetOf]
    · rintro ⟨j, hj, hfj⟩
      have hle : j0 ≤ j := by
        by_contra hcon
        have := hb j (by omega)
        rw [this] at hfj
        cases hfj
      apply List.getElem?_eq_none
      simp only [List.length_append, List.length_map, List.length_take]
      omega

set_option maxRecDepth 20000 in
/-- C20 on a machine that fails to remove `hello`: of the three packages the second
gets the remove snippet of its name, and the third, after the failure, gets none. -/
theorem command_of_single_package_witness :
    executedFor systemRemoveFails []
        [wantInstalled "core", wantRemoved "hello", wantRemoved "vlc"] 1 =
      some (snippetOf (wantRemoved "hello")) ∧
    executedFor systemRemoveFails []
        [wantInstalled "core", wantRemoved "hello", wantRemoved "vlc"] 2 = none :=
  ⟨(command_of_single_package systemRemoveFails []
      [wantInstalled "core", wantRemoved "hello", wantRemoved "vlc"] 1 (wantRemoved "hello")
      (by decide)).2.2.1 (by decide),
    (command_of_single_package systemRemoveFails []
      [wantInstalled "core", wantRemoved "hello", wantRemoved "vlc"] 2 (wantRemoved "vlc")
      (by decide)).2.2.2 ⟨1, by decide, by decide⟩⟩

set_option maxRecDepth 20000 in
/-- C20 fails as stated: of the collection `hello`, `hello-world`, both to install,
the command executed for `hello-world` is its install snippet, and the name of
the other package, `hello`, appears in it. -/
theorem command_of_single_package_counterexample :
    executedFor systemHelloListed [] [wantInstalled "hello", wantInstalled "hello-world"] 1 =
      some (snapInstallCommand "hello-world") ∧
    (wantInstalled "hello").Name ≠ (wantInstalled "hello-world").Name ∧
    (wantInstalled "hello").Name.data <:+: (snapInstallCommand "hello-world").data :=
  ⟨by decide, by decide,
    ⟨(probeGuard ++ "snap install \x27").data, "-world\x27; \x7d; _do;".data, by decide⟩⟩

/-! ### C7: declarations with a repeated name -/

theorem errEmptyName_ne_errDuplicateName (n : String) : errEmptyName ≠ errDuplicateName n := by
  intro h
  unfold errEmptyName errDuplicateName at h
  simp only [GoError.new.injEq] at h
  have hd := congrArg (fun t : String => t.data.head?) h
  simp only [String.data_append] at hd
  have h1 : ("duplicate package name ".data ++ n.data).head? = some (Char.ofNat 100) := rfl
  rw [h1] at hd
  revert hd
  decide

/-- A list without repeated name never gives the duplicate-name error. -/
theorem no_duplicate_error_of_nodup (D : List PackageBlock) (hnd : D.Nodup) (n : String) :
    expandPackagesSnapPackageSet D ≠ Except.error (errDuplicateName n) := by
  intro h
  unfold expandPackagesSnapPackageSet at h
  rcases expandSetLoop_error D [] _ h with ⟨h1, _⟩ | ⟨m, _, _, h3⟩
  · exact errEmptyName_ne_errDuplicateName n h1.symm
  · rcases h3 with h3 | h3
    · simp [GoMap.keys] at h3
    · have := List.nodup_iff_count_le_one.mp hnd m
      omega

theorem declaredLoop_spec (blocks : List PackageBlock) :
    ∀ acc : PackageSet, (acc.map PackageItem.name).Nodup →
      ((blocks.foldl (fun set name => setAdd set { name := name, versions := [] })
        acc).map PackageItem.name).Nodup ∧
      ∀ n, n ∈ (blocks.foldl (fun set name => setAdd set { name := name, versions := [] })
        acc).map PackageItem.name ↔ n ∈ acc.map PackageItem.name ∨ n ∈ blocks := by
  induction blocks with
  | nil =>
    intro acc hnd
    exact ⟨hnd, fun n => by simp⟩
  | cons c rest ih =>
    intro acc hnd
    simp only [List.foldl_cons]
    by_cases hc : c ∈ acc.map PackageItem.name
    · rw [setAdd_of_mem acc _ hc]
      obtain ⟨i1, i2⟩ := ih acc hnd
      refine ⟨i1, ?_⟩
      intro n
      rw [i2 n, List.mem_cons]
      constructor
      · rintro (h | h)
        · exact Or.inl h
        · exact Or.inr (Or.inr h)
      · rintro (h | h | h)
        · exact Or.inl h
        · exact Or.inl (h ▸ hc)
        · exact Or.inr h
    · rw [setAdd_of_not_mem acc _ hc]
      have hnd2 : ((acc ++ [({ name := c, versions := [] } : PackageItem)]).map
          PackageItem.name).Nodup := by
        rw [List.map_append, List.map_cons, List.map_nil]
        apply List.Nodup.append hnd (List.nodup_singleton _)
        intro a ha hb
        rw [List.mem_singleton] at hb
        have hb2 : a = c := hb
        exact hc (hb2 ▸ ha)
      obtain ⟨i1, i2⟩ := ih _ hnd2
      refine ⟨i1, ?_⟩
      intro n
      rw [i2 n, List.map_append, List.map_cons, List.map_nil, List.mem_append,
        List.mem_singleton, List.mem_cons]
      constructor
      · rintro ((h | h) | h)
        · exact Or.inl h
        · exact Or.inr (Or.inl h)
        · exact Or.inr (Or.inr h)
      · rintro (h | h | h)
        · exact Or.inl (Or.inl h)
        · exact Or.inl (Or.inr h)
        · exact Or.inr h

/-- The value of `package` that a declaration gives has the names of the
declaration, each once; so the duplicate check of `expandPackagesSnapPackageSet`
(line 132) never fires on it, whatever the declaration repeats. -/
theorem declaredPackage_spec (ρ : RangeOrder) (blocks : List PackageBlock) :
    (declaredPackage ρ blocks).Nodup ∧
    (∀ n, n ∈ declaredPackage ρ blocks ↔ n ∈ blocks) ∧
    (∀ n, expandPackagesSnapPackageSet (declaredPackage ρ blocks) ≠
      Except.error (errDuplicateName n)) := by
  obtain ⟨f1, f2⟩ := declaredLoop_spec blocks newPackageSet List.nodup_nil
  have hperm := ρ.perm (blocks.foldl (fun set name => setAdd set { name := name, versions := [] })
    newPackageSet)
  have hnd : (declaredPackage ρ blocks).Nodup :=
    ((hperm.map PackageItem.name).nodup_iff).mpr f1
  refine ⟨hnd, ?_, no_duplicate_error_of_nodup _ hnd⟩
  intro n
  have h1 : n ∈ declaredPackage ρ blocks ↔
      n ∈ (blocks.foldl (fun set name => setAdd set { name := name, versions := [] })
        newPackageSet).map PackageItem.name :=
    (hperm.map PackageItem.name).mem_iff
  rw [h1, f2 n]
  simp [newPackageSet]

/-- The old value of `package` that a read-back or refresh has written never gives
the duplicate-name error either. -/
theorem no_duplicate_error_of_written (ρ : RangeOrder) (r : Packages) (d : ResourceData)
    (n : String) :
    expandPackagesSnapPackageSet (resourcePackagesSnapSetResourceData ρ r d).package ≠
      Except.error (errDuplicateName n) :=
  no_duplicate_error_of_nodup _ (setResourceData_spec ρ r d).1 n

/-- When the expansion of a declaration fails, create and update fail after
exactly one command, the inventory listing of `Get`, with the error of `Get` if
`Get` failed and with the error of the expansion otherwise; delete fails with
the error of the expansion before any command. The resource data is left as it
was. -/
theorem plan_error_fails (ρ : RangeOrder) (s : System) (log : List Command)
    (d : ResourceData) (e : GoError)
    (he : resourcePackagesSnapGetResourceData ρ d = Except.error e) :
    (∀ op : RangeOrder → System → List Command → ResourceData →
        Option GoError × ResourceData × List Command,
      (op = resourcePackagesSnapCreate ∨ op = resourcePackagesSnapUpdate) →
      ∃ err, op ρ s log d = (some err, d, log ++ [snapListCommand]) ∧
        (∀ inv, (Get s log).1 = Except.ok inv → err = e) ∧
        (∀ e1, (Get s log).1 = Except.error e1 → err = e1)) ∧
    resourcePackagesSnapDelete ρ s log d = (some e, log) := by
  constructor
  · intro op hop
    have hopc : op = resourcePackagesSnapCreate := by
      rcases hop with hop | hop
      · exact hop
      · rw [hop, update_eq_create]
    subst hopc
    have hlog := Get_log s log
    unfold resourcePackagesSnapCreate resourcePackagesSnapApply
    rcases hget : Get s log with ⟨g, log1⟩
    rw [hget] at hlog
    simp only at hlog
    subst hlog
    cases g with
    | error err =>
      refine ⟨err, rfl, ?_, ?_⟩
      · intro inv hinv
        cases hinv
      · intro e1 he1
        simp only [Except.error.injEq] at he1
        exact he1
    | ok inv =>
      refine ⟨e, ?_, ?_, ?_⟩
      · simp only [he]
      · intro _ _
        rfl
      · intro e1 he1
        cases he1
  · unfold resourcePackagesSnapDelete resourcePackagesSnapDeletePlan
    rw [he]

set_option maxRecDepth 20000 in
/-- C7 does not hold of the code: a declaration with the block of `hello` twice
reaches the functions of the resource as a set that has `hello` once, the
expansion succeeds, and the create on a machine whose snap lists `hello` succeeds
after the listing, the installation of `hello` and the listing of the read-back,
with no duplicate-name error. Where the expansion does fail, on the empty name,
the create has executed the listing of `Get` beforehand. -/
theorem repeated_name_is_not_detected :
    dataCreateHelloTwice.package = ["hello"] ∧
    expandPackagesSnapPackageSet dataCreateHelloTwice.package =
      Except.ok [("hello", "hello")] ∧
    (resourcePackagesSnapCreate RangeOrder.stored systemHelloListed []
      dataCreateHelloTwice).1 = none ∧
    (resourcePackagesSnapCreate RangeOrder.stored systemHelloListed []
      dataCreateHelloTwice).2.2 =
        [snapListCommand, snapInstallCommand "hello", snapListCommand] ∧
    (resourcePackagesSnapCreate RangeOrder.stored systemHelloListed []
      dataCreateHelloTwice).2.1.id = "hello" ∧
    resourcePackagesSnapCreate RangeOrder.stored systemHelloListed [] dataCreateEmptyName =
      (some errEmptyName, dataCreateEmptyName, [snapListCommand]) := by
  decide

end SnapProvider
